import Mathlib

/-!
# MovieRecommendationSystem: user-based collaborative filtering

A shallow embedding of the two recommenders of the repository,

* `Recommender` of `movie2.cpp` (integer ratings, per-user global means,
  a similarity table, `load`, `predict`, `recommend`), and
* `MovieRecommender` of `movierecommender.cpp` (double ratings, id maps,
  `calculateUserSimilarity`, `predictRating`, `getTopNRecommendations`,
  `calculateRMSE`),

followed by the properties of the specification that concern them.

Modelling conventions.

* `double` is an arbitrary linearly ordered field `α` (real arithmetic, no
  rounding); `std::sqrt` is a parameter `sqrt : α → α`, instantiated with
  `Real.sqrt` in the statements that depend on it.
* `int` ratings are `Int`; loop counters and `size_t` indices are `Nat`.
* `v[i]` on a `std::vector` is `v[i]?`: an access outside the vector makes the
  whole operation `none`. The short-circuit of `&&` is kept, so an operand
  that the program does not evaluate is not accessed in the model either.
* `std::unordered_map<int,int>` is the list of its entries in iteration
  order; `operator[]` on it returns the updated map as well, since it inserts
  a zero entry for an absent key.
* `std::sort` and `std::partial_sort` are parameters, constrained in the
  theorems by what the C++ standard promises of them.
-/

namespace MovieRec

/-! ## Vector access -/

/-- Access `m[u][i]` of a vector of vectors; `none` when `u` or `i` is out of range. -/
def cell {β : Type} (m : List (List β)) (u i : Nat) : Option β :=
  (m[u]?).bind fun row => row[i]?

/-- Access `m[u][j]` where the column `j` was computed in `int` arithmetic:
a negative `j` converts to a huge `size_t` and is out of range. -/
def cellAt {β : Type} (m : List (List β)) (u : Nat) (j : Int) : Option β :=
  if 0 ≤ j then cell m u j.toNat else none

/-! ## `movie2.cpp`: class `Recommender` -/

/-- The `struct Movie` of `movie2.cpp`. -/
structure Movie where
  name : String
  id : Int

/-- The fields of `class Recommender`. The table `similarities`
(`map<int, map<int, double>>`) is represented by its lookup function:
`similarities u v` is the value found under key `v` of the inner map under key
`u`, and `none` when either key is absent. Reading `similarities[user]` in
`predict` may insert an empty inner map, which leaves this lookup unchanged. -/
structure Recommender (α : Type) where
  movies : List Movie
  ratings : List (List Int)
  similarities : Nat → Nat → Option α
  avgRatings : List α

section RecommenderCode

variable {α : Type} [LinearOrderedField α]

/-- The body of the inner loop of `calcAvgRatings`: `(sum, count)` after one rating. -/
def avgStep (acc : α × Nat) (r : Int) : α × Nat :=
  if 0 < r then (acc.1 + (r : α), acc.2 + 1) else acc

/-- The average computed by `calcAvgRatings` for one row. -/
def rowAvg (row : List Int) : α :=
  let acc := row.foldl avgStep ((0 : α), 0)
  if 0 < acc.2 then acc.1 / (acc.2 : α) else 0

/-- `Recommender::calcAvgRatings`: the new value of `avgRatings`. -/
def calcAvgRatings (ratings : List (List Int)) : List α :=
  ratings.map rowAvg

/-- The local variables of `calcPearson`. -/
structure PearsonAcc (α : Type) where
  sum1 : α
  sum2 : α
  sum1Sq : α
  sum2Sq : α
  pSum : α
  count : Nat

/-- One iteration of the loop of `calcPearson` at column `i`. -/
def pearsonStep (R : Recommender α) (u1 u2 : Nat) (acc : PearsonAcc α) (i : Nat) :
    Option (PearsonAcc α) :=
  (cell R.ratings u1 i).bind fun x1 =>
    if x1 = 0 then some acc else
    (cell R.ratings u2 i).bind fun x2 =>
      if x2 = 0 then some acc else
      (R.avgRatings[u1]?).bind fun a1 =>
      (R.avgRatings[u2]?).bind fun a2 =>
        let r1 : α := (x1 : α) - a1
        let r2 : α := (x2 : α) - a2
        some { sum1 := acc.sum1 + r1, sum2 := acc.sum2 + r2,
               sum1Sq := acc.sum1Sq + r1 * r1, sum2Sq := acc.sum2Sq + r2 * r2,
               pSum := acc.pSum + r1 * r2, count := acc.count + 1 }

/-- `Recommender::calcPearson`. -/
def calcPearson (sqrt : α → α) (R : Recommender α) (u1 u2 : Nat) : Option α :=
  (R.ratings[0]?).bind fun row0 =>
  ((List.range row0.length).foldlM (pearsonStep R u1 u2) ⟨0, 0, 0, 0, 0, 0⟩).bind fun acc =>
    if acc.count = 0 then some 0 else
    let denom := sqrt (acc.sum1Sq * acc.sum2Sq)
    some (if denom = 0 then 0 else acc.pSum / denom)

/-- The two assignments `similarities[u1][u2] = sim; similarities[u2][u1] = sim`. -/
def setSim (t : Nat → Nat → Option α) (u1 u2 : Nat) (sim : α) : Nat → Nat → Option α :=
  fun a b =>
    if a = u2 ∧ b = u1 then some sim
    else if a = u1 ∧ b = u2 then some sim
    else t a b

/-- `Recommender::calcSimilarities`: the new state, `none` if some
`calcPearson` call reads outside the matrix. -/
def calcSimilarities (sqrt : α → α) (R : Recommender α) : Option (Recommender α) :=
  (List.range R.ratings.length).foldlM (fun R1 u1 =>
    (List.range' (u1 + 1) (R.ratings.length - (u1 + 1))).foldlM (fun R2 u2 =>
      (calcPearson sqrt R2 u1 u2).bind fun sim =>
        some { R2 with similarities := setSim R2.similarities u1 u2 sim }) R1) R

/-- The locals `num`, `denom`, `hasSims` of `predict`. -/
structure PredictAcc (α : Type) where
  num : α
  denom : α
  hasSims : Bool

/-- One iteration of the first loop of `predict`, at user `u`. -/
def predictStep (R : Recommender α) (user : Nat) (movieId : Int) (acc : PredictAcc α)
    (u : Nat) : Option (PredictAcc α) :=
  if u = user then some acc else
  (cellAt R.ratings u (movieId - 1)).bind fun r =>
    if r = 0 then some acc else
    match R.similarities user u with
    | some sim =>
      if 0 < sim then
        some { num := acc.num + sim * (r : α), denom := acc.denom + |sim|, hasSims := true }
      else some acc
    | none => some acc

/-- One iteration of the fallback loop of `predict`: `(movieAvg, count)`. -/
def movieAvgStep (R : Recommender α) (movieId : Int) (acc : α × Nat) (u : Nat) :
    Option (α × Nat) :=
  (cellAt R.ratings u (movieId - 1)).bind fun r =>
    if r = 0 then some acc else some (acc.1 + (r : α), acc.2 + 1)

/-- `Recommender::predict`. -/
def predict (R : Recommender α) (user : Nat) (movieId : Int) : Option α :=
  ((List.range R.ratings.length).foldlM (predictStep R user movieId) ⟨0, 0, false⟩).bind
    fun acc =>
      if acc.hasSims = false then
        ((List.range R.ratings.length).foldlM (movieAvgStep R movieId) ((0 : α), 0)).bind
          fun avg => some (if 0 < avg.2 then avg.1 / (avg.2 : α) else 3)
      else some (if acc.denom = 0 then 3 else acc.num / acc.denom)

/-- The comparison lambda of `recommend` and of `getTopNRecommendations`:
`a.second > b.second`. -/
def byScoreDesc (a b : Int × α) : Bool := decide (b.2 < a.2)

/-- One iteration of the candidate loop of `recommend`, at column `i`. -/
def recommendStep (R : Recommender α) (user : Nat) (preds : List (Int × α)) (i : Nat) :
    Option (List (Int × α)) :=
  (cell R.ratings user i).bind fun r =>
    if r = 0 then
      (predict R user ((i : Int) + 1)).bind fun p => some (preds ++ [((i : Int) + 1, p)])
    else some preds

/-- `Recommender::recommend`. The argument `stdPartialSort cmp l k` stands for
`std::partial_sort(l.begin(), l.begin() + k, l.end(), cmp)`. A negative `n`
puts the middle iterator before `begin()`, which is outside the contract of
`std::partial_sort`: the result is `none`. -/
def recommend (stdPartialSort : (Int × α → Int × α → Bool) → List (Int × α) → Nat → List (Int × α))
    (R : Recommender α) (user : Nat) (n : Int) : Option (List (Int × α)) :=
  ((List.range R.movies.length).foldlM (recommendStep R user) []).bind fun preds =>
    let k : Int := min n (preds.length : Int)
    if k < 0 then none
    else some ((stdPartialSort byScoreDesc preds k.toNat).take k.toNat)

/-- `Recommender::load` on a freshly constructed object, after the file has
been split into fields: `header` holds the fields of the first line, `rows`
the fields of every further line converted by `stoi`. Every header field
becomes a movie with ids `1, 2, ...`; the similarity table stays empty. -/
def load (header : List String) (rows : List (List Int)) : Recommender α :=
  { movies := header.enum.map fun p => { name := p.2, id := (p.1 : Int) + 1 },
    ratings := rows,
    similarities := fun _ _ => none,
    avgRatings := calcAvgRatings rows }

end RecommenderCode

/-! ## `movierecommender.cpp`: class `MovieRecommender` -/

/-- The fields of `class MovieRecommender`; each `unordered_map<int, int>` is
the list of its `(key, value)` entries in iteration order. -/
structure MovieRecommender (α : Type) where
  ratingsMatrix : List (List α)
  movieIdToIndex : List (Int × Nat)
  userIdToIndex : List (Int × Nat)

/-- `m[key]` on an `unordered_map<int, int>` read as `size_t`: the value found
and the map afterwards. An absent key is inserted with value `0`. -/
def mapIndex (m : List (Int × Nat)) (key : Int) : Nat × List (Int × Nat) :=
  match m.lookup key with
  | some v => (v, m)
  | none => (0, (key, 0) :: m)

section MovieRecommenderCode

variable {α : Type} [LinearOrderedField α]

/-- One iteration of the first loop of `calculateUserSimilarity`: the pair
`(user1[i], user2[i])` is appended to `(commonRatings1, commonRatings2)`, kept
as one list of pairs, when both are positive. -/
def commonStep (user1 user2 : List α) (common : List (α × α)) (i : Nat) :
    Option (List (α × α)) :=
  (user1[i]?).bind fun x =>
    if 0 < x then
      (user2[i]?).bind fun y => if 0 < y then some (common ++ [(x, y)]) else some common
    else some common

/-- The second loop of `calculateUserSimilarity`:
`(numerator, denominator1, denominator2)` after one common rating. -/
def diffStep (mean1 mean2 : α) (acc : α × α × α) (p : α × α) : α × α × α :=
  let diff1 := p.1 - mean1
  let diff2 := p.2 - mean2
  (acc.1 + diff1 * diff2, acc.2.1 + diff1 * diff1, acc.2.2 + diff2 * diff2)

/-- The part of `calculateUserSimilarity` after the common ratings are collected. -/
def similarityOfCommon (sqrt : α → α) (common : List (α × α)) : α :=
  if common.isEmpty then 0 else
  let mean1 := (common.map Prod.fst).sum / (common.length : α)
  let mean2 := (common.map Prod.snd).sum / (common.length : α)
  let acc := common.foldl (diffStep mean1 mean2) (0, 0, 0)
  if acc.2.1 = 0 ∨ acc.2.2 = 0 then 0
  else acc.1 / sqrt (acc.2.1 * acc.2.2)

/-- `MovieRecommender::calculateUserSimilarity`. -/
def calculateUserSimilarity (sqrt : α → α) (user1 user2 : List α) : Option α :=
  ((List.range user1.length).foldlM (commonStep user1 user2) []).bind fun common =>
    some (similarityOfCommon sqrt common)

/-- One iteration of the loop of `predictRating` at row `i`:
`(weightedRatingSum, similaritySum)`. -/
def ratingStep (sqrt : α → α) (m : List (List α)) (userIndex movieIndex : Nat)
    (acc : α × α) (i : Nat) : Option (α × α) :=
  if i = userIndex then some acc else
  (cell m i movieIndex).bind fun r =>
    if 0 < r then
      (m[userIndex]?).bind fun rowU =>
      (m[i]?).bind fun rowI =>
      (calculateUserSimilarity sqrt rowU rowI).bind fun similarity =>
        some (acc.1 + similarity * r, acc.2 + |similarity|)
    else some acc

/-- `MovieRecommender::predictRating`: the returned value and the state
afterwards (both lookups go through `operator[]`). -/
def predictRating (sqrt : α → α) (s : MovieRecommender α) (userId movieId : Int) :
    Option (α × MovieRecommender α) :=
  let ui := mapIndex s.userIdToIndex userId
  let mi := mapIndex s.movieIdToIndex movieId
  let s1 : MovieRecommender α :=
    { ratingsMatrix := s.ratingsMatrix, movieIdToIndex := mi.2, userIdToIndex := ui.2 }
  (cell s.ratingsMatrix ui.1 mi.1).bind fun r =>
    if 0 < r then some (r, s1) else
    ((List.range s.ratingsMatrix.length).foldlM
        (ratingStep sqrt s.ratingsMatrix ui.1 mi.1) ((0 : α), (0 : α))).bind fun acc =>
      some (if 0 < acc.2 then acc.1 / acc.2 else 0, s1)

/-- One iteration of the loop of `getTopNRecommendations` over the entries of
`movieIdToIndex`: the list `movieRatings` and the current state. -/
def topStep (sqrt : α → α) (userId : Int) (userIndex : Nat)
    (acc : List (Int × α) × MovieRecommender α) (moviePair : Int × Nat) :
    Option (List (Int × α) × MovieRecommender α) :=
  (cell acc.2.ratingsMatrix userIndex moviePair.2).bind fun r =>
    if 0 < r then some acc else
    (predictRating sqrt acc.2 userId moviePair.1).bind fun res =>
      some (acc.1 ++ [(moviePair.1, res.1)], res.2)

/-- `MovieRecommender::getTopNRecommendations`: the returned vector and the
state afterwards. The argument `stdSort cmp l` stands for
`std::sort(l.begin(), l.end(), cmp)`. The loop runs over the entries the map
has when the loop starts. -/
def getTopNRecommendations (stdSort : (Int × α → Int × α → Bool) → List (Int × α) → List (Int × α))
    (sqrt : α → α) (s : MovieRecommender α) (userId : Int) (N : Nat) :
    Option (List (Int × α) × MovieRecommender α) :=
  let ui := mapIndex s.userIdToIndex userId
  let s1 : MovieRecommender α :=
    { ratingsMatrix := s.ratingsMatrix, movieIdToIndex := s.movieIdToIndex, userIdToIndex := ui.2 }
  (s1.movieIdToIndex.foldlM (topStep sqrt userId ui.1) ([], s1)).bind fun res =>
    let movieRatings := stdSort byScoreDesc res.1
    some (movieRatings.take (min N movieRatings.length), res.2)

/-- The reverse lookup of `calculateRMSE`: the key of the first entry, in
iteration order, whose value is `index`, and `-1` when there is none. -/
def findId (m : List (Int × Nat)) (index : Nat) : Int :=
  match m.find? (fun p => p.2 == index) with
  | some p => p.1
  | none => -1

/-- The locals of `calculateRMSE`, with the current state of the store. -/
structure RmseAcc (α : Type) where
  sumSquaredError : α
  totalRatings : Nat
  store : MovieRecommender α

/-- The body of the inner loop of `calculateRMSE` at cell
`(userIndex, movieIndex)`. -/
def rmseCell (sqrt : α → α) (userIndex : Nat) (acc : RmseAcc α) (movieIndex : Nat) :
    Option (RmseAcc α) :=
  (cell acc.store.ratingsMatrix userIndex movieIndex).bind fun r =>
    if r = 0 then some acc else
    let userId := findId acc.store.userIdToIndex userIndex
    let movieId := findId acc.store.movieIdToIndex movieIndex
    (predictRating sqrt acc.store userId movieId).bind fun res =>
      (cell res.2.ratingsMatrix userIndex movieIndex).bind fun actualRating =>
        some { sumSquaredError := acc.sumSquaredError + (actualRating - res.1) ^ 2,
               totalRatings := acc.totalRatings + 1,
               store := res.2 }

/-- The body of the outer loop of `calculateRMSE` at row `userIndex`. -/
def rmseRow (sqrt : α → α) (acc : RmseAcc α) (userIndex : Nat) : Option (RmseAcc α) :=
  (acc.store.ratingsMatrix[userIndex]?).bind fun row =>
    (List.range row.length).foldlM (rmseCell sqrt userIndex) acc

/-- `MovieRecommender::calculateRMSE`: the returned value and the state
afterwards. With no rated cell the C++ quotient is `0.0 / 0`, not a number;
here it is the field's `0 / 0`, and no statement below relies on that case. -/
def calculateRMSE (sqrt : α → α) (s : MovieRecommender α) :
    Option (α × MovieRecommender α) :=
  ((List.range s.ratingsMatrix.length).foldlM (rmseRow sqrt)
      { sumSquaredError := 0, totalRatings := 0, store := s }).bind fun acc =>
    some (sqrt (acc.sumSquaredError / (acc.totalRatings : α)), acc.store)

end MovieRecommenderCode


/-! ## Views of the state used in the statements -/

section Views

variable {α : Type} [LinearOrderedField α]

/-- Every row of the matrix has `n` columns. -/
def RowsOfLength {β : Type} (m : List (List β)) (n : Nat) : Prop :=
  ∀ row ∈ m, row.length = n

instance {β : Type} (m : List (List β)) (n : Nat) : Decidable (RowsOfLength m n) := by
  unfold RowsOfLength; infer_instance

/-- The rating `ratings[u][i]` of a `Recommender`, `0` outside the matrix. -/
def ratingOf (R : Recommender α) (u i : Nat) : Int :=
  (R.ratings.getD u []).getD i 0

/-- The stored mean `avgRatings[u]`, `0` outside the vector. -/
def avgOf (R : Recommender α) (u : Nat) : α :=
  R.avgRatings.getD u 0

/-- Column `i` is co-rated by `u1` and `u2`: both ratings are non-zero. -/
def coRated (R : Recommender α) (u1 u2 i : Nat) : Prop :=
  ratingOf R u1 i ≠ 0 ∧ ratingOf R u2 i ≠ 0

instance (R : Recommender α) (u1 u2 i : Nat) : Decidable (coRated R u1 u2 i) := by
  unfold coRated; infer_instance

/-- The centred rating `ratings[u][i] - avgRatings[u]` of user `u` when column
`i` is co-rated by `u` and `v`, and `0` otherwise. -/
def dev (R : Recommender α) (u v i : Nat) : α :=
  if coRated R u v i then (ratingOf R u i : α) - avgOf R u else 0

/-- Number of columns of the matrix: the size of row `0`. -/
def numCols (R : Recommender α) : Nat := (R.ratings.getD 0 []).length

/-- The value `calcPearson` computes from its three sums: `0` when there is no
co-rated column or the denominator is `0`, the quotient otherwise. -/
def pearsonValue (sqrt : α → α) (count : Nat) (pSum sum1Sq sum2Sq : α) : α :=
  if count = 0 then 0
  else if sqrt (sum1Sq * sum2Sq) = 0 then 0 else pSum / sqrt (sum1Sq * sum2Sq)

/-- The matrix of a `Recommender` is rectangular and the two users are rows
of it, each with a stored mean. -/
def PearsonReady (R : Recommender α) (u1 u2 : Nat) : Prop :=
  RowsOfLength R.ratings (numCols R) ∧ u1 < R.ratings.length ∧ u2 < R.ratings.length ∧
    R.avgRatings.length = R.ratings.length

/-- The loop body of `calcPearson` without the range checks. -/
def pearsonPure (R : Recommender α) (u1 u2 : Nat) (acc : PearsonAcc α) (i : Nat) :
    PearsonAcc α :=
  if coRated R u1 u2 i then
    { sum1 := acc.sum1 + dev R u1 u2 i, sum2 := acc.sum2 + dev R u2 u1 i,
      sum1Sq := acc.sum1Sq + dev R u1 u2 i * dev R u1 u2 i,
      sum2Sq := acc.sum2Sq + dev R u2 u1 i * dev R u2 u1 i,
      pSum := acc.pSum + dev R u1 u2 i * dev R u2 u1 i, count := acc.count + 1 }
  else acc

/-- The loop body of the first loop of `calculateUserSimilarity` without the
range checks. -/
def commonPure (user1 user2 : List α) (common : List (α × α)) (i : Nat) : List (α × α) :=
  if 0 < user1.getD i 0 ∧ 0 < user2.getD i 0 then
    common ++ [(user1.getD i 0, user2.getD i 0)]
  else common

/-- The common ratings `calculateUserSimilarity` collects from two rating vectors. -/
def commonOf (user1 user2 : List α) : List (α × α) :=
  (List.range user1.length).foldl (commonPure user1 user2) []

/-- Sum of the products of the centred components of a list of pairs. -/
def crossSum (m1 m2 : α) (l : List (α × α)) : α :=
  (l.map fun p => (p.1 - m1) * (p.2 - m2)).sum

/-- Sum of the squares of the centred first components. -/
def sqSum1 (m1 : α) (l : List (α × α)) : α :=
  (l.map fun p => (p.1 - m1) * (p.1 - m1)).sum

/-- Sum of the squares of the centred second components. -/
def sqSum2 (m2 : α) (l : List (α × α)) : α :=
  (l.map fun p => (p.2 - m2) * (p.2 - m2)).sum

/-- The rating `ratings[u][movieId - 1]` that user `u` gave to the item. -/
def itemRating (R : Recommender α) (movieId : Int) (u : Nat) : Int :=
  ratingOf R u (movieId - 1).toNat

/-- The similarity found in the table for `(user, u)`, `0` when there is no entry. -/
def simOf (R : Recommender α) (user u : Nat) : α :=
  (R.similarities user u).getD 0

/-- User `u` is another user who rated the item and whose table entry for
`user` exists and is positive. -/
def posNeighbour (R : Recommender α) (user : Nat) (movieId : Int) (u : Nat) : Prop :=
  u ≠ user ∧ itemRating R movieId u ≠ 0 ∧ 0 < simOf R user u

instance (R : Recommender α) (user : Nat) (movieId : Int) (u : Nat) :
    Decidable (posNeighbour R user movieId u) := by
  unfold posNeighbour; infer_instance

/-- The set `P` of the other users who rated the item with a positive
similarity to `user`. -/
def positiveRaters (R : Recommender α) (user : Nat) (movieId : Int) : Finset Nat :=
  (Finset.range R.ratings.length).filter (posNeighbour R user movieId)

/-- The users who rated the item (non-zero rating). -/
def raters (R : Recommender α) (movieId : Int) : Finset Nat :=
  (Finset.range R.ratings.length).filter (fun u => itemRating R movieId u ≠ 0)

/-- The body of the first loop of `predict` without the range checks. -/
def predictPure (R : Recommender α) (user : Nat) (movieId : Int) (acc : PredictAcc α)
    (u : Nat) : PredictAcc α :=
  if posNeighbour R user movieId u then
    { num := acc.num + simOf R user u * (itemRating R movieId u : α),
      denom := acc.denom + |simOf R user u|, hasSims := true }
  else acc

/-- The body of the fallback loop of `predict` without the range checks. -/
def movieAvgPure (R : Recommender α) (movieId : Int) (acc : α × Nat) (u : Nat) : α × Nat :=
  if itemRating R movieId u ≠ 0 then (acc.1 + (itemRating R movieId u : α), acc.2 + 1)
  else acc

/-- The row index `userIdToIndex[userId]` used by the queries: `0` for an
absent id. -/
def userIndexOf (s : MovieRecommender α) (userId : Int) : Nat :=
  (mapIndex s.userIdToIndex userId).1

/-- The column index `movieIdToIndex[movieId]` used by `predictRating`: `0`
for an absent id. -/
def movieIndexOf (s : MovieRecommender α) (movieId : Int) : Nat :=
  (mapIndex s.movieIdToIndex movieId).1

/-- The state after the two `operator[]` lookups of `predictRating`. -/
def afterLookup (s : MovieRecommender α) (userId movieId : Int) : MovieRecommender α :=
  { ratingsMatrix := s.ratingsMatrix,
    movieIdToIndex := (mapIndex s.movieIdToIndex movieId).2,
    userIdToIndex := (mapIndex s.userIdToIndex userId).2 }

/-- Row `i` of the ratings matrix, empty outside the matrix. -/
def rowOf (s : MovieRecommender α) (i : Nat) : List α :=
  s.ratingsMatrix.getD i []

/-- The entry `ratingsMatrix[i][j]`, `0` outside the matrix. -/
def entry (s : MovieRecommender α) (i j : Nat) : α :=
  (rowOf s i).getD j 0

/-- The similarity `calculateUserSimilarity(ratingsMatrix[ui], ratingsMatrix[i])`
that `predictRating` computes for row `i`. -/
def simTo (sqrt : α → α) (s : MovieRecommender α) (ui i : Nat) : α :=
  similarityOfCommon sqrt (commonOf (rowOf s ui) (rowOf s i))

/-- The rows other than `ui` that hold a positive rating in column `mi`. -/
def otherRaters (s : MovieRecommender α) (ui mi : Nat) : Finset Nat :=
  (Finset.range s.ratingsMatrix.length).filter (fun i => i ≠ ui ∧ 0 < entry s i mi)

/-- The weighted sum `weightedRatingSum` of `predictRating` over all other raters. -/
def weightedSum (sqrt : α → α) (s : MovieRecommender α) (ui mi : Nat) : α :=
  ∑ i in otherRaters s ui mi, simTo sqrt s ui i * entry s i mi

/-- The sum `similaritySum` of `predictRating` over all other raters. -/
def absSimSum (sqrt : α → α) (s : MovieRecommender α) (ui mi : Nat) : α :=
  ∑ i in otherRaters s ui mi, |simTo sqrt s ui i|

/-- The average of the ratings the item received from the other users. -/
def itemAverage (s : MovieRecommender α) (ui mi : Nat) : α :=
  (∑ i in otherRaters s ui mi, entry s i mi) / ((otherRaters s ui mi).card : α)

/-- The loop body of `predictRating` without the range checks. -/
def ratingPure (sqrt : α → α) (s : MovieRecommender α) (ui mi : Nat) (acc : α × α)
    (i : Nat) : α × α :=
  if i ≠ ui ∧ 0 < entry s i mi then
    (acc.1 + simTo sqrt s ui i * entry s i mi, acc.2 + |simTo sqrt s ui i|)
  else acc

/-- The candidate pushed by `recommend` at column `i`: the pair
`(i + 1, predict(user, i + 1))` when the user's rating of the column is `0`. -/
def candidateAt (R : Recommender α) (user i : Nat) : Option (Int × α) :=
  if ratingOf R user i = 0 then
    some ((i : Int) + 1, (predict R user ((i : Int) + 1)).getD 0)
  else none

/-- The vector `preds` of `recommend` before it is sorted. -/
def candidates (R : Recommender α) (user : Nat) : List (Int × α) :=
  (List.range R.movies.length).filterMap (candidateAt R user)

/-- The value `predictRating` computes for an unrated cell `(ui, mi)`. -/
def ratingValue (sqrt : α → α) (s : MovieRecommender α) (ui mi : Nat) : α :=
  if 0 < absSimSum sqrt s ui mi then weightedSum sqrt s ui mi / absSimSum sqrt s ui mi
  else 0

/-- The candidate pushed by `getTopNRecommendations` for one entry of
`movieIdToIndex`: none when the user's rating of the column is positive. -/
def topCandidateAt (sqrt : α → α) (s : MovieRecommender α) (ui : Nat) (p : Int × Nat) :
    Option (Int × α) :=
  if 0 < entry s ui p.2 then none else some (p.1, ratingValue sqrt s ui p.2)

/-- The vector `movieRatings` of `getTopNRecommendations` before it is sorted. -/
def topCandidates (sqrt : α → α) (s : MovieRecommender α) (ui : Nat) : List (Int × α) :=
  s.movieIdToIndex.filterMap (topCandidateAt sqrt s ui)

/-- The items (entries of `movieIdToIndex`) the user of row `ui` has not rated. -/
def unratedEntries (s : MovieRecommender α) (ui : Nat) : List (Int × Nat) :=
  s.movieIdToIndex.filter (fun p => decide (¬ 0 < entry s ui p.2))

/-- The state after the `operator[]` lookup of the user id. -/
def afterUserLookup (s : MovieRecommender α) (userId : Int) : MovieRecommender α :=
  { ratingsMatrix := s.ratingsMatrix, movieIdToIndex := s.movieIdToIndex,
    userIdToIndex := (mapIndex s.userIdToIndex userId).2 }

/-- What `getTopNRecommendations` needs of a store with `cols` item columns:
rows of `cols` entries, distinct keys in `movieIdToIndex` (an invariant of
`unordered_map`), and column indices in range. -/
def ItemsWellFormed (s : MovieRecommender α) (cols : Nat) : Prop :=
  RowsOfLength s.ratingsMatrix cols ∧ (s.movieIdToIndex.map Prod.fst).Nodup ∧
    ∀ p ∈ s.movieIdToIndex, p.2 < cols

/-- Every cell of the matrix is a rating or the sentinel `0`: none is negative. -/
def NonNegRatings (s : MovieRecommender α) : Prop :=
  ∀ row ∈ s.ratingsMatrix, ∀ x ∈ row, 0 ≤ x

/-- The example matrix of the specification: `U0=[5,3,_]`, `U1=[4,_,2]`,
`U2=[_,2,5]`, with `0` for an unrated cell. -/
def specRatings : List (List Int) := [[5, 3, 0], [4, 0, 2], [0, 2, 5]]

/-- The `Recommender` state after loading the example matrix: the means are
those of `calcAvgRatings`, the similarity table is empty. -/
def specRecommender (α : Type) [LinearOrderedField α] : Recommender α :=
  { movies := [⟨"I0", 1⟩, ⟨"I1", 2⟩, ⟨"I2", 3⟩], ratings := specRatings,
    similarities := fun _ _ => none, avgRatings := calcAvgRatings specRatings }

/-- The example matrix with a similarity table for user `0`: a positive entry
for user `1`, a negative one for user `2`. -/
def tableRecommender (α : Type) [LinearOrderedField α] : Recommender α :=
  { movies := [⟨"I0", 1⟩, ⟨"I1", 2⟩, ⟨"I2", 3⟩], ratings := specRatings,
    similarities := fun a b =>
      if a = 0 ∧ b = 1 then some (1 / 2) else if a = 0 ∧ b = 2 then some (-1) else none,
    avgRatings := calcAvgRatings specRatings }

/-- The `MovieRecommender` state holding the example matrix, users and items
numbered from `1`. -/
def specStore (α : Type) [LinearOrderedField α] : MovieRecommender α :=
  { ratingsMatrix := [[5, 3, 0], [4, 0, 2], [0, 2, 5]],
    movieIdToIndex := [(1, 0), (2, 1), (3, 2)],
    userIdToIndex := [(1, 0), (2, 1), (3, 2)] }

end Views

/-! ## Contracts of the library sorts -/

/-- What the C++ standard promises of `std::sort(first, last, cmp)`: the
result is a rearrangement of the input in which no element is ordered by `cmp`
before an element that precedes it. The order of equivalent elements is not
specified. -/
def SortContract {β : Type} (stdSort : (β → β → Bool) → List β → List β)
    (cmp : β → β → Bool) : Prop :=
  ∀ l, (stdSort cmp l).Perm l ∧ (stdSort cmp l).Pairwise (fun a b => cmp b a = false)

/-- What the C++ standard promises of
`std::partial_sort(first, first + k, last, cmp)` for `k` within the range: the
result is a rearrangement of the input whose first `k` elements are sorted
and are not ordered by `cmp` after any of the remaining elements. -/
def PartialSortContract {β : Type} (stdPartialSort : (β → β → Bool) → List β → Nat → List β)
    (cmp : β → β → Bool) : Prop :=
  ∀ l k, k ≤ l.length →
    (stdPartialSort cmp l k).Perm l ∧
    ((stdPartialSort cmp l k).take k).Pairwise (fun a b => cmp b a = false) ∧
    ∀ a ∈ (stdPartialSort cmp l k).take k, ∀ b ∈ (stdPartialSort cmp l k).drop k,
      cmp b a = false

/-- The effect of an optional `push_back`. -/
def pushOpt {γ : Type} (acc : List γ) (o : Option γ) : List γ :=
  match o with
  | some y => acc ++ [y]
  | none => acc

/-- A sort that meets `SortContract`: insertion sort. -/
def insertionSortBy {β : Type} (cmp : β → β → Bool) (l : List β) : List β :=
  l.insertionSort (fun a b => cmp b a = false)

/-- A partial sort that meets `PartialSortContract`: sort everything. -/
def fullPartialSort {β : Type} (cmp : β → β → Bool) (l : List β) (_k : Nat) : List β :=
  insertionSortBy cmp l



/-! ## Further views and examples -/

section MoreViews

variable {α : Type} [LinearOrderedField α]

/-- A sort that meets `SortContract` and leaves equal elements in the reverse
of their input order. -/
def reverseSortBy {β : Type} (cmp : β → β → Bool) (l : List β) : List β :=
  insertionSortBy cmp l.reverse

/-- A partial sort that meets `PartialSortContract` and leaves equal elements
in the reverse of their input order. -/
def reversePartialSort {β : Type} (cmp : β → β → Bool) (l : List β) (_k : Nat) : List β :=
  reverseSortBy cmp l

/-- A `Recommender` with an empty similarity table in which user `0` has not
rated items `2` and `3`, both rated `3` by user `1`. -/
def tieRecommender (α : Type) [LinearOrderedField α] : Recommender α :=
  { movies := [⟨"I0", 1⟩, ⟨"I1", 2⟩, ⟨"I2", 3⟩], ratings := [[5, 0, 0], [4, 3, 3]],
    similarities := fun _ _ => none, avgRatings := calcAvgRatings [[5, 0, 0], [4, 3, 3]] }

/-- The same matrix as a `MovieRecommender` store. -/
def tieStore (α : Type) [LinearOrderedField α] : MovieRecommender α :=
  { ratingsMatrix := [[5, 0, 0], [4, 3, 3]],
    movieIdToIndex := [(1, 0), (2, 1), (3, 2)],
    userIdToIndex := [(1, 0), (2, 1)] }

end MoreViews

section StoreViews

variable {α : Type} [LinearOrderedField α]

/-- The value `predictRating` returns for the cell `(ui, mi)`: the stored
rating when it is positive, the weighted value otherwise. -/
def cellValue (sqrt : α → α) (s : MovieRecommender α) (ui mi : Nat) : α :=
  if 0 < entry s ui mi then entry s ui mi else ratingValue sqrt s ui mi

/-- Every row index has a user id and every column index of every row has a
movie id: the reverse lookups of `calculateRMSE` always find an id. -/
def IdsCoverCells (s : MovieRecommender α) : Prop :=
  (∀ u, u < s.ratingsMatrix.length → ∃ k, (k, u) ∈ s.userIdToIndex) ∧
    ∀ row ∈ s.ratingsMatrix, ∀ j, j < row.length → ∃ k, (k, j) ∈ s.movieIdToIndex

/-- The keys of both id maps are distinct (an invariant of `unordered_map`). -/
def DistinctKeys (s : MovieRecommender α) : Prop :=
  (s.userIdToIndex.map Prod.fst).Nodup ∧ (s.movieIdToIndex.map Prod.fst).Nodup

/-- Both id maps are injective and their indices are in range of a matrix
with `cols` columns. -/
def InjectiveInRange (s : MovieRecommender α) (cols : Nat) : Prop :=
  (s.userIdToIndex.map Prod.snd).Nodup ∧ (s.movieIdToIndex.map Prod.snd).Nodup ∧
    (∀ p ∈ s.userIdToIndex, p.2 < s.ratingsMatrix.length) ∧
    ∀ p ∈ s.movieIdToIndex, p.2 < cols

/-- Some cell of the matrix holds a rating. -/
def HasRatedCell (s : MovieRecommender α) : Prop :=
  ∃ row ∈ s.ratingsMatrix, ∃ x ∈ row, x ≠ 0

/-- A store as `loadRatingsFromCSV` builds it from three user lines with the
ids `1, 2, 2`: the second assignment to key `2` overwrites the first, so row
`1` has no id. -/
def duplicateIdStore (α : Type) [LinearOrderedField α] : MovieRecommender α :=
  { ratingsMatrix := [[5], [3], [4]],
    movieIdToIndex := [(1, 0)],
    userIdToIndex := [(1, 0), (2, 2)] }

end StoreViews

section PearsonViews

variable {α : Type} [LinearOrderedField α]

/-- The average of the positive entries of a row, `0` when there is none. -/
def positiveMean (row : List Int) : α :=
  if row.filter (fun r => decide (0 < r)) = [] then 0
  else ((row.filter (fun r => decide (0 < r))).map (fun r => (r : α))).sum /
    ((row.filter (fun r => decide (0 < r))).length : α)

/-- The columns both users rated. -/
def coRatedSet (R : Recommender α) (u1 u2 : Nat) : Finset Nat :=
  (Finset.range (numCols R)).filter (coRated R u1 u2)

/-- The rating of column `i` by user `u`, centred on the mean of all the
positive ratings of `u`. -/
def centred (R : Recommender α) (u i : Nat) : α :=
  (ratingOf R u i : α) - positiveMean (R.ratings.getD u [])

end PearsonViews

section EdgeViews

variable {α : Type} [LinearOrderedField α]

/-- The average `predict` falls back to: the sum of the item's non-zero
ratings divided by their number, and `3` when no user rated the item. -/
def itemMean (R : Recommender α) (movieId : Int) : α :=
  if 0 < (raters R movieId).card then
    (∑ u in raters R movieId, (itemRating R movieId u : α)) / ((raters R movieId).card : α)
  else 3

/-- The `MovieRecommender` state after loading a file that has a header with
one movie column and no user line. -/
def headerOnlyStore (α : Type) [LinearOrderedField α] : MovieRecommender α :=
  { ratingsMatrix := [], movieIdToIndex := [(1, 0)], userIdToIndex := [] }

/-- A `Recommender` with one item that user `1` rated `-2` and user `0` did
not rate; the similarity table is empty. -/
def negativeRecommender (α : Type) [LinearOrderedField α] : Recommender α :=
  { movies := [⟨"I0", 1⟩], ratings := [[0], [-2]],
    similarities := fun _ _ => none, avgRatings := calcAvgRatings [[0], [-2]] }

end EdgeViews

section OrderExamples

variable {α : Type} [LinearOrderedField α]

/-- A `Recommender` with an empty similarity table in which user `0` has not
rated items `2` and `3`, whose averages over the other users are `3` and `4`. -/
def orderRecommender (α : Type) [LinearOrderedField α] : Recommender α :=
  { movies := [⟨"I0", 1⟩, ⟨"I1", 2⟩, ⟨"I2", 3⟩],
    ratings := [[5, 0, 0], [4, 2, 3], [1, 4, 5]],
    similarities := fun _ _ => none,
    avgRatings := calcAvgRatings [[5, 0, 0], [4, 2, 3], [1, 4, 5]] }

/-- A store in which user `1` has not rated items `3` and `4`, and user `2`,
who agrees with user `1` on items `1` and `2`, rated them `5` and `3`. The
item map lists item `4` before item `3`. -/
def orderStore (α : Type) [LinearOrderedField α] : MovieRecommender α :=
  { ratingsMatrix := [[1, 2, 0, 0], [1, 2, 5, 3]],
    movieIdToIndex := [(1, 0), (2, 1), (4, 3), (3, 2)],
    userIdToIndex := [(1, 0), (2, 1)] }

/-- A store with a negative cell: user `1` holds `-1` for item `1`. -/
def negativeCellStore (α : Type) [LinearOrderedField α] : MovieRecommender α :=
  { ratingsMatrix := [[-1, 5], [3, 4]],
    movieIdToIndex := [(1, 0), (2, 1)],
    userIdToIndex := [(1, 0), (2, 1)] }

end OrderExamples
/-! ## General lemmas on loops -/

theorem foldlM_eq_some_foldl {σ β : Type} (body : σ → β → Option σ) (f : σ → β → σ)
    (l : List β) (h : ∀ i ∈ l, ∀ s, body s i = some (f s i)) (init : σ) :
    l.foldlM body init = some (l.foldl f init) := by
  induction l generalizing init with
  | nil => rfl
  | cons a t ih =>
    rw [List.foldlM_cons, h a (List.mem_cons_self a t) init]
    exact ih (fun i hi s => h i (List.mem_cons_of_mem a hi) s) (f init a)

theorem cell_eq_some {β : Type} (m : List (List β)) (n u i : Nat) (d : β)
    (hrows : RowsOfLength m n) (hu : u < m.length) (hi : i < n) :
    cell m u i = some ((m.getD u []).getD i d) := by
  have hrow : (m[u]).length = n := hrows _ (List.getElem_mem hu)
  have hi2 : i < (m[u]).length := by omega
  simp [cell, List.getElem?_eq_getElem hu, List.getD_eq_getElem?_getD, List.getElem?_eq_getElem hi2]

section PearsonLemmas

variable {α : Type} [LinearOrderedField α]

omit [LinearOrderedField α] in
theorem coRated_comm (R : Recommender α) (u1 u2 i : Nat) :
    coRated R u1 u2 i ↔ coRated R u2 u1 i := by
  unfold coRated; exact And.comm

omit [LinearOrderedField α] in
theorem cell_ratingOf (R : Recommender α) (n u i : Nat)
    (hrows : RowsOfLength R.ratings n) (hu : u < R.ratings.length) (hi : i < n) :
    cell R.ratings u i = some (ratingOf R u i) :=
  cell_eq_some R.ratings n u i 0 hrows hu hi

theorem avgRatings_avgOf (R : Recommender α) (u : Nat) (hu : u < R.avgRatings.length) :
    R.avgRatings[u]? = some (avgOf R u) := by
  simp [avgOf, List.getD_eq_getElem?_getD, List.getElem?_eq_getElem hu]

theorem pearsonStep_eq (R : Recommender α) (u1 u2 : Nat) (h : PearsonReady R u1 u2)
    (i : Nat) (hi : i < numCols R) (acc : PearsonAcc α) :
    pearsonStep R u1 u2 acc i = some (pearsonPure R u1 u2 acc i) := by
  obtain ⟨hrows, h1, h2, havg⟩ := h
  have c1 := cell_ratingOf R (numCols R) u1 i hrows h1 hi
  have c2 := cell_ratingOf R (numCols R) u2 i hrows h2 hi
  have a1 := avgRatings_avgOf R u1 (havg ▸ h1)
  have a2 := avgRatings_avgOf R u2 (havg ▸ h2)
  unfold pearsonStep pearsonPure
  rw [c1, Option.some_bind]
  by_cases hx1 : ratingOf R u1 i = 0
  · have hco : ¬ coRated R u1 u2 i := fun hc => hc.1 hx1
    rw [if_pos hx1, if_neg hco]
  · rw [if_neg hx1, c2, Option.some_bind]
    by_cases hx2 : ratingOf R u2 i = 0
    · have hco : ¬ coRated R u1 u2 i := fun hc => hc.2 hx2
      rw [if_pos hx2, if_neg hco]
    · have hco : coRated R u1 u2 i := ⟨hx1, hx2⟩
      have hco2 : coRated R u2 u1 i := ⟨hx2, hx1⟩
      rw [if_neg hx2, a1, a2, if_pos hco]
      simp only [Option.some_bind, dev, if_pos hco, if_pos hco2]

/-- The sums accumulated by the loop of `calcPearson` over the first `n` columns. -/
theorem pearson_foldl (R : Recommender α) (u1 u2 : Nat) (n : Nat) (init : PearsonAcc α) :
    (List.range n).foldl (pearsonPure R u1 u2) init =
      { sum1 := init.sum1 + ∑ i in Finset.range n, dev R u1 u2 i,
        sum2 := init.sum2 + ∑ i in Finset.range n, dev R u2 u1 i,
        sum1Sq := init.sum1Sq + ∑ i in Finset.range n, dev R u1 u2 i * dev R u1 u2 i,
        sum2Sq := init.sum2Sq + ∑ i in Finset.range n, dev R u2 u1 i * dev R u2 u1 i,
        pSum := init.pSum + ∑ i in Finset.range n, dev R u1 u2 i * dev R u2 u1 i,
        count := init.count + ((Finset.range n).filter (coRated R u1 u2)).card } := by
  induction n with
  | zero => simp
  | succ n ih =>
    have hcard : ((Finset.range (n + 1)).filter (coRated R u1 u2)).card =
        ((Finset.range n).filter (coRated R u1 u2)).card +
          (if coRated R u1 u2 n then 1 else 0) := by
      rw [Finset.range_succ, Finset.filter_insert]
      by_cases hco : coRated R u1 u2 n
      · have hnot : n ∉ Finset.filter (coRated R u1 u2) (Finset.range n) := by simp
        rw [if_pos hco, if_pos hco, Finset.card_insert_of_not_mem hnot]
      · rw [if_neg hco, if_neg hco, add_zero]
    rw [List.range_succ, List.foldl_append, ih, hcard]
    simp only [List.foldl_cons, List.foldl_nil, Finset.sum_range_succ]
    by_cases hco : coRated R u1 u2 n
    · simp only [pearsonPure, if_pos hco, add_assoc]
    · have hco2 : ¬ coRated R u2 u1 n := fun h => hco ((coRated_comm R u1 u2 n).2 h)
      have d1 : dev R u1 u2 n = 0 := by simp only [dev, if_neg hco]
      have d2 : dev R u2 u1 n = 0 := by simp only [dev, if_neg hco2]
      simp only [pearsonPure, if_neg hco, d1, d2, mul_zero, add_zero]

/-- What `calcPearson` returns on a rectangular matrix, in terms of sums over
the columns. -/
theorem calcPearson_eq (sqrt : α → α) (R : Recommender α) (u1 u2 : Nat)
    (h : PearsonReady R u1 u2) :
    calcPearson sqrt R u1 u2 = some (pearsonValue sqrt
      ((Finset.range (numCols R)).filter (coRated R u1 u2)).card
      (∑ i in Finset.range (numCols R), dev R u1 u2 i * dev R u2 u1 i)
      (∑ i in Finset.range (numCols R), dev R u1 u2 i * dev R u1 u2 i)
      (∑ i in Finset.range (numCols R), dev R u2 u1 i * dev R u2 u1 i)) := by
  have h0 : R.ratings[0]? = some (R.ratings.getD 0 []) := by
    have : 0 < R.ratings.length := Nat.lt_of_le_of_lt (Nat.zero_le _) h.2.1
    simp [List.getD_eq_getElem?_getD, List.getElem?_eq_getElem this]
  unfold calcPearson
  rw [h0, Option.some_bind]
  change ((List.range (numCols R)).foldlM (pearsonStep R u1 u2) ⟨0, 0, 0, 0, 0, 0⟩).bind _ = _
  rw [foldlM_eq_some_foldl _ (pearsonPure R u1 u2) _
    (fun i hi s => pearsonStep_eq R u1 u2 h i (List.mem_range.1 hi) s)]
  rw [Option.some_bind, pearson_foldl]
  simp only [zero_add, pearsonValue, numCols]
  split_ifs <;> rfl

end PearsonLemmas

section SimilarityLemmas

variable {α : Type} [LinearOrderedField α]

theorem commonStep_eq (user1 user2 : List α) (hlen : user1.length ≤ user2.length)
    (i : Nat) (hi : i < user1.length) (acc : List (α × α)) :
    commonStep user1 user2 acc i = some (commonPure user1 user2 acc i) := by
  have hi2 : i < user2.length := Nat.lt_of_lt_of_le hi hlen
  have e1 : user1[i]? = some (user1.getD i 0) := by
    simp [List.getD_eq_getElem?_getD, List.getElem?_eq_getElem hi]
  have e2 : user2[i]? = some (user2.getD i 0) := by
    simp [List.getD_eq_getElem?_getD, List.getElem?_eq_getElem hi2]
  unfold commonStep commonPure
  rw [e1, Option.some_bind]
  by_cases hx : 0 < user1.getD i 0
  · rw [if_pos hx, e2, Option.some_bind]
    by_cases hy : 0 < user2.getD i 0
    · rw [if_pos hy, if_pos ⟨hx, hy⟩]
    · rw [if_neg hy, if_neg (fun h => hy h.2)]
  · rw [if_neg hx, if_neg (fun h => hx h.1)]

/-- On vectors where the second is at least as long as the first,
`calculateUserSimilarity` returns, and its value is `similarityOfCommon` of the
common ratings. -/
theorem calculateUserSimilarity_eq (sqrt : α → α) (user1 user2 : List α)
    (hlen : user1.length ≤ user2.length) :
    calculateUserSimilarity sqrt user1 user2 =
      some (similarityOfCommon sqrt (commonOf user1 user2)) := by
  unfold calculateUserSimilarity
  rw [foldlM_eq_some_foldl _ (commonPure user1 user2) _
    (fun i hi s => commonStep_eq user1 user2 hlen i (List.mem_range.1 hi) s)]
  rfl

theorem commonPure_foldl_swap (user1 user2 : List α) (n : Nat) :
    (List.range n).foldl (commonPure user2 user1) [] =
      ((List.range n).foldl (commonPure user1 user2) []).map Prod.swap := by
  induction n with
  | zero => rfl
  | succ n ih =>
    rw [List.range_succ, List.foldl_append, List.foldl_append, ih]
    simp only [List.foldl_cons, List.foldl_nil, commonPure]
    by_cases h : 0 < user1.getD n 0 ∧ 0 < user2.getD n 0
    · rw [if_pos h, if_pos (And.symm h)]
      simp
    · rw [if_neg h, if_neg (fun h2 => h (And.symm h2))]

theorem commonOf_swap (user1 user2 : List α) (hlen : user1.length = user2.length) :
    commonOf user2 user1 = (commonOf user1 user2).map Prod.swap := by
  unfold commonOf
  rw [← hlen]
  exact commonPure_foldl_swap user1 user2 user1.length

theorem diffStep_foldl (m1 m2 : α) (l : List (α × α)) (acc : α × α × α) :
    l.foldl (diffStep m1 m2) acc =
      (acc.1 + crossSum m1 m2 l, acc.2.1 + sqSum1 m1 l, acc.2.2 + sqSum2 m2 l) := by
  induction l generalizing acc with
  | nil => simp [crossSum, sqSum1, sqSum2]
  | cons p t ih =>
    rw [List.foldl_cons, ih]
    simp only [diffStep, crossSum, sqSum1, sqSum2, List.map_cons, List.sum_cons, add_assoc]

/-- The value of `calculateUserSimilarity` in terms of the three sums. -/
theorem similarityOfCommon_eq (sqrt : α → α) (l : List (α × α)) :
    similarityOfCommon sqrt l =
      if l = [] then 0
      else if sqSum1 ((l.map Prod.fst).sum / (l.length : α)) l = 0 ∨
          sqSum2 ((l.map Prod.snd).sum / (l.length : α)) l = 0 then 0
      else crossSum ((l.map Prod.fst).sum / (l.length : α))
            ((l.map Prod.snd).sum / (l.length : α)) l /
          sqrt (sqSum1 ((l.map Prod.fst).sum / (l.length : α)) l *
            sqSum2 ((l.map Prod.snd).sum / (l.length : α)) l) := by
  unfold similarityOfCommon
  by_cases h : l = []
  · subst h; simp
  · have h2 : l.isEmpty = false := by
      cases l with
      | nil => exact absurd rfl h
      | cons a t => rfl
    simp only [h2, if_neg h, diffStep_foldl, zero_add]
    simp

theorem crossSum_swap (m1 m2 : α) (l : List (α × α)) :
    crossSum m2 m1 (l.map Prod.swap) = crossSum m1 m2 l := by
  unfold crossSum
  rw [List.map_map]
  congr 1
  apply List.map_congr_left
  intro p _
  simp [mul_comm]

theorem sqSum1_swap (m : α) (l : List (α × α)) :
    sqSum1 m (l.map Prod.swap) = sqSum2 m l := by
  unfold sqSum1 sqSum2
  rw [List.map_map]
  rfl

theorem sqSum2_swap (m : α) (l : List (α × α)) :
    sqSum2 m (l.map Prod.swap) = sqSum1 m l := by
  unfold sqSum1 sqSum2
  rw [List.map_map]
  rfl

theorem similarityOfCommon_swap (sqrt : α → α) (l : List (α × α)) :
    similarityOfCommon sqrt (l.map Prod.swap) = similarityOfCommon sqrt l := by
  rw [similarityOfCommon_eq, similarityOfCommon_eq]
  have e1 : (l.map Prod.swap).map Prod.fst = l.map Prod.snd := by
    rw [List.map_map]; rfl
  have e2 : (l.map Prod.swap).map Prod.snd = l.map Prod.fst := by
    rw [List.map_map]; rfl
  have e3 : (l.map Prod.swap = []) ↔ l = [] := by simp
  rw [e1, e2, List.length_map, crossSum_swap, sqSum1_swap, sqSum2_swap]
  simp only [e3, or_comm, mul_comm]

end SimilarityLemmas

section Bounds

variable {α : Type} [LinearOrderedField α]

omit [LinearOrderedField α] in
theorem numCols_eq (R : Recommender α) (n u : Nat) (hrows : RowsOfLength R.ratings n)
    (hu : u < R.ratings.length) : numCols R = n := by
  have h0 : 0 < R.ratings.length := Nat.lt_of_le_of_lt (Nat.zero_le _) hu
  have hmem : R.ratings.getD 0 [] ∈ R.ratings := by
    rw [List.getD_eq_getElem?_getD, List.getElem?_eq_getElem h0]
    exact List.getElem_mem h0
  exact hrows _ hmem

theorem length_calcAvgRatings (ratings : List (List Int)) :
    (calcAvgRatings ratings : List α).length = ratings.length := by
  simp [calcAvgRatings]

theorem pearsonReady_of_load (R : Recommender α) (n u1 u2 : Nat)
    (hrows : RowsOfLength R.ratings n) (havg : R.avgRatings = calcAvgRatings R.ratings)
    (h1 : u1 < R.ratings.length) (h2 : u2 < R.ratings.length) : PearsonReady R u1 u2 := by
  refine ⟨?_, h1, h2, ?_⟩
  · rw [numCols_eq R n u1 hrows h1]; exact hrows
  · rw [havg, length_calcAvgRatings]

theorem pearsonValue_comm (sqrt : α → α) (count : Nat) (p q s1 s2 : α) (hpq : p = q) :
    pearsonValue sqrt count p s1 s2 = pearsonValue sqrt count q s2 s1 := by
  unfold pearsonValue
  rw [hpq, mul_comm s1 s2]

theorem calcPearson_comm (sqrt : α → α) (R : Recommender α) (a b : Nat)
    (h : PearsonReady R a b) : calcPearson sqrt R a b = calcPearson sqrt R b a := by
  have h2 : PearsonReady R b a := ⟨h.1, h.2.2.1, h.2.1, h.2.2.2⟩
  rw [calcPearson_eq sqrt R a b h, calcPearson_eq sqrt R b a h2]
  have hfilter : (Finset.range (numCols R)).filter (coRated R a b) =
      (Finset.range (numCols R)).filter (coRated R b a) :=
    Finset.filter_congr (fun i _ => coRated_comm R a b i)
  rw [hfilter]
  congr 1
  apply pearsonValue_comm
  exact Finset.sum_congr rfl (fun i _ => mul_comm _ _)

/-- Cauchy-Schwarz for the three sums of `calculateUserSimilarity`. -/
theorem crossSum_sq_le (m1 m2 : α) (l : List (α × α)) :
    0 ≤ sqSum1 m1 l ∧ 0 ≤ sqSum2 m2 l ∧
      crossSum m1 m2 l ^ 2 ≤ sqSum1 m1 l * sqSum2 m2 l := by
  induction l with
  | nil => simp [crossSum, sqSum1, sqSum2]
  | cons p t ih =>
    obtain ⟨hA, hB, hP⟩ := ih
    have e1 : sqSum1 m1 (p :: t) = (p.1 - m1) * (p.1 - m1) + sqSum1 m1 t := by
      simp [sqSum1]
    have e2 : sqSum2 m2 (p :: t) = (p.2 - m2) * (p.2 - m2) + sqSum2 m2 t := by
      simp [sqSum2]
    have e3 : crossSum m1 m2 (p :: t) = (p.1 - m1) * (p.2 - m2) + crossSum m1 m2 t := by
      simp [crossSum]
    rw [e1, e2, e3]
    generalize sqSum1 m1 t = A at *
    generalize sqSum2 m2 t = B at *
    generalize crossSum m1 m2 t = P at *
    generalize p.1 - m1 = a
    generalize p.2 - m2 = b
    have ha : 0 ≤ a * a := mul_self_nonneg a
    have hb : 0 ≤ b * b := mul_self_nonneg b
    refine ⟨add_nonneg ha hA, add_nonneg hb hB, ?_⟩
    have hR : 0 ≤ A * (b * b) + B * (a * a) :=
      add_nonneg (mul_nonneg hA hb) (mul_nonneg hB ha)
    have h1 : (2 * P * (a * b)) ^ 2 ≤ (A * (b * b) + B * (a * a)) ^ 2 := by
      have hsq : 0 ≤ (A * (b * b) - B * (a * a)) ^ 2 := sq_nonneg _
      have hab : 0 ≤ (a * b) ^ 2 := sq_nonneg _
      have := mul_le_mul_of_nonneg_right hP hab
      nlinarith
    have h2 : 2 * P * (a * b) ≤ A * (b * b) + B * (a * a) :=
      (abs_le_of_sq_le_sq' h1 hR).2
    nlinarith

end Bounds

/-- Bounds of the value computed by `calcPearson` from sums that satisfy the
Cauchy-Schwarz inequality. -/
theorem pearsonValue_bounds (count : Nat) (p s1 s2 : ℝ) (h : p ^ 2 ≤ s1 * s2) :
    -1 ≤ pearsonValue Real.sqrt count p s1 s2 ∧ pearsonValue Real.sqrt count p s1 s2 ≤ 1 := by
  unfold pearsonValue
  by_cases hc : count = 0
  · rw [if_pos hc]; constructor <;> norm_num
  · rw [if_neg hc]
    by_cases hz : Real.sqrt (s1 * s2) = 0
    · rw [if_pos hz]; constructor <;> norm_num
    · rw [if_neg hz]
      have hpos : 0 < Real.sqrt (s1 * s2) :=
        lt_of_le_of_ne (Real.sqrt_nonneg _) (Ne.symm hz)
      have habs : |p| ≤ Real.sqrt (s1 * s2) := Real.abs_le_sqrt h
      have hle := abs_le.1 habs
      constructor
      · rw [le_div_iff₀ hpos]; linarith [hle.1]
      · rw [div_le_iff₀ hpos]; linarith [hle.2]

theorem similarityOfCommon_bounds (l : List (ℝ × ℝ)) :
    -1 ≤ similarityOfCommon Real.sqrt l ∧ similarityOfCommon Real.sqrt l ≤ 1 := by
  rw [similarityOfCommon_eq]
  by_cases h : l = []
  · rw [if_pos h]; constructor <;> norm_num
  · rw [if_neg h]
    split_ifs with hz
    · constructor <;> norm_num
    · obtain ⟨hA, hB, hP⟩ := crossSum_sq_le ((l.map Prod.fst).sum / (l.length : ℝ))
        ((l.map Prod.snd).sum / (l.length : ℝ)) l
      push_neg at hz
      have hprod : 0 < sqSum1 ((l.map Prod.fst).sum / (l.length : ℝ)) l *
          sqSum2 ((l.map Prod.snd).sum / (l.length : ℝ)) l :=
        mul_pos (lt_of_le_of_ne hA (Ne.symm hz.1)) (lt_of_le_of_ne hB (Ne.symm hz.2))
      have hpos := Real.sqrt_pos.2 hprod
      have hle := abs_le.1 (Real.abs_le_sqrt hP)
      constructor
      · rw [le_div_iff₀ hpos]; linarith [hle.1]
      · rw [div_le_iff₀ hpos]; linarith [hle.2]

/-! ## Similarity: symmetry and range -/

/-- C1: similarity is symmetric. On a matrix whose rows all have the same
length, with one stored mean per user, `calcPearson a b` and `calcPearson b a`
return the same value for any two users; on two rating vectors of equal
length `calculateUserSimilarity x y` and `calculateUserSimilarity y x` return
the same value. -/
theorem similarity_symmetric {α : Type} [LinearOrderedField α] (sqrt : α → α)
    (R : Recommender α) (n a b : Nat) (x y : List α)
    (hrows : RowsOfLength R.ratings n) (havg : R.avgRatings.length = R.ratings.length)
    (ha : a < R.ratings.length) (hb : b < R.ratings.length) (hxy : x.length = y.length) :
    (∃ v, calcPearson sqrt R a b = some v ∧ calcPearson sqrt R b a = some v) ∧
    (∃ w, calculateUserSimilarity sqrt x y = some w ∧
      calculateUserSimilarity sqrt y x = some w) := by
  have hready : PearsonReady R a b :=
    ⟨by rw [numCols_eq R n a hrows ha]; exact hrows, ha, hb, havg⟩
  constructor
  · refine ⟨_, calcPearson_eq sqrt R a b hready, ?_⟩
    rw [← calcPearson_comm sqrt R a b hready]
    exact calcPearson_eq sqrt R a b hready
  · refine ⟨_, calculateUserSimilarity_eq sqrt x y (le_of_eq hxy), ?_⟩
    rw [calculateUserSimilarity_eq sqrt y x (le_of_eq hxy.symm), commonOf_swap x y hxy,
      similarityOfCommon_swap]

theorem similarity_symmetric_witness :
    RowsOfLength (specRecommender ℝ).ratings 3 ∧
    (∃ v, calcPearson Real.sqrt (specRecommender ℝ) 0 1 = some v ∧
      calcPearson Real.sqrt (specRecommender ℝ) 1 0 = some v) ∧
    (∃ w, calculateUserSimilarity Real.sqrt [5, 3, 0] [4, 0, 2] = some w ∧
      calculateUserSimilarity Real.sqrt [4, 0, 2] [5, 3, 0] = some w) :=
  ⟨by decide,
   similarity_symmetric Real.sqrt (specRecommender ℝ) 3 0 1 [5, 3, 0] [4, 0, 2]
    (by decide) rfl (by decide) (by decide) rfl⟩

/-- C2: every similarity score lies in `[-1, 1]` in real arithmetic. On a
matrix whose rows all have the same length, with one stored mean per user,
`calcPearson u1 u2` returns a value between `-1` and `1`; on two rating
vectors of equal length so does `calculateUserSimilarity x y`. -/
theorem similarity_bounded (R : Recommender ℝ) (n u1 u2 : Nat) (x y : List ℝ)
    (hrows : RowsOfLength R.ratings n) (havg : R.avgRatings.length = R.ratings.length)
    (h1 : u1 < R.ratings.length) (h2 : u2 < R.ratings.length) (hxy : x.length = y.length) :
    (∃ v, calcPearson Real.sqrt R u1 u2 = some v ∧ -1 ≤ v ∧ v ≤ 1) ∧
    (∃ w, calculateUserSimilarity Real.sqrt x y = some w ∧ -1 ≤ w ∧ w ≤ 1) := by
  have hready : PearsonReady R u1 u2 :=
    ⟨by rw [numCols_eq R n u1 hrows h1]; exact hrows, h1, h2, havg⟩
  constructor
  · refine ⟨_, calcPearson_eq Real.sqrt R u1 u2 hready, ?_⟩
    apply pearsonValue_bounds
    have hcs := Finset.sum_mul_sq_le_sq_mul_sq (Finset.range (numCols R))
      (dev R u1 u2) (dev R u2 u1)
    simpa only [pow_two] using hcs
  · exact ⟨_, calculateUserSimilarity_eq Real.sqrt x y (le_of_eq hxy),
      similarityOfCommon_bounds _⟩

theorem similarity_bounded_witness :
    RowsOfLength (specRecommender ℝ).ratings 3 ∧
    (∃ v, calcPearson Real.sqrt (specRecommender ℝ) 0 2 = some v ∧ -1 ≤ v ∧ v ≤ 1) ∧
    (∃ w, calculateUserSimilarity Real.sqrt [5, 3, 0] [0, 2, 5] = some w ∧
      -1 ≤ w ∧ w ≤ 1) :=
  ⟨by decide,
   similarity_bounded (specRecommender ℝ) 3 0 2 [5, 3, 0] [0, 2, 5]
    (by decide) rfl (by decide) (by decide) rfl⟩

/-! ## A single co-rated column -/

section SingleCoRated

variable {α : Type} [LinearOrderedField α]

theorem avgOf_load (R : Recommender α) (u : Nat)
    (havg : R.avgRatings = calcAvgRatings R.ratings) (hu : u < R.ratings.length) :
    avgOf R u = rowAvg (R.ratings.getD u []) := by
  unfold avgOf
  rw [havg]
  simp [calcAvgRatings, List.getD_eq_getElem?_getD, List.getElem?_eq_getElem hu]

/-- With exactly one co-rated column `i`, the three sums of `calcPearson` have
one term each. -/
theorem calcPearson_single (sqrt : α → α) (R : Recommender α) (u1 u2 i : Nat)
    (h : PearsonReady R u1 u2) (hi : i < numCols R) (hco : coRated R u1 u2 i)
    (huniq : ∀ j, j < numCols R → coRated R u1 u2 j → j = i) :
    calcPearson sqrt R u1 u2 = some (pearsonValue sqrt 1
      (((ratingOf R u1 i : α) - avgOf R u1) * ((ratingOf R u2 i : α) - avgOf R u2))
      (((ratingOf R u1 i : α) - avgOf R u1) * ((ratingOf R u1 i : α) - avgOf R u1))
      (((ratingOf R u2 i : α) - avgOf R u2) * ((ratingOf R u2 i : α) - avgOf R u2))) := by
  have hco2 : coRated R u2 u1 i := (coRated_comm R u1 u2 i).1 hco
  have hmem : i ∈ Finset.range (numCols R) := Finset.mem_range.2 hi
  have hzero1 : ∀ j ∈ Finset.range (numCols R), j ≠ i → dev R u1 u2 j = 0 := by
    intro j hj hne
    have : ¬ coRated R u1 u2 j := fun hc => hne (huniq j (Finset.mem_range.1 hj) hc)
    simp only [dev, if_neg this]
  have hzero2 : ∀ j ∈ Finset.range (numCols R), j ≠ i → dev R u2 u1 j = 0 := by
    intro j hj hne
    have : ¬ coRated R u2 u1 j :=
      fun hc => hne (huniq j (Finset.mem_range.1 hj) ((coRated_comm R u1 u2 j).2 hc))
    simp only [dev, if_neg this]
  have hd1 : dev R u1 u2 i = (ratingOf R u1 i : α) - avgOf R u1 := by
    simp only [dev, if_pos hco]
  have hd2 : dev R u2 u1 i = (ratingOf R u2 i : α) - avgOf R u2 := by
    simp only [dev, if_pos hco2]
  have hfilter : (Finset.range (numCols R)).filter (coRated R u1 u2) = {i} := by
    ext j
    simp only [Finset.mem_filter, Finset.mem_range, Finset.mem_singleton]
    constructor
    · rintro ⟨hj, hc⟩; exact huniq j hj hc
    · rintro rfl; exact ⟨hi, hco⟩
  rw [calcPearson_eq sqrt R u1 u2 h, hfilter, Finset.card_singleton]
  rw [Finset.sum_eq_single i (fun j hj hne => by rw [hzero1 j hj hne, zero_mul])
      (fun hn => absurd hmem hn),
    Finset.sum_eq_single i (fun j hj hne => by rw [hzero1 j hj hne, zero_mul])
      (fun hn => absurd hmem hn),
    Finset.sum_eq_single i (fun j hj hne => by rw [hzero2 j hj hne, zero_mul])
      (fun hn => absurd hmem hn),
    hd1, hd2]

end SingleCoRated

/-- Over the reals, the value of `calcPearson` on a single pair of centred
ratings is the sign of their product. -/
theorem pearsonValue_single (d1 d2 : ℝ) :
    pearsonValue Real.sqrt 1 (d1 * d2) (d1 * d1) (d2 * d2) =
      if d1 * d2 = 0 then 0 else if 0 < d1 * d2 then 1 else -1 := by
  have hs : Real.sqrt (d1 * d1 * (d2 * d2)) = |d1 * d2| := by
    rw [show d1 * d1 * (d2 * d2) = (d1 * d2) * (d1 * d2) by ring]
    exact Real.sqrt_mul_self_eq_abs _
  unfold pearsonValue
  rw [if_neg one_ne_zero, hs]
  by_cases hz : d1 * d2 = 0
  · rw [if_pos hz, if_pos (by rw [hz, abs_zero])]
  · rw [if_neg hz, if_neg (by simpa using hz)]
    by_cases hp : 0 < d1 * d2
    · rw [if_pos hp, abs_of_pos hp, div_self hz]
    · have hneg : d1 * d2 < 0 := lt_of_le_of_ne (not_lt.1 hp) hz
      rw [if_neg hp, abs_of_neg hneg, div_neg, div_self hz]

theorem specRecommender_avgOf {α : Type} [LinearOrderedField α] :
    avgOf (specRecommender α) 0 = 4 ∧ avgOf (specRecommender α) 1 = 3 := by
  constructor <;>
  · simp [avgOf, specRecommender, calcAvgRatings, specRatings, rowAvg, avgStep]
    norm_num

theorem specRecommender_ready {α : Type} [LinearOrderedField α] (u1 u2 : Nat)
    (h1 : u1 < 3) (h2 : u2 < 3) : PearsonReady (specRecommender α) u1 u2 :=
  ⟨by
    have hr : RowsOfLength specRatings 3 := by decide
    exact hr, h1, h2, rfl⟩

/-- C3, counterexample: on the example of the specification, users `U0` and
`U1` have exactly one co-rated item and `calcPearson` returns `1`, not `0`. -/
theorem single_corated_counterexample :
    ((Finset.range 3).filter (coRated (specRecommender ℝ) 0 1)).card = 1 ∧
    calcPearson Real.sqrt (specRecommender ℝ) 0 1 = some 1 ∧
    calcPearson Real.sqrt (specRecommender ℝ) 0 1 ≠ some 0 := by
  have hval : calcPearson Real.sqrt (specRecommender ℝ) 0 1 = some 1 := by
    rw [calcPearson_single Real.sqrt (specRecommender ℝ) 0 1 0
      (specRecommender_ready 0 1 (by decide) (by decide)) (by decide) (by decide) (by decide),
      pearsonValue_single, specRecommender_avgOf.1, specRecommender_avgOf.2]
    have e1 : ratingOf (specRecommender ℝ) 0 0 = 5 := rfl
    have e2 : ratingOf (specRecommender ℝ) 1 0 = 4 := rfl
    rw [e1, e2]
    norm_num
  refine ⟨by decide, hval, ?_⟩
  rw [hval]
  norm_num

/-- C3, amended: in real arithmetic, when two users have exactly one co-rated
item `i`, `calcPearson` returns the sign of `(r1 - mean1) * (r2 - mean2)`,
where `r1`, `r2` are their ratings of `i` and `mean1`, `mean2` their means
over all their own positive ratings: `0` when one of them rated `i` exactly at
their mean, `1` when both deviate to the same side, `-1` otherwise. The
statement is over the reals with `Real.sqrt`; rounding is not modelled. -/
theorem single_corated_similarity (R : Recommender ℝ) (n u1 u2 i : Nat)
    (hrows : RowsOfLength R.ratings n) (havg : R.avgRatings = calcAvgRatings R.ratings)
    (h1 : u1 < R.ratings.length) (h2 : u2 < R.ratings.length)
    (hi : i < n) (hco : coRated R u1 u2 i)
    (huniq : ∀ j, j < n → coRated R u1 u2 j → j = i) :
    calcPearson Real.sqrt R u1 u2 = some
      (if ((ratingOf R u1 i : ℝ) - rowAvg (R.ratings.getD u1 [])) *
          ((ratingOf R u2 i : ℝ) - rowAvg (R.ratings.getD u2 [])) = 0 then 0
       else if 0 < ((ratingOf R u1 i : ℝ) - rowAvg (R.ratings.getD u1 [])) *
          ((ratingOf R u2 i : ℝ) - rowAvg (R.ratings.getD u2 [])) then 1
       else -1) := by
  have hready := pearsonReady_of_load R n u1 u2 hrows havg h1 h2
  have hn := numCols_eq R n u1 hrows h1
  rw [calcPearson_single Real.sqrt R u1 u2 i hready (hn ▸ hi) hco (hn ▸ huniq),
    pearsonValue_single, avgOf_load R u1 havg h1, avgOf_load R u2 havg h2]

theorem single_corated_similarity_witness :
    coRated (specRecommender ℝ) 0 2 1 ∧
    calcPearson Real.sqrt (specRecommender ℝ) 0 2 = some
      (if ((ratingOf (specRecommender ℝ) 0 1 : ℝ) - rowAvg [5, 3, 0]) *
          ((ratingOf (specRecommender ℝ) 2 1 : ℝ) - rowAvg [0, 2, 5]) = 0 then 0
       else if 0 < ((ratingOf (specRecommender ℝ) 0 1 : ℝ) - rowAvg [5, 3, 0]) *
          ((ratingOf (specRecommender ℝ) 2 1 : ℝ) - rowAvg [0, 2, 5]) then 1
       else -1) :=
  ⟨by decide,
   single_corated_similarity (specRecommender ℝ) 3 0 2 1 (by decide) rfl (by decide)
    (by decide) (by decide) (by decide) (by decide)⟩

/-! ## `Recommender::predict` -/

section PredictLemmas

variable {α : Type} [LinearOrderedField α]

omit [LinearOrderedField α] in
theorem cellAt_itemRating (R : Recommender α) (n u : Nat) (movieId : Int)
    (hrows : RowsOfLength R.ratings n) (hm1 : 1 ≤ movieId) (hm2 : movieId ≤ n)
    (hu : u < R.ratings.length) :
    cellAt R.ratings u (movieId - 1) = some (itemRating R movieId u) := by
  unfold cellAt itemRating
  rw [if_pos (by omega)]
  exact cell_ratingOf R n u _ hrows hu (by omega)

theorem predictStep_eq (R : Recommender α) (n user : Nat) (movieId : Int)
    (hrows : RowsOfLength R.ratings n) (hm1 : 1 ≤ movieId) (hm2 : movieId ≤ n)
    (u : Nat) (hu : u < R.ratings.length) (acc : PredictAcc α) :
    predictStep R user movieId acc u = some (predictPure R user movieId acc u) := by
  unfold predictStep predictPure
  by_cases huser : u = user
  · rw [if_pos huser, if_neg (fun h => h.1 huser)]
  · rw [if_neg huser, cellAt_itemRating R n u movieId hrows hm1 hm2 hu, Option.some_bind]
    by_cases hr : itemRating R movieId u = 0
    · rw [if_pos hr, if_neg (fun h => h.2.1 hr)]
    · rw [if_neg hr]
      cases hs : R.similarities user u with
      | none =>
        have : ¬ posNeighbour R user movieId u := by
          intro h; have := h.2.2; simp [simOf, hs] at this
        simp only [if_neg this]
      | some s =>
        have hsim : simOf R user u = s := by simp [simOf, hs]
        by_cases hpos : 0 < s
        · have : posNeighbour R user movieId u := ⟨huser, hr, hsim ▸ hpos⟩
          simp only [if_pos hpos, if_pos this, hsim]
        · have : ¬ posNeighbour R user movieId u := fun h => hpos (hsim ▸ h.2.2)
          simp only [if_neg hpos, if_neg this]

omit [LinearOrderedField α] in
theorem filter_range_succ (p : Nat → Prop) [DecidablePred p] (n : Nat) :
    (Finset.range (n + 1)).filter p =
      if p n then insert n ((Finset.range n).filter p) else (Finset.range n).filter p := by
  rw [Finset.range_succ, Finset.filter_insert]

/-- The first loop of `predict` over the first `n` users. -/
theorem predict_foldl (R : Recommender α) (user : Nat) (movieId : Int) (n : Nat)
    (init : PredictAcc α) :
    (List.range n).foldl (predictPure R user movieId) init =
      { num := init.num + ∑ u in (Finset.range n).filter (posNeighbour R user movieId),
          simOf R user u * (itemRating R movieId u : α),
        denom := init.denom + ∑ u in (Finset.range n).filter (posNeighbour R user movieId),
          |simOf R user u|,
        hasSims := init.hasSims ||
          decide (((Finset.range n).filter (posNeighbour R user movieId)).Nonempty) } := by
  induction n with
  | zero => simp
  | succ n ih =>
    rw [List.range_succ, List.foldl_append, ih, filter_range_succ]
    simp only [List.foldl_cons, List.foldl_nil, predictPure]
    have hnot : n ∉ (Finset.range n).filter (posNeighbour R user movieId) := by simp
    by_cases hp : posNeighbour R user movieId n
    · simp only [if_pos hp, Finset.sum_insert hnot, Finset.insert_nonempty, decide_True,
        Bool.or_true]
      congr 1 <;> ring
    · simp only [if_neg hp]

/-- The fallback loop of `predict` over the first `n` users. -/
theorem movieAvg_foldl (R : Recommender α) (movieId : Int) (n : Nat) (init : α × Nat) :
    (List.range n).foldl (movieAvgPure R movieId) init =
      (init.1 + ∑ u in (Finset.range n).filter (fun u => itemRating R movieId u ≠ 0),
          (itemRating R movieId u : α),
        init.2 + ((Finset.range n).filter (fun u => itemRating R movieId u ≠ 0)).card) := by
  induction n with
  | zero => simp
  | succ n ih =>
    rw [List.range_succ, List.foldl_append, ih, filter_range_succ]
    simp only [List.foldl_cons, List.foldl_nil, movieAvgPure]
    have hnot : n ∉ (Finset.range n).filter (fun u => itemRating R movieId u ≠ 0) := by simp
    by_cases hp : itemRating R movieId n ≠ 0
    · simp only [if_pos hp, Finset.sum_insert hnot, Finset.card_insert_of_not_mem hnot]
      congr 1; ring
    · simp only [if_neg hp]

theorem movieAvgStep_eq (R : Recommender α) (n : Nat) (movieId : Int)
    (hrows : RowsOfLength R.ratings n) (hm1 : 1 ≤ movieId) (hm2 : movieId ≤ n)
    (u : Nat) (hu : u < R.ratings.length) (acc : α × Nat) :
    movieAvgStep R movieId acc u = some (movieAvgPure R movieId acc u) := by
  unfold movieAvgStep movieAvgPure
  rw [cellAt_itemRating R n u movieId hrows hm1 hm2 hu, Option.some_bind]
  by_cases hr : itemRating R movieId u = 0
  · rw [if_pos hr, if_neg (not_not.2 hr)]
  · rw [if_neg hr, if_pos hr]

/-- What `predict` returns when the item's column exists in every row. -/
theorem predict_eq (R : Recommender α) (n user : Nat) (movieId : Int)
    (hrows : RowsOfLength R.ratings n) (hm1 : 1 ≤ movieId) (hm2 : movieId ≤ n) :
    predict R user movieId = some
      (if (positiveRaters R user movieId).Nonempty then
        (if ∑ u in positiveRaters R user movieId, |simOf R user u| = 0 then 3
         else (∑ u in positiveRaters R user movieId,
            simOf R user u * (itemRating R movieId u : α)) /
          ∑ u in positiveRaters R user movieId, |simOf R user u|)
       else if 0 < (raters R movieId).card then
        (∑ u in raters R movieId, (itemRating R movieId u : α)) / ((raters R movieId).card : α)
       else 3) := by
  unfold predict
  rw [foldlM_eq_some_foldl _ (predictPure R user movieId) _
    (fun u hu s => predictStep_eq R n user movieId hrows hm1 hm2 u (List.mem_range.1 hu) s),
    foldlM_eq_some_foldl _ (movieAvgPure R movieId) _
    (fun u hu s => movieAvgStep_eq R n movieId hrows hm1 hm2 u (List.mem_range.1 hu) s),
    predict_foldl, movieAvg_foldl]
  simp only [Option.some_bind, zero_add, Bool.false_or, positiveRaters, raters]
  by_cases hP : ((Finset.range R.ratings.length).filter (posNeighbour R user movieId)).Nonempty
  · simp [hP]
  · simp [hP]

end PredictLemmas

/-- C5: prediction fallback of `Recommender::predict`. When no other user who
rated the item has a table entry with positive similarity to the user,
`predict` returns the sum of the item's non-zero ratings divided by their
number, and the constant `3` when no user rated the item. (Holds whether or
not the user rated the item.) -/
theorem predict_fallback {α : Type} [LinearOrderedField α] (R : Recommender α)
    (n user : Nat) (movieId : Int)
    (hrows : RowsOfLength R.ratings n) (hm1 : 1 ≤ movieId) (hm2 : movieId ≤ n)
    (hno : ∀ u, u < R.ratings.length → u ≠ user → itemRating R movieId u ≠ 0 →
      ∀ s, R.similarities user u = some s → s ≤ 0) :
    predict R user movieId = some
      (if 0 < (raters R movieId).card then
        (∑ u in raters R movieId, (itemRating R movieId u : α)) / ((raters R movieId).card : α)
       else 3) := by
  have hP : ¬ (positiveRaters R user movieId).Nonempty := by
    rintro ⟨u, hu⟩
    obtain ⟨hlt, hne, hr, hs⟩ := by simpa [positiveRaters, posNeighbour] using hu
    cases hsim : R.similarities user u with
    | none => simp [simOf, hsim] at hs
    | some s =>
      have h1 := hno u hlt hne hr s hsim
      have h2 : simOf R user u = s := by simp [simOf, hsim]
      rw [h2] at hs
      exact absurd hs (not_lt.2 h1)
  rw [predict_eq R n user movieId hrows hm1 hm2, if_neg hP]

theorem predict_fallback_witness :
    RowsOfLength (specRecommender ℝ).ratings 3 ∧
    predict (specRecommender ℝ) 0 3 = some
      (if 0 < (raters (specRecommender ℝ) 3).card then
        (∑ u in raters (specRecommender ℝ) 3, (itemRating (specRecommender ℝ) 3 u : ℝ)) /
          ((raters (specRecommender ℝ) 3).card : ℝ)
       else 3) :=
  ⟨by decide,
   predict_fallback (specRecommender ℝ) 3 0 3 (by decide) (by decide) (by decide)
    (fun _ _ _ _ s hs => by simp [specRecommender] at hs)⟩

/-- C6: only positive similarities contribute to `Recommender::predict`. When
the set `P` of the other users who rated the item and whose table similarity
to the user is positive is not empty, `predict` returns
`(sum over P of sim * rating) / (sum over P of |sim|)`; no other user and no
other table entry appears in the result. -/
theorem predict_weighted {α : Type} [LinearOrderedField α] (R : Recommender α)
    (n user : Nat) (movieId : Int)
    (hrows : RowsOfLength R.ratings n) (hm1 : 1 ≤ movieId) (hm2 : movieId ≤ n)
    (hP : (positiveRaters R user movieId).Nonempty) :
    predict R user movieId = some
      ((∑ u in positiveRaters R user movieId, simOf R user u * (itemRating R movieId u : α)) /
        ∑ u in positiveRaters R user movieId, |simOf R user u|) := by
  have hpos : 0 < ∑ u in positiveRaters R user movieId, |simOf R user u| := by
    apply Finset.sum_pos _ hP
    intro u hu
    have : posNeighbour R user movieId u := (Finset.mem_filter.1 hu).2
    exact abs_pos.2 (ne_of_gt this.2.2)
  rw [predict_eq R n user movieId hrows hm1 hm2, if_pos hP, if_neg (ne_of_gt hpos)]

theorem predict_weighted_witness :
    (positiveRaters (tableRecommender ℝ) 0 3).Nonempty ∧
    predict (tableRecommender ℝ) 0 3 = some
      ((∑ u in positiveRaters (tableRecommender ℝ) 0 3,
          simOf (tableRecommender ℝ) 0 u * (itemRating (tableRecommender ℝ) 3 u : ℝ)) /
        ∑ u in positiveRaters (tableRecommender ℝ) 0 3, |simOf (tableRecommender ℝ) 0 u|) :=
  have hP : (positiveRaters (tableRecommender ℝ) 0 3).Nonempty :=
    ⟨1, Finset.mem_filter.2 ⟨by decide, by decide, by decide,
      by simp [simOf, tableRecommender]⟩⟩
  ⟨hP, predict_weighted (tableRecommender ℝ) 3 0 3 (by decide) (by decide) (by decide) hP⟩

/-! ## `MovieRecommender::predictRating` -/

section PredictRatingLemmas

variable {α : Type} [LinearOrderedField α]

omit [LinearOrderedField α] in
theorem ratingsMatrix_rowOf (s : MovieRecommender α) (i : Nat)
    (hi : i < s.ratingsMatrix.length) : s.ratingsMatrix[i]? = some (rowOf s i) := by
  simp [rowOf, List.getD_eq_getElem?_getD, List.getElem?_eq_getElem hi]

omit [LinearOrderedField α] in
theorem rowOf_length (s : MovieRecommender α) (n i : Nat)
    (hrows : RowsOfLength s.ratingsMatrix n) (hi : i < s.ratingsMatrix.length) :
    (rowOf s i).length = n := by
  apply hrows
  rw [rowOf, List.getD_eq_getElem?_getD, List.getElem?_eq_getElem hi]
  exact List.getElem_mem hi

theorem cell_entry (s : MovieRecommender α) (n i j : Nat)
    (hrows : RowsOfLength s.ratingsMatrix n) (hi : i < s.ratingsMatrix.length) (hj : j < n) :
    cell s.ratingsMatrix i j = some (entry s i j) :=
  cell_eq_some s.ratingsMatrix n i j 0 hrows hi hj

theorem ratingStep_eq (sqrt : α → α) (s : MovieRecommender α) (n ui mi : Nat)
    (hrows : RowsOfLength s.ratingsMatrix n) (hui : ui < s.ratingsMatrix.length)
    (hmi : mi < n) (i : Nat) (hi : i < s.ratingsMatrix.length) (acc : α × α) :
    ratingStep sqrt s.ratingsMatrix ui mi acc i = some (ratingPure sqrt s ui mi acc i) := by
  unfold ratingStep ratingPure
  by_cases hiu : i = ui
  · rw [if_pos hiu, if_neg (fun h => h.1 hiu)]
  · rw [if_neg hiu, cell_entry s n i mi hrows hi hmi, Option.some_bind]
    by_cases hr : 0 < entry s i mi
    · have hlen : (rowOf s ui).length ≤ (rowOf s i).length := by
        rw [rowOf_length s n ui hrows hui, rowOf_length s n i hrows hi]
      rw [if_pos hr, ratingsMatrix_rowOf s ui hui, Option.some_bind,
        ratingsMatrix_rowOf s i hi, Option.some_bind,
        calculateUserSimilarity_eq sqrt _ _ hlen, Option.some_bind, if_pos ⟨hiu, hr⟩]
      rfl
    · rw [if_neg hr, if_neg (fun h => hr h.2)]

/-- The loop of `predictRating` over the first `k` rows. -/
theorem rating_foldl (sqrt : α → α) (s : MovieRecommender α) (ui mi k : Nat)
    (init : α × α) :
    (List.range k).foldl (ratingPure sqrt s ui mi) init =
      (init.1 + ∑ i in (Finset.range k).filter (fun i => i ≠ ui ∧ 0 < entry s i mi),
          simTo sqrt s ui i * entry s i mi,
        init.2 + ∑ i in (Finset.range k).filter (fun i => i ≠ ui ∧ 0 < entry s i mi),
          |simTo sqrt s ui i|) := by
  induction k with
  | zero => simp
  | succ k ih =>
    rw [List.range_succ, List.foldl_append, ih, filter_range_succ]
    simp only [List.foldl_cons, List.foldl_nil, ratingPure]
    have hnot : k ∉ (Finset.range k).filter (fun i => i ≠ ui ∧ 0 < entry s i mi) := by simp
    by_cases hp : k ≠ ui ∧ 0 < entry s k mi
    · simp only [if_pos hp, Finset.sum_insert hnot]
      congr 1 <;> ring
    · simp only [if_neg hp]

/-- What `predictRating` returns on a rectangular matrix for a cell that is
in range: the stored rating when it is positive, else the weighted value over
all other raters, or `0` when the sum of absolute similarities is not positive. -/
theorem predictRating_eq (sqrt : α → α) (s : MovieRecommender α) (n : Nat)
    (userId movieId : Int) (hrows : RowsOfLength s.ratingsMatrix n)
    (hui : userIndexOf s userId < s.ratingsMatrix.length) (hmi : movieIndexOf s movieId < n) :
    predictRating sqrt s userId movieId = some
      (if 0 < entry s (userIndexOf s userId) (movieIndexOf s movieId) then
        entry s (userIndexOf s userId) (movieIndexOf s movieId)
       else if 0 < absSimSum sqrt s (userIndexOf s userId) (movieIndexOf s movieId) then
        weightedSum sqrt s (userIndexOf s userId) (movieIndexOf s movieId) /
          absSimSum sqrt s (userIndexOf s userId) (movieIndexOf s movieId)
       else 0, afterLookup s userId movieId) := by
  unfold predictRating
  simp only []
  change (cell s.ratingsMatrix (userIndexOf s userId) (movieIndexOf s movieId)).bind _ = _
  rw [cell_entry s n _ _ hrows hui hmi, Option.some_bind]
  by_cases hr : 0 < entry s (userIndexOf s userId) (movieIndexOf s movieId)
  · rw [if_pos hr, if_pos hr]; rfl
  · rw [if_neg hr, if_neg hr]
    change ((List.range s.ratingsMatrix.length).foldlM
      (ratingStep sqrt s.ratingsMatrix (userIndexOf s userId) (movieIndexOf s movieId))
      ((0 : α), (0 : α))).bind _ = _
    rw [foldlM_eq_some_foldl _
      (ratingPure sqrt s (userIndexOf s userId) (movieIndexOf s movieId)) _
      (fun i hi acc => ratingStep_eq sqrt s n _ _ hrows hui hmi i (List.mem_range.1 hi) acc),
      rating_foldl, Option.some_bind]
    simp only [zero_add, absSimSum, weightedSum, otherRaters]
    rfl

end PredictRatingLemmas

/-! ## Evaluation on the example stores -/

section Eval

variable {α : Type} [LinearOrderedField α]

theorem similarityOfCommon_singleton (sqrt : α → α) (p : α × α) :
    similarityOfCommon sqrt [p] = 0 := by
  rw [similarityOfCommon_eq]
  simp [sqSum1]

theorem otherRaters_of_three (s : MovieRecommender α) (mi : Nat)
    (hlen : s.ratingsMatrix.length = 3) (h1 : 0 < entry s 1 mi) (h2 : 0 < entry s 2 mi) :
    otherRaters s 0 mi = {1, 2} := by
  ext i
  simp only [otherRaters, Finset.mem_filter, Finset.mem_range, Finset.mem_insert,
    Finset.mem_singleton, hlen]
  constructor
  · rintro ⟨hlt, hne, -⟩
    omega
  · rintro (rfl | rfl)
    · exact ⟨by decide, by decide, h1⟩
    · exact ⟨by decide, by decide, h2⟩

theorem otherRaters_spec : otherRaters (specStore α) 0 2 = {1, 2} :=
  otherRaters_of_three (specStore α) 2 rfl (by simp [entry, rowOf, specStore])
    (by simp [entry, rowOf, specStore])

theorem simTo_spec (sqrt : α → α) :
    simTo sqrt (specStore α) 0 1 = 0 ∧ simTo sqrt (specStore α) 0 2 = 0 := by
  have c1 : commonOf ([5, 3, 0] : List α) [4, 0, 2] = [(5, 4)] := by
    simp [commonOf, commonPure, List.range_succ]
  have c2 : commonOf ([5, 3, 0] : List α) [0, 2, 5] = [(3, 2)] := by
    simp [commonOf, commonPure, List.range_succ]
  constructor
  · show similarityOfCommon sqrt (commonOf ([5, 3, 0] : List α) [4, 0, 2]) = 0
    rw [c1, similarityOfCommon_singleton]
  · show similarityOfCommon sqrt (commonOf ([5, 3, 0] : List α) [0, 2, 5]) = 0
    rw [c2, similarityOfCommon_singleton]

end Eval

/-- C4, counterexample: on the example of the specification no other rater
of item `I2` has positive similarity to `U0`, the average of the ratings `I2`
received from the other users is `7/2`, and `predictRating` returns `0`. -/
theorem predictRating_fallback_counterexample :
    (∀ i ∈ otherRaters (specStore ℝ) 0 2, ¬ 0 < simTo Real.sqrt (specStore ℝ) 0 i) ∧
    itemAverage (specStore ℝ) 0 2 = 7 / 2 ∧
    (predictRating Real.sqrt (specStore ℝ) 1 3).map Prod.fst = some 0 := by
  have hsim := simTo_spec (α := ℝ) Real.sqrt
  refine ⟨?_, ?_, ?_⟩
  · intro i hi
    rw [otherRaters_spec] at hi
    rcases Finset.mem_insert.1 hi with h | h
    · rw [h, hsim.1]; exact lt_irrefl 0
    · rw [Finset.mem_singleton.1 h, hsim.2]; exact lt_irrefl 0
  · unfold itemAverage
    rw [otherRaters_spec]
    norm_num [entry, rowOf, specStore]
  · rw [predictRating_eq Real.sqrt (specStore ℝ) 3 1 3 (by decide) (by decide) (by decide)]
    have e0 : entry (specStore ℝ) (userIndexOf (specStore ℝ) 1) (movieIndexOf (specStore ℝ) 3)
        = 0 := by
      simp [entry, rowOf, specStore, userIndexOf, movieIndexOf, mapIndex, List.lookup]
    have eS : absSimSum Real.sqrt (specStore ℝ) (userIndexOf (specStore ℝ) 1)
        (movieIndexOf (specStore ℝ) 3) = 0 := by
      show absSimSum Real.sqrt (specStore ℝ) 0 2 = 0
      unfold absSimSum
      rw [otherRaters_spec]
      simp [hsim.1, hsim.2]
    simp [e0, eS]

/-- C4, amended: when no other user who rated the item has positive
similarity to the user, `predictRating` on an unrated cell returns a value that
is at most `0`, and exactly `0` when all those similarities are `0` (in
particular when nobody else rated the item). There is no fallback to the
item's average or to a neutral constant. -/
theorem predictRating_no_positive {α : Type} [LinearOrderedField α] (sqrt : α → α)
    (s : MovieRecommender α) (n : Nat) (userId movieId : Int)
    (hrows : RowsOfLength s.ratingsMatrix n)
    (hui : userIndexOf s userId < s.ratingsMatrix.length) (hmi : movieIndexOf s movieId < n)
    (hunrated : ¬ 0 < entry s (userIndexOf s userId) (movieIndexOf s movieId))
    (hno : ∀ i ∈ otherRaters s (userIndexOf s userId) (movieIndexOf s movieId),
      simTo sqrt s (userIndexOf s userId) i ≤ 0) :
    ∃ v, predictRating sqrt s userId movieId = some (v, afterLookup s userId movieId) ∧
      v ≤ 0 ∧
      ((∀ i ∈ otherRaters s (userIndexOf s userId) (movieIndexOf s movieId),
        simTo sqrt s (userIndexOf s userId) i = 0) → v = 0) := by
  refine ⟨if 0 < absSimSum sqrt s (userIndexOf s userId) (movieIndexOf s movieId) then
      weightedSum sqrt s (userIndexOf s userId) (movieIndexOf s movieId) /
        absSimSum sqrt s (userIndexOf s userId) (movieIndexOf s movieId)
    else 0, ?_, ?_, ?_⟩
  · rw [predictRating_eq sqrt s n userId movieId hrows hui hmi, if_neg hunrated]
  · by_cases hS : 0 < absSimSum sqrt s (userIndexOf s userId) (movieIndexOf s movieId)
    · rw [if_pos hS]
      apply div_nonpos_of_nonpos_of_nonneg _ (le_of_lt hS)
      apply Finset.sum_nonpos
      intro i hi
      have hpos : 0 < entry s i (movieIndexOf s movieId) := (Finset.mem_filter.1 hi).2.2
      exact mul_nonpos_of_nonpos_of_nonneg (hno i hi) (le_of_lt hpos)
    · rw [if_neg hS]
  · intro hzero
    have hS : absSimSum sqrt s (userIndexOf s userId) (movieIndexOf s movieId) = 0 := by
      apply Finset.sum_eq_zero
      intro i hi
      rw [hzero i hi, abs_zero]
    rw [hS, if_neg (lt_irrefl 0)]

theorem predictRating_no_positive_witness :
    (∀ i ∈ otherRaters (specStore ℝ) (userIndexOf (specStore ℝ) 1)
        (movieIndexOf (specStore ℝ) 3),
      simTo Real.sqrt (specStore ℝ) (userIndexOf (specStore ℝ) 1) i ≤ 0) ∧
    ∃ v, predictRating Real.sqrt (specStore ℝ) 1 3 =
        some (v, afterLookup (specStore ℝ) 1 3) ∧ v ≤ 0 ∧
      ((∀ i ∈ otherRaters (specStore ℝ) (userIndexOf (specStore ℝ) 1)
          (movieIndexOf (specStore ℝ) 3),
        simTo Real.sqrt (specStore ℝ) (userIndexOf (specStore ℝ) 1) i = 0) → v = 0) :=
  have hno : ∀ i ∈ otherRaters (specStore ℝ) (userIndexOf (specStore ℝ) 1)
      (movieIndexOf (specStore ℝ) 3),
      simTo Real.sqrt (specStore ℝ) (userIndexOf (specStore ℝ) 1) i ≤ 0 := by
    intro i hi
    have hi2 : i ∈ otherRaters (specStore ℝ) 0 2 := hi
    rw [otherRaters_spec] at hi2
    show simTo Real.sqrt (specStore ℝ) 0 i ≤ 0
    rcases Finset.mem_insert.1 hi2 with h | h
    · rw [h, (simTo_spec Real.sqrt).1]
    · rw [Finset.mem_singleton.1 h, (simTo_spec Real.sqrt).2]
  ⟨hno, predictRating_no_positive Real.sqrt (specStore ℝ) 3 1 3 (by decide) (by decide)
    (by decide) (by simp [entry, rowOf, specStore, userIndexOf, movieIndexOf, mapIndex,
      List.lookup]) hno⟩

section SortLemmas

variable {α : Type} [LinearOrderedField α]

theorem byScoreDesc_total (a b : Int × α) :
    byScoreDesc b a = false ∨ byScoreDesc a b = false := by
  simp only [byScoreDesc, decide_eq_false_iff_not, not_lt]
  exact le_total _ _

theorem byScoreDesc_trans (a b c : Int × α) (h1 : byScoreDesc b a = false)
    (h2 : byScoreDesc c b = false) : byScoreDesc c a = false := by
  simp only [byScoreDesc, decide_eq_false_iff_not, not_lt] at *
  exact le_trans h2 h1

theorem insertionSortBy_contract :
    SortContract insertionSortBy (byScoreDesc : Int × α → Int × α → Bool) := by
  intro l
  haveI : IsTotal (Int × α) (fun a b => byScoreDesc b a = false) :=
    ⟨fun a b => byScoreDesc_total a b⟩
  haveI : IsTrans (Int × α) (fun a b => byScoreDesc b a = false) :=
    ⟨fun a b c h1 h2 => byScoreDesc_trans a b c h1 h2⟩
  exact ⟨List.perm_insertionSort _ l, List.sorted_insertionSort _ l⟩

theorem fullPartialSort_contract :
    PartialSortContract fullPartialSort (byScoreDesc : Int × α → Int × α → Bool) := by
  intro l k _
  obtain ⟨hperm, hsorted⟩ := insertionSortBy_contract (α := α) l
  refine ⟨hperm, hsorted.sublist (List.take_sublist k _), ?_⟩
  intro a ha b hb
  have hsplit : (insertionSortBy byScoreDesc l).take k ++ (insertionSortBy byScoreDesc l).drop k
      = insertionSortBy byScoreDesc l := List.take_append_drop k _
  have hpw := hsorted
  rw [← hsplit, List.pairwise_append] at hpw
  exact hpw.2.2 a ha b hb

end SortLemmas

/-! ## Candidate lists -/

theorem foldlM_eq_some_foldl_inv {σ β : Type} (body : σ → β → Option σ) (f : σ → β → σ)
    (inv : σ → Prop) (l : List β)
    (h : ∀ i ∈ l, ∀ s, inv s → body s i = some (f s i) ∧ inv (f s i)) (init : σ)
    (hinit : inv init) :
    l.foldlM body init = some (l.foldl f init) := by
  induction l generalizing init with
  | nil => rfl
  | cons a t ih =>
    obtain ⟨hstep, hinv⟩ := h a (List.mem_cons_self a t) init hinit
    rw [List.foldlM_cons, hstep]
    exact ih (fun i hi s hs => h i (List.mem_cons_of_mem a hi) s hs) (f init a) hinv

theorem foldl_push_filterMap {β γ : Type} (g : β → Option γ) (l : List β) (init : List γ) :
    l.foldl (fun acc x => pushOpt acc (g x)) init = init ++ l.filterMap g := by
  induction l generalizing init with
  | nil => simp
  | cons a t ih =>
    rw [List.foldl_cons, ih]
    cases hg : g a with
    | none => simp [List.filterMap_cons, hg, pushOpt]
    | some y => simp [List.filterMap_cons, hg, pushOpt]

section RecommendLemmas

variable {α : Type} [LinearOrderedField α]

theorem predict_isSome (R : Recommender α) (n user : Nat) (movieId : Int)
    (hrows : RowsOfLength R.ratings n) (hm1 : 1 ≤ movieId) (hm2 : movieId ≤ n) :
    predict R user movieId = some ((predict R user movieId).getD 0) := by
  rw [predict_eq R n user movieId hrows hm1 hm2]
  rfl

theorem recommendStep_eq (R : Recommender α) (user : Nat)
    (hrows : RowsOfLength R.ratings R.movies.length) (huser : user < R.ratings.length)
    (i : Nat) (hi : i < R.movies.length) (preds : List (Int × α)) :
    recommendStep R user preds i = some (pushOpt preds (candidateAt R user i)) := by
  unfold recommendStep candidateAt
  rw [cell_ratingOf R _ user i hrows huser hi, Option.some_bind]
  by_cases hr : ratingOf R user i = 0
  · have hp := predict_isSome R _ user ((i : Int) + 1) hrows (by omega) (by omega)
    generalize (predict R user ((i : Int) + 1)).getD 0 = v at hp
    rw [if_pos hr, if_pos hr, hp, Option.some_bind]
    rfl
  · rw [if_neg hr, if_neg hr]
    rfl

/-- The value of `recommend` on a rectangular matrix with one column per movie. -/
theorem recommend_eq
    (stdPartialSort : (Int × α → Int × α → Bool) → List (Int × α) → Nat → List (Int × α))
    (R : Recommender α) (user : Nat) (n : Int)
    (hrows : RowsOfLength R.ratings R.movies.length) (huser : user < R.ratings.length)
    (hn : 0 ≤ n) :
    recommend stdPartialSort R user n = some
      ((stdPartialSort byScoreDesc (candidates R user)
          (min n.toNat (candidates R user).length)).take
        (min n.toNat (candidates R user).length)) := by
  unfold recommend
  rw [foldlM_eq_some_foldl _ (fun acc i => pushOpt acc (candidateAt R user i)) _
    (fun i hi acc => recommendStep_eq R user hrows huser i (List.mem_range.1 hi) acc),
    foldl_push_filterMap, List.nil_append, Option.some_bind]
  change (if min n ((candidates R user).length : Int) < 0 then none
    else some ((stdPartialSort byScoreDesc (candidates R user)
      (min n ((candidates R user).length : Int)).toNat).take
        (min n ((candidates R user).length : Int)).toNat)) = _
  have hk : (min n ((candidates R user).length : Int)).toNat =
      min n.toNat (candidates R user).length := by omega
  rw [if_neg (by omega), hk]

omit [LinearOrderedField α] in
theorem length_filterMap_ite {β γ : Type} (c : β → Prop) [DecidablePred c] (g : β → γ)
    (l : List β) :
    (l.filterMap (fun x => if c x then some (g x) else none)).length =
      (l.filter (fun x => decide (c x))).length := by
  induction l with
  | nil => rfl
  | cons a t ih =>
    by_cases h : c a
    · simp [List.filterMap_cons, List.filter_cons, h, ih]
    · simp [List.filterMap_cons, List.filter_cons, h, ih]

theorem mem_candidates (R : Recommender α) (user : Nat) (p : Int × α)
    (hp : p ∈ candidates R user) :
    ∃ i, i < R.movies.length ∧ ratingOf R user i = 0 ∧ p.1 = (i : Int) + 1 ∧
      p.2 = (predict R user ((i : Int) + 1)).getD 0 := by
  unfold candidates at hp
  obtain ⟨i, hi, hc⟩ := List.mem_filterMap.1 hp
  unfold candidateAt at hc
  by_cases hr : ratingOf R user i = 0
  · rw [if_pos hr] at hc
    have hpe : p = ((i : Int) + 1, (predict R user ((i : Int) + 1)).getD 0) :=
      (Option.some.inj hc).symm
    exact ⟨i, List.mem_range.1 hi, hr, by rw [hpe], by rw [hpe]⟩
  · rw [if_neg hr] at hc
    exact absurd hc (by simp)

end RecommendLemmas

section TopNLemmas

variable {α : Type} [LinearOrderedField α]

theorem lookup_of_mem_nodup (m : List (Int × Nat)) (k : Int) (v : Nat)
    (hnodup : (m.map Prod.fst).Nodup) (hmem : (k, v) ∈ m) : m.lookup k = some v := by
  induction m with
  | nil => exact absurd hmem (List.not_mem_nil _)
  | cons a t ih =>
    obtain ⟨a1, a2⟩ := a
    rw [List.map_cons, List.nodup_cons] at hnodup
    rcases List.mem_cons.1 hmem with h | h
    · have h1 : k = a1 := congrArg Prod.fst h
      have h2 : v = a2 := congrArg Prod.snd h
      subst h1; subst h2
      simp [List.lookup]
    · have hne : k ≠ a1 := by
        intro hka
        apply hnodup.1
        rw [← hka]
        exact List.mem_map.2 ⟨(k, v), h, rfl⟩
      have hbeq : (k == a1) = false := by simpa using hne
      rw [List.lookup, hbeq]
      exact ih hnodup.2 h

theorem mapIndex_of_mem (m : List (Int × Nat)) (k : Int) (v : Nat)
    (hnodup : (m.map Prod.fst).Nodup) (hmem : (k, v) ∈ m) : mapIndex m k = (v, m) := by
  unfold mapIndex
  rw [lookup_of_mem_nodup m k v hnodup hmem]

theorem mapIndex_idem (m : List (Int × Nat)) (k : Int) :
    mapIndex (mapIndex m k).2 k = mapIndex m k := by
  unfold mapIndex
  cases h : m.lookup k with
  | none => simp [List.lookup]
  | some v => simp [h]

omit [LinearOrderedField α] in
theorem userIndexOf_afterUserLookup (s : MovieRecommender α) (userId : Int) :
    userIndexOf (afterUserLookup s userId) userId = userIndexOf s userId := by
  unfold userIndexOf afterUserLookup
  simp only [mapIndex_idem]

omit [LinearOrderedField α] in
theorem afterLookup_afterUserLookup (s : MovieRecommender α) (userId movieId : Int)
    (idx : Nat) (hnodup : (s.movieIdToIndex.map Prod.fst).Nodup)
    (hmem : (movieId, idx) ∈ s.movieIdToIndex) :
    afterLookup (afterUserLookup s userId) userId movieId = afterUserLookup s userId ∧
      movieIndexOf (afterUserLookup s userId) movieId = idx := by
  unfold afterLookup afterUserLookup movieIndexOf
  simp only [mapIndex_idem, mapIndex_of_mem s.movieIdToIndex movieId idx hnodup hmem,
    and_self]

theorem topStep_eq (sqrt : α → α) (s : MovieRecommender α) (cols : Nat) (userId : Int)
    (hwf : ItemsWellFormed s cols) (hui : userIndexOf s userId < s.ratingsMatrix.length)
    (p : Int × Nat) (hp : p ∈ s.movieIdToIndex) (l : List (Int × α)) :
    topStep sqrt userId (userIndexOf s userId) (l, afterUserLookup s userId) p =
      some (pushOpt l (topCandidateAt sqrt s (userIndexOf s userId) p),
        afterUserLookup s userId) := by
  obtain ⟨hrows, hnodup, hrange⟩ := hwf
  obtain ⟨hafter, hmidx⟩ :=
    afterLookup_afterUserLookup s userId p.1 p.2 hnodup hp
  have huidx := userIndexOf_afterUserLookup s userId
  unfold topStep topCandidateAt
  change (cell s.ratingsMatrix (userIndexOf s userId) p.2).bind _ = _
  rw [cell_entry s cols _ _ hrows hui (hrange p hp), Option.some_bind]
  by_cases hr : 0 < entry s (userIndexOf s userId) p.2
  · rw [if_pos hr, if_pos hr]; rfl
  · have hui2 : userIndexOf (afterUserLookup s userId) userId <
        (afterUserLookup s userId).ratingsMatrix.length := by rw [huidx]; exact hui
    have hmi2 : movieIndexOf (afterUserLookup s userId) p.1 < cols := by
      rw [hmidx]; exact hrange p hp
    have hpr := predictRating_eq sqrt (afterUserLookup s userId) cols userId p.1 hrows hui2 hmi2
    rw [hafter, huidx, hmidx] at hpr
    have hr2 : ¬ 0 < entry (afterUserLookup s userId) (userIndexOf s userId) p.2 := hr
    rw [if_neg hr2] at hpr
    rw [if_neg hr, if_neg hr]
    simp only []
    rw [hpr, Option.some_bind]
    rfl

omit [LinearOrderedField α] in
theorem foldl_topPure (g : Int × Nat → Option (Int × α)) (st : MovieRecommender α)
    (m : List (Int × Nat)) (l : List (Int × α)) :
    m.foldl (fun (acc : List (Int × α) × MovieRecommender α) p => (pushOpt acc.1 (g p), st))
      (l, st) = (l ++ m.filterMap g, st) := by
  induction m generalizing l with
  | nil => simp
  | cons a t ih =>
    rw [List.foldl_cons, ih]
    cases hg : g a with
    | none => simp [List.filterMap_cons, hg, pushOpt]
    | some y => simp [List.filterMap_cons, hg, pushOpt]

/-- The value of `getTopNRecommendations` on a well-formed store. -/
theorem getTopNRecommendations_eq
    (stdSort : (Int × α → Int × α → Bool) → List (Int × α) → List (Int × α))
    (sqrt : α → α) (s : MovieRecommender α) (cols : Nat) (userId : Int) (N : Nat)
    (hwf : ItemsWellFormed s cols) (hui : userIndexOf s userId < s.ratingsMatrix.length) :
    getTopNRecommendations stdSort sqrt s userId N = some
      ((stdSort byScoreDesc (topCandidates sqrt s (userIndexOf s userId))).take
          (min N (stdSort byScoreDesc (topCandidates sqrt s (userIndexOf s userId))).length),
        afterUserLookup s userId) := by
  unfold getTopNRecommendations
  change (s.movieIdToIndex.foldlM (topStep sqrt userId (userIndexOf s userId))
    ([], afterUserLookup s userId)).bind _ = _
  rw [foldlM_eq_some_foldl_inv _
    (fun acc p => (pushOpt acc.1 (topCandidateAt sqrt s (userIndexOf s userId) p),
      afterUserLookup s userId))
    (fun acc => acc.2 = afterUserLookup s userId) s.movieIdToIndex
    (fun p hp acc hacc => by
      obtain ⟨l, st⟩ := acc
      have hst : st = afterUserLookup s userId := hacc
      subst hst
      exact ⟨topStep_eq sqrt s cols userId hwf hui p hp l, rfl⟩)
    _ rfl,
    foldl_topPure, List.nil_append, Option.some_bind]
  rfl

theorem topCandidates_length (sqrt : α → α) (s : MovieRecommender α) (ui : Nat) :
    (topCandidates sqrt s ui).length = (unratedEntries s ui).length := by
  unfold topCandidates unratedEntries topCandidateAt
  have h := length_filterMap_ite (fun p : Int × Nat => ¬ 0 < entry s ui p.2)
    (fun p => (p.1, ratingValue sqrt s ui p.2)) s.movieIdToIndex
  rw [← h]
  congr 1
  apply List.filterMap_congr
  intro p _
  by_cases hr : 0 < entry s ui p.2
  · simp [hr]
  · simp [hr]

theorem mem_topCandidates (sqrt : α → α) (s : MovieRecommender α) (ui : Nat) (p : Int × α)
    (hp : p ∈ topCandidates sqrt s ui) :
    ∃ idx, (p.1, idx) ∈ s.movieIdToIndex ∧ ¬ 0 < entry s ui idx ∧
      p.2 = ratingValue sqrt s ui idx := by
  unfold topCandidates at hp
  obtain ⟨q, hq, hc⟩ := List.mem_filterMap.1 hp
  unfold topCandidateAt at hc
  by_cases hr : 0 < entry s ui q.2
  · rw [if_pos hr] at hc
    exact absurd hc (by simp)
  · rw [if_neg hr] at hc
    have hpe : p = (q.1, ratingValue sqrt s ui q.2) := (Option.some.inj hc).symm
    refine ⟨q.2, ?_, hr, by rw [hpe]⟩
    rw [hpe]
    exact hq

end TopNLemmas

/-! ## Top-N: candidates, length, order -/

section TopNFacts

variable {α : Type} [LinearOrderedField α]

omit [LinearOrderedField α] in
theorem getD_eq_or_mem {β : Type} (l : List β) (i : Nat) (d : β) :
    l.getD i d = d ∨ l.getD i d ∈ l := by
  by_cases hi : i < l.length
  · right
    rw [List.getD_eq_getElem?_getD, List.getElem?_eq_getElem hi]
    exact List.getElem_mem hi
  · left
    rw [List.getD_eq_getElem?_getD, List.getElem?_eq_none (not_lt.1 hi)]
    rfl

theorem entry_nonneg (s : MovieRecommender α) (h : NonNegRatings s) (i j : Nat) :
    0 ≤ entry s i j := by
  unfold entry rowOf
  rcases getD_eq_or_mem s.ratingsMatrix i [] with hrow | hrow
  · rw [hrow]; simp
  · rcases getD_eq_or_mem (s.ratingsMatrix.getD i []) j 0 with hx | hx
    · rw [hx]
    · exact h _ hrow _ hx

omit [LinearOrderedField α] in
/-- The prefix kept by `recommend`, given the contract of `std::partial_sort`. -/
theorem take_partialSort_facts {β : Type}
    (stdPartialSort : (β → β → Bool) → List β → Nat → List β) (cmp : β → β → Bool)
    (hps : PartialSortContract stdPartialSort cmp) (l : List β) (n : Nat) :
    ((stdPartialSort cmp l (min n l.length)).take (min n l.length)).length = min n l.length ∧
    (∀ p ∈ (stdPartialSort cmp l (min n l.length)).take (min n l.length), p ∈ l) ∧
    ((stdPartialSort cmp l (min n l.length)).take (min n l.length)).Pairwise
      (fun a b => cmp b a = false) ∧
    (l.length ≤ n → ((stdPartialSort cmp l (min n l.length)).take (min n l.length)).Perm l) := by
  obtain ⟨hperm, hsorted, -⟩ := hps l (min n l.length) (Nat.min_le_right _ _)
  refine ⟨?_, ?_, hsorted, ?_⟩
  · rw [List.length_take, hperm.length_eq]
    exact Nat.min_eq_left (Nat.min_le_right _ _)
  · intro p hp
    exact hperm.mem_iff.1 (List.mem_of_mem_take hp)
  · intro hle
    rw [Nat.min_eq_right hle] at hperm ⊢
    rw [List.take_of_length_le (le_of_eq hperm.length_eq)]
    exact hperm

omit [LinearOrderedField α] in
/-- The prefix kept by `getTopNRecommendations`, given the contract of `std::sort`. -/
theorem take_sort_facts {β : Type} (stdSort : (β → β → Bool) → List β → List β)
    (cmp : β → β → Bool) (hsort : SortContract stdSort cmp) (l : List β) (n : Nat) :
    ((stdSort cmp l).take (min n (stdSort cmp l).length)).length = min n l.length ∧
    (∀ p ∈ (stdSort cmp l).take (min n (stdSort cmp l).length), p ∈ l) ∧
    ((stdSort cmp l).take (min n (stdSort cmp l).length)).Pairwise
      (fun a b => cmp b a = false) ∧
    (l.length ≤ n → ((stdSort cmp l).take (min n (stdSort cmp l).length)).Perm l) := by
  obtain ⟨hperm, hsorted⟩ := hsort l
  refine ⟨?_, ?_, hsorted.sublist (List.take_sublist _ _), ?_⟩
  · rw [List.length_take, hperm.length_eq]
    exact Nat.min_eq_left (Nat.min_le_right _ _)
  · intro p hp
    exact hperm.mem_iff.1 (List.mem_of_mem_take hp)
  · intro hle
    rw [hperm.length_eq, Nat.min_eq_right hle,
      List.take_of_length_le (le_of_eq hperm.length_eq)]
    exact hperm

theorem byScoreDesc_false_iff (a b : Int × α) : byScoreDesc b a = false ↔ b.2 ≤ a.2 := by
  simp only [byScoreDesc, decide_eq_false_iff_not, not_lt]

theorem specStore_itemsWellFormed : ItemsWellFormed (specStore α) 3 :=
  ⟨by
    have h : RowsOfLength ([[5, 3, 0], [4, 0, 2], [0, 2, 5]] : List (List α)) 3 := by
      intro row hrow
      simp only [List.mem_cons, List.mem_singleton, List.not_mem_nil, or_false] at hrow
      rcases hrow with h | h | h <;> rw [h] <;> rfl
    exact h,
   by
    have h : (([(1, 0), (2, 1), (3, 2)] : List (Int × Nat)).map Prod.fst).Nodup := by decide
    exact h,
   by
    have h : ∀ p ∈ ([(1, 0), (2, 1), (3, 2)] : List (Int × Nat)), p.2 < 3 := by decide
    exact h⟩

theorem specStore_nonNeg : NonNegRatings (specStore α) := by
  intro row hrow x hx
  simp only [specStore, List.mem_cons, List.mem_singleton, List.not_mem_nil, or_false] at hrow
  rcases hrow with h | h | h <;> subst h <;>
    simp only [List.mem_cons, List.mem_singleton, List.not_mem_nil, or_false] at hx <;>
    rcases hx with h | h | h <;> subst h <;> norm_num

end TopNFacts

/-- C8, amended: topN never includes an item the user already rated. With
the library sorts meeting their contracts, on a matrix with one column per
movie every entry `(id, score)` returned by `recommend(user, n)`, `n >= 0`,
has `1 <= id <= #movies` and `ratings[user][id - 1] = 0`; on a store with rows
of equal length and distinct item ids with column indices in range, every
entry returned by `getTopNRecommendations(userId, N)` is an item of
`movieIdToIndex` whose cell in the user's row is not positive, and is the
sentinel `0` when no cell of the matrix is negative. -/
theorem topN_excludes_rated {α : Type} [LinearOrderedField α]
    (stdPartialSort : (Int × α → Int × α → Bool) → List (Int × α) → Nat → List (Int × α))
    (stdSort : (Int × α → Int × α → Bool) → List (Int × α) → List (Int × α))
    (sqrt : α → α) (R : Recommender α) (user : Nat) (n : Int)
    (s : MovieRecommender α) (cols : Nat) (userId : Int) (N : Nat)
    (hps : PartialSortContract stdPartialSort (byScoreDesc : Int × α → Int × α → Bool))
    (hsort : SortContract stdSort (byScoreDesc : Int × α → Int × α → Bool))
    (hrows : RowsOfLength R.ratings R.movies.length) (huser : user < R.ratings.length)
    (hn : 0 ≤ n) (hwf : ItemsWellFormed s cols)
    (hui : userIndexOf s userId < s.ratingsMatrix.length) :
    (∃ res, recommend stdPartialSort R user n = some res ∧
      ∀ p ∈ res, 1 ≤ p.1 ∧ p.1 ≤ (R.movies.length : Int) ∧ itemRating R p.1 user = 0) ∧
    (∃ res, getTopNRecommendations stdSort sqrt s userId N =
        some (res, afterUserLookup s userId) ∧
      (∀ p ∈ res, ∃ idx, (p.1, idx) ∈ s.movieIdToIndex ∧
        entry s (userIndexOf s userId) idx ≤ 0) ∧
      (NonNegRatings s → ∀ p ∈ res, ∃ idx, (p.1, idx) ∈ s.movieIdToIndex ∧
        entry s (userIndexOf s userId) idx = 0)) := by
  constructor
  · refine ⟨_, recommend_eq stdPartialSort R user n hrows huser hn, ?_⟩
    intro p hp
    have hmem := (take_partialSort_facts stdPartialSort byScoreDesc hps
      (candidates R user) n.toNat).2.1 p hp
    obtain ⟨i, hi, hr, hid, -⟩ := mem_candidates R user p hmem
    refine ⟨by omega, by omega, ?_⟩
    unfold itemRating
    rw [hid]
    have : ((i : Int) + 1 - 1).toNat = i := by omega
    rw [this]
    exact hr
  · have hall : ∀ p ∈ (stdSort byScoreDesc (topCandidates sqrt s (userIndexOf s userId))).take
        (min N (stdSort byScoreDesc (topCandidates sqrt s (userIndexOf s userId))).length),
        ∃ idx, (p.1, idx) ∈ s.movieIdToIndex ∧ entry s (userIndexOf s userId) idx ≤ 0 := by
      intro p hp
      have hmem := (take_sort_facts stdSort byScoreDesc hsort
        (topCandidates sqrt s (userIndexOf s userId)) N).2.1 p hp
      obtain ⟨idx, hidx, hr, -⟩ := mem_topCandidates sqrt s _ p hmem
      exact ⟨idx, hidx, not_lt.1 hr⟩
    refine ⟨_, getTopNRecommendations_eq stdSort sqrt s cols userId N hwf hui, hall, ?_⟩
    intro hnonneg p hp
    obtain ⟨idx, hidx, hle⟩ := hall p hp
    exact ⟨idx, hidx, le_antisymm hle (entry_nonneg s hnonneg _ _)⟩

theorem topN_excludes_rated_witness :
    PartialSortContract fullPartialSort (byScoreDesc : Int × ℝ → Int × ℝ → Bool) ∧
    SortContract insertionSortBy (byScoreDesc : Int × ℝ → Int × ℝ → Bool) ∧
    ItemsWellFormed (specStore ℝ) 3 ∧ NonNegRatings (specStore ℝ) ∧
    (∃ res, recommend fullPartialSort (specRecommender ℝ) 0 2 = some res ∧
      ∀ p ∈ res, 1 ≤ p.1 ∧ p.1 ≤ ((specRecommender ℝ).movies.length : Int) ∧
        itemRating (specRecommender ℝ) p.1 0 = 0) ∧
    (∃ res, getTopNRecommendations insertionSortBy Real.sqrt (specStore ℝ) 1 2 =
        some (res, afterUserLookup (specStore ℝ) 1) ∧
      (∀ p ∈ res, ∃ idx, (p.1, idx) ∈ (specStore ℝ).movieIdToIndex ∧
        entry (specStore ℝ) (userIndexOf (specStore ℝ) 1) idx ≤ 0) ∧
      (∀ p ∈ res, ∃ idx, (p.1, idx) ∈ (specStore ℝ).movieIdToIndex ∧
        entry (specStore ℝ) (userIndexOf (specStore ℝ) 1) idx = 0)) :=
  have h := topN_excludes_rated fullPartialSort insertionSortBy Real.sqrt (specRecommender ℝ)
    0 2 (specStore ℝ) 3 1 2 fullPartialSort_contract insertionSortBy_contract (by decide)
    (by decide) (by decide) specStore_itemsWellFormed (by decide)
  ⟨fullPartialSort_contract, insertionSortBy_contract, specStore_itemsWellFormed,
   specStore_nonNeg, h.1,
   h.2.elim fun res hres => ⟨res, hres.1, hres.2.1, hres.2.2 specStore_nonNeg⟩⟩

/-- C10: topN is ordered by descending predicted score. With the library sorts
meeting their contracts, on a well-formed store every entry of the result of
`recommend` and of `getTopNRecommendations` has a score at least as large as
the score of every later entry, and each entry's score is the value `predict`
(resp. `predictRating`) returns for that user and item. -/
theorem topN_sorted {α : Type} [LinearOrderedField α]
    (stdPartialSort : (Int × α → Int × α → Bool) → List (Int × α) → Nat → List (Int × α))
    (stdSort : (Int × α → Int × α → Bool) → List (Int × α) → List (Int × α))
    (sqrt : α → α) (R : Recommender α) (user : Nat) (n : Int)
    (s : MovieRecommender α) (cols : Nat) (userId : Int) (N : Nat)
    (hps : PartialSortContract stdPartialSort (byScoreDesc : Int × α → Int × α → Bool))
    (hsort : SortContract stdSort (byScoreDesc : Int × α → Int × α → Bool))
    (hrows : RowsOfLength R.ratings R.movies.length) (huser : user < R.ratings.length)
    (hn : 0 ≤ n) (hwf : ItemsWellFormed s cols)
    (hui : userIndexOf s userId < s.ratingsMatrix.length) :
    (∃ res, recommend stdPartialSort R user n = some res ∧
      res.Pairwise (fun a b => b.2 ≤ a.2) ∧
      ∀ p ∈ res, predict R user p.1 = some p.2) ∧
    (∃ res, getTopNRecommendations stdSort sqrt s userId N =
        some (res, afterUserLookup s userId) ∧
      res.Pairwise (fun a b => b.2 ≤ a.2) ∧
      ∀ p ∈ res, (predictRating sqrt s userId p.1).map Prod.fst = some p.2) := by
  constructor
  · obtain ⟨-, hmem, hsorted, -⟩ := take_partialSort_facts stdPartialSort byScoreDesc hps
      (candidates R user) n.toNat
    refine ⟨_, recommend_eq stdPartialSort R user n hrows huser hn,
      hsorted.imp (fun h => (byScoreDesc_false_iff _ _).1 h), ?_⟩
    intro p hp
    obtain ⟨i, hi, -, hid, hval⟩ := mem_candidates R user p (hmem p hp)
    rw [hid, hval]
    exact predict_isSome R _ user ((i : Int) + 1) hrows (by omega) (by omega)
  · obtain ⟨-, hmem, hsorted, -⟩ := take_sort_facts stdSort byScoreDesc hsort
      (topCandidates sqrt s (userIndexOf s userId)) N
    refine ⟨_, getTopNRecommendations_eq stdSort sqrt s cols userId N hwf hui,
      hsorted.imp (fun h => (byScoreDesc_false_iff _ _).1 h), ?_⟩
    intro p hp
    obtain ⟨idx, hidx, hr, hval⟩ := mem_topCandidates sqrt s _ p (hmem p hp)
    have hmidx : movieIndexOf s p.1 = idx := by
      unfold movieIndexOf
      rw [mapIndex_of_mem s.movieIdToIndex p.1 idx hwf.2.1 hidx]
    have hmi : movieIndexOf s p.1 < cols := by rw [hmidx]; exact hwf.2.2 _ hidx
    rw [predictRating_eq sqrt s cols userId p.1 hwf.1 hui hmi, hmidx, if_neg hr, hval]
    rfl

/-! ## Partial selection against a full sort -/

section Selection

variable {α : Type} [LinearOrderedField α]

/-- Two selections of the `k` best scores of the same candidates carry the
same scores in the same order: the prefix of a partially sorted rearrangement
and the prefix of a fully sorted one. -/
theorem prefix_scores_eq (l P F : List (Int × α)) (k : Nat) (hk : k ≤ l.length)
    (hP : P.Perm l) (hF : F.Perm l)
    (hFs : F.Pairwise (fun a b => b.2 ≤ a.2))
    (hPs : (P.take k).Pairwise (fun a b => b.2 ≤ a.2))
    (hPl : ∀ a ∈ P.take k, ∀ b ∈ P.drop k, b.2 ≤ a.2) :
    (P.take k).map Prod.snd = (F.take k).map Prod.snd := by
  have hlenA : ((P.take k).map Prod.snd).length = k := by
    rw [List.length_map, List.length_take, hP.length_eq]
    exact Nat.min_eq_left hk
  have hsortedB := List.sorted_insertionSort (fun x y : α => y ≤ x) ((P.drop k).map Prod.snd)
  have hpermB := List.perm_insertionSort (fun x y : α => y ≤ x) ((P.drop k).map Prod.snd)
  have hsorted : List.Sorted (fun x y : α => y ≤ x)
      ((P.take k).map Prod.snd ++
        ((P.drop k).map Prod.snd).insertionSort (fun x y : α => y ≤ x)) := by
    unfold List.Sorted
    rw [List.pairwise_append]
    refine ⟨List.pairwise_map.2 hPs, hsortedB, ?_⟩
    intro x hx y hy
    obtain ⟨a, ha, rfl⟩ := List.mem_map.1 hx
    obtain ⟨b, hb, rfl⟩ := List.mem_map.1 (hpermB.mem_iff.1 hy)
    exact hPl a ha b hb
  have hperm : ((P.take k).map Prod.snd ++
      ((P.drop k).map Prod.snd).insertionSort (fun x y : α => y ≤ x)).Perm
      (F.map Prod.snd) := by
    have h1 : ((P.take k).map Prod.snd ++ (P.drop k).map Prod.snd) = P.map Prod.snd := by
      rw [← List.map_append, List.take_append_drop]
    have h2 : (P.map Prod.snd).Perm (F.map Prod.snd) := (hP.trans hF.symm).map _
    exact ((List.Perm.append_left _ hpermB).trans (h1 ▸ List.Perm.refl _)).trans h2
  have hFsorted : List.Sorted (fun x y : α => y ≤ x) (F.map Prod.snd) :=
    List.pairwise_map.2 hFs
  haveI : IsAntisymm α (fun x y : α => y ≤ x) := ⟨fun _ _ h1 h2 => le_antisymm h2 h1⟩
  have heq := List.eq_of_perm_of_sorted hperm hsorted hFsorted
  have htake := List.take_left ((P.take k).map Prod.snd)
    (((P.drop k).map Prod.snd).insertionSort (fun x y : α => y ≤ x))
  rw [hlenA, heq, ← List.map_take] at htake
  exact htake.symm

end Selection

/-- C11: partial selection equals full sort plus truncate. With
`std::partial_sort` and `std::sort` meeting their contracts, the result of
`recommend(user, n)`, `n >= 0`, holds the best candidates: every candidate
that is not returned has a score at most the score of every returned entry,
and the returned scores are, in order, the scores of the first
`min(n, #candidates)` entries of the fully sorted candidate list. -/
theorem recommend_selects_best {α : Type} [LinearOrderedField α]
    (stdPartialSort : (Int × α → Int × α → Bool) → List (Int × α) → Nat → List (Int × α))
    (stdSort : (Int × α → Int × α → Bool) → List (Int × α) → List (Int × α))
    (R : Recommender α) (user : Nat) (n : Int)
    (hps : PartialSortContract stdPartialSort (byScoreDesc : Int × α → Int × α → Bool))
    (hsort : SortContract stdSort (byScoreDesc : Int × α → Int × α → Bool))
    (hrows : RowsOfLength R.ratings R.movies.length) (huser : user < R.ratings.length)
    (hn : 0 ≤ n) :
    ∃ res, recommend stdPartialSort R user n = some res ∧
      (∀ c ∈ candidates R user, c ∉ res → ∀ p ∈ res, c.2 ≤ p.2) ∧
      res.map Prod.snd =
        ((stdSort byScoreDesc (candidates R user)).take
          (min n.toNat (candidates R user).length)).map Prod.snd := by
  obtain ⟨hperm, hsorted, hleast⟩ := hps (candidates R user)
    (min n.toNat (candidates R user).length) (Nat.min_le_right _ _)
  obtain ⟨hFperm, hFsorted⟩ := hsort (candidates R user)
  refine ⟨_, recommend_eq stdPartialSort R user n hrows huser hn, ?_, ?_⟩
  · intro c hc hnot p hp
    have hcP := hperm.mem_iff.2 hc
    rw [← List.take_append_drop (min n.toNat (candidates R user).length)
      (stdPartialSort byScoreDesc (candidates R user)
        (min n.toNat (candidates R user).length)), List.mem_append] at hcP
    rcases hcP with h | h
    · exact absurd h hnot
    · exact (byScoreDesc_false_iff _ _).1 (hleast p hp c h)
  · exact prefix_scores_eq (candidates R user) _ _ _ (Nat.min_le_right _ _) hperm hFperm
      (hFsorted.imp (fun h => (byScoreDesc_false_iff _ _).1 h))
      (hsorted.imp (fun h => (byScoreDesc_false_iff _ _).1 h))
      (fun a ha b hb => (byScoreDesc_false_iff _ _).1 (hleast a ha b hb))

/-! ## Ties -/

section Ties

variable {α : Type} [LinearOrderedField α]

theorem reverseSortBy_contract :
    SortContract reverseSortBy (byScoreDesc : Int × α → Int × α → Bool) := by
  intro l
  obtain ⟨hperm, hsorted⟩ := insertionSortBy_contract (α := α) l.reverse
  exact ⟨hperm.trans (List.reverse_perm l), hsorted⟩

theorem reversePartialSort_contract :
    PartialSortContract reversePartialSort (byScoreDesc : Int × α → Int × α → Bool) := by
  intro l k _
  obtain ⟨hperm, hsorted⟩ := reverseSortBy_contract (α := α) l
  refine ⟨hperm, hsorted.sublist (List.take_sublist k _), ?_⟩
  intro a ha b hb
  have hpw := hsorted
  rw [← List.take_append_drop k (reverseSortBy byScoreDesc l), List.pairwise_append] at hpw
  exact hpw.2.2 a ha b hb

theorem tieRecommender_candidates :
    candidates (tieRecommender α) 0 = [(2, 3), (3, 3)] := by
  have hrows : RowsOfLength (tieRecommender α).ratings 3 := by
    have h : RowsOfLength ([[5, 0, 0], [4, 3, 3]] : List (List Int)) 3 := by decide
    exact h
  have hp : ∀ m : Int, 2 ≤ m → m ≤ 3 → predict (tieRecommender α) 0 m = some 3 := by
    intro m h2 h3
    have hP : ¬ (positiveRaters (tieRecommender α) 0 m).Nonempty := by
      rintro ⟨u, hu⟩
      have := (Finset.mem_filter.1 hu).2.2.2
      simp [simOf, tieRecommender] at this
    have hr : raters (tieRecommender α) m = {1} := by
      have hm : m = 2 ∨ m = 3 := by omega
      rcases hm with rfl | rfl <;> rfl
    rw [predict_eq (tieRecommender α) 3 0 m hrows (by omega) (by omega), if_neg hP, hr]
    have hm : m = 2 ∨ m = 3 := by omega
    rcases hm with rfl | rfl <;> simp [itemRating, ratingOf, tieRecommender]
  have h2 := hp 2 (by decide) (by decide)
  have h3 := hp 3 (by decide) (by decide)
  simp [candidates, candidateAt, List.range_succ, ratingOf, tieRecommender] at *
  simp [h2, h3]

end Ties

section TiesEval

variable {α : Type} [LinearOrderedField α]

theorem tieStore_topCandidates (sqrt : α → α) :
    topCandidates sqrt (tieStore α) 0 = [(2, 0), (3, 0)] := by
  have hsim : ∀ mi, ∀ i ∈ otherRaters (tieStore α) 0 mi, simTo sqrt (tieStore α) 0 i = 0 := by
    intro mi i hi
    obtain ⟨hlt, hne, -⟩ := by simpa [otherRaters] using hi
    have h2 : i < 2 := hlt
    have h1 : i = 1 := by omega
    subst h1
    have c : commonOf ([5, 0, 0] : List α) [4, 3, 3] = [(5, 4)] := by
      simp [commonOf, commonPure, List.range_succ]
    show similarityOfCommon sqrt (commonOf ([5, 0, 0] : List α) [4, 3, 3]) = 0
    rw [c, similarityOfCommon_singleton]
  have hval : ∀ mi, ratingValue sqrt (tieStore α) 0 mi = 0 := by
    intro mi
    have hS : absSimSum sqrt (tieStore α) 0 mi = 0 := by
      apply Finset.sum_eq_zero
      intro i hi
      rw [hsim mi i hi, abs_zero]
    unfold ratingValue
    rw [hS, if_neg (lt_irrefl 0)]
  simp [topCandidates, topCandidateAt, tieStore, entry, rowOf, hval]
  exact ⟨hval 1, hval 2⟩

theorem reverseSort_tie (x : α) :
    reverseSortBy byScoreDesc [((2 : Int), x), ((3 : Int), x)] = [(3, x), (2, x)] := by
  simp [reverseSortBy, insertionSortBy, List.insertionSort, List.orderedInsert, byScoreDesc]

theorem insertionSort_tie (x : α) :
    insertionSortBy byScoreDesc [((2 : Int), x), ((3 : Int), x)] = [(2, x), (3, x)] := by
  simp [insertionSortBy, List.insertionSort, List.orderedInsert, byScoreDesc]

theorem tieRecommender_rows : RowsOfLength (tieRecommender α).ratings 3 := by
  have h : RowsOfLength ([[5, 0, 0], [4, 3, 3]] : List (List Int)) 3 := by decide
  exact h

theorem tieStore_itemsWellFormed : ItemsWellFormed (tieStore α) 3 :=
  ⟨by
    intro row hrow
    simp only [tieStore, List.mem_cons, List.mem_singleton, List.not_mem_nil, or_false] at hrow
    rcases hrow with h | h <;> rw [h] <;> rfl,
   by
    have h : (([(1, 0), (2, 1), (3, 2)] : List (Int × Nat)).map Prod.fst).Nodup := by decide
    exact h,
   by
    have h : ∀ p ∈ ([(1, 0), (2, 1), (3, 2)] : List (Int × Nat)), p.2 < 3 := by decide
    exact h⟩

end TiesEval

/-- C12, counterexample: with a sort that meets the contract of
`std::partial_sort` / `std::sort`, user `0` of `tieRecommender` gets the two
tied items in descending id order, `[(3, 3), (2, 3)]`, and for `n = 1` the
higher id `3` is the one kept; `getTopNRecommendations` on the same matrix
returns `[(3, 0), (2, 0)]`. -/
theorem tie_order_counterexample :
    PartialSortContract reversePartialSort (byScoreDesc : Int × ℝ → Int × ℝ → Bool) ∧
    SortContract reverseSortBy (byScoreDesc : Int × ℝ → Int × ℝ → Bool) ∧
    recommend reversePartialSort (tieRecommender ℝ) 0 2 = some [(3, 3), (2, 3)] ∧
    recommend reversePartialSort (tieRecommender ℝ) 0 1 = some [(3, 3)] ∧
    (getTopNRecommendations reverseSortBy Real.sqrt (tieStore ℝ) 1 2).map Prod.fst =
      some [(3, 0), (2, 0)] := by
  refine ⟨reversePartialSort_contract, reverseSortBy_contract, ?_, ?_, ?_⟩
  · rw [recommend_eq reversePartialSort (tieRecommender ℝ) 0 2 tieRecommender_rows
      (by decide) (by decide), tieRecommender_candidates]
    simp [reversePartialSort, reverseSort_tie]
  · rw [recommend_eq reversePartialSort (tieRecommender ℝ) 0 1 tieRecommender_rows
      (by decide) (by decide), tieRecommender_candidates]
    simp [reversePartialSort, reverseSort_tie]
  · rw [getTopNRecommendations_eq reverseSortBy Real.sqrt (tieStore ℝ) 3 1 2
      tieStore_itemsWellFormed (by decide)]
    have hu : userIndexOf (tieStore ℝ) 1 = 0 := by decide
    rw [hu, tieStore_topCandidates]
    simp [reverseSort_tie]

/-- C12, amended: ties are not broken by item id. With the library sorts
meeting their contracts, the result of `recommend` and of
`getTopNRecommendations` is the prefix of what the library sort returned for
the comparator `a.second > b.second`: two entries with different scores are in
strictly descending score order, and entries with equal score stay in the
order the sort left them, which the contract does not fix. -/
theorem tie_order_follows_sort {α : Type} [LinearOrderedField α]
    (stdPartialSort : (Int × α → Int × α → Bool) → List (Int × α) → Nat → List (Int × α))
    (stdSort : (Int × α → Int × α → Bool) → List (Int × α) → List (Int × α))
    (sqrt : α → α) (R : Recommender α) (user : Nat) (n : Int)
    (s : MovieRecommender α) (cols : Nat) (userId : Int) (N : Nat)
    (hps : PartialSortContract stdPartialSort (byScoreDesc : Int × α → Int × α → Bool))
    (hsort : SortContract stdSort (byScoreDesc : Int × α → Int × α → Bool))
    (hrows : RowsOfLength R.ratings R.movies.length) (huser : user < R.ratings.length)
    (hn : 0 ≤ n) (hwf : ItemsWellFormed s cols)
    (hui : userIndexOf s userId < s.ratingsMatrix.length) :
    (∃ res, recommend stdPartialSort R user n = some res ∧
      res = (stdPartialSort byScoreDesc (candidates R user)
        (min n.toNat (candidates R user).length)).take
          (min n.toNat (candidates R user).length) ∧
      res.Pairwise (fun a b => a.2 ≠ b.2 → b.2 < a.2)) ∧
    (∃ res, (getTopNRecommendations stdSort sqrt s userId N).map Prod.fst = some res ∧
      res = (stdSort byScoreDesc (topCandidates sqrt s (userIndexOf s userId))).take
        (min N (stdSort byScoreDesc (topCandidates sqrt s (userIndexOf s userId))).length) ∧
      res.Pairwise (fun a b => a.2 ≠ b.2 → b.2 < a.2)) := by
  constructor
  · obtain ⟨-, -, hsorted, -⟩ := take_partialSort_facts stdPartialSort byScoreDesc hps
      (candidates R user) n.toNat
    refine ⟨_, recommend_eq stdPartialSort R user n hrows huser hn, rfl, ?_⟩
    exact hsorted.imp (fun h hne => lt_of_le_of_ne ((byScoreDesc_false_iff _ _).1 h)
      (Ne.symm hne))
  · obtain ⟨-, -, hsorted, -⟩ := take_sort_facts stdSort byScoreDesc hsort
      (topCandidates sqrt s (userIndexOf s userId)) N
    refine ⟨_, ?_, rfl, ?_⟩
    · rw [getTopNRecommendations_eq stdSort sqrt s cols userId N hwf hui]
      rfl
    · exact hsorted.imp (fun h hne => lt_of_le_of_ne ((byScoreDesc_false_iff _ _).1 h)
        (Ne.symm hne))

theorem tie_order_follows_sort_witness :
    PartialSortContract fullPartialSort (byScoreDesc : Int × ℝ → Int × ℝ → Bool) ∧
    SortContract insertionSortBy (byScoreDesc : Int × ℝ → Int × ℝ → Bool) ∧
    (∃ res, recommend fullPartialSort (tieRecommender ℝ) 0 2 = some res ∧
      res = (fullPartialSort byScoreDesc (candidates (tieRecommender ℝ) 0)
        (min (2 : Int).toNat (candidates (tieRecommender ℝ) 0).length)).take
          (min (2 : Int).toNat (candidates (tieRecommender ℝ) 0).length) ∧
      res.Pairwise (fun a b => a.2 ≠ b.2 → b.2 < a.2)) ∧
    (∃ res, (getTopNRecommendations insertionSortBy Real.sqrt (tieStore ℝ) 1 2).map Prod.fst =
        some res ∧
      res = (insertionSortBy byScoreDesc
          (topCandidates Real.sqrt (tieStore ℝ) (userIndexOf (tieStore ℝ) 1))).take
        (min 2 (insertionSortBy byScoreDesc
          (topCandidates Real.sqrt (tieStore ℝ) (userIndexOf (tieStore ℝ) 1))).length) ∧
      res.Pairwise (fun a b => a.2 ≠ b.2 → b.2 < a.2)) :=
  ⟨fullPartialSort_contract, insertionSortBy_contract,
   tie_order_follows_sort fullPartialSort insertionSortBy Real.sqrt (tieRecommender ℝ) 0 2
    (tieStore ℝ) 3 1 2 fullPartialSort_contract insertionSortBy_contract
    tieRecommender_rows (by decide) (by decide) tieStore_itemsWellFormed (by decide)⟩

/-! ## Identifier lookups and the state of the store -/

section Lookups

variable {α : Type} [LinearOrderedField α]

theorem mapIndex_of_absent (m : List (Int × Nat)) (k : Int) (h : m.lookup k = none) :
    mapIndex m k = (0, (k, 0) :: m) := by
  unfold mapIndex
  rw [h]

omit [LinearOrderedField α] in
theorem afterLookup_of_mem (s : MovieRecommender α) (userId movieId : Int) (u m : Nat)
    (hkeys : DistinctKeys s) (hu : (userId, u) ∈ s.userIdToIndex)
    (hm : (movieId, m) ∈ s.movieIdToIndex) :
    afterLookup s userId movieId = s ∧ userIndexOf s userId = u ∧
      movieIndexOf s movieId = m := by
  unfold afterLookup userIndexOf movieIndexOf
  rw [mapIndex_of_mem _ _ _ hkeys.1 hu, mapIndex_of_mem _ _ _ hkeys.2 hm]
  exact ⟨rfl, rfl, rfl⟩

omit [LinearOrderedField α] in
theorem afterUserLookup_of_mem (s : MovieRecommender α) (userId : Int) (u : Nat)
    (hnodup : (s.userIdToIndex.map Prod.fst).Nodup) (hu : (userId, u) ∈ s.userIdToIndex) :
    afterUserLookup s userId = s := by
  unfold afterUserLookup
  rw [mapIndex_of_mem _ _ _ hnodup hu]

theorem predictRating_cellValue (sqrt : α → α) (s : MovieRecommender α) (n : Nat)
    (userId movieId : Int) (hrows : RowsOfLength s.ratingsMatrix n)
    (hui : userIndexOf s userId < s.ratingsMatrix.length) (hmi : movieIndexOf s movieId < n) :
    predictRating sqrt s userId movieId = some
      (cellValue sqrt s (userIndexOf s userId) (movieIndexOf s movieId),
        afterLookup s userId movieId) := by
  rw [predictRating_eq sqrt s n userId movieId hrows hui hmi]
  rfl

/-- The early return of `predictRating` on a cell that holds a positive rating. -/
theorem predictRating_rated (sqrt : α → α) (s : MovieRecommender α) (userId movieId : Int)
    (r : α) (hcell : cell s.ratingsMatrix (userIndexOf s userId) (movieIndexOf s movieId) =
      some r) (hr : 0 < r) :
    predictRating sqrt s userId movieId = some (r, afterLookup s userId movieId) := by
  unfold predictRating
  change (cell s.ratingsMatrix (userIndexOf s userId) (movieIndexOf s movieId)).bind _ = _
  rw [hcell, Option.some_bind, if_pos hr]
  rfl

theorem findId_mem (m : List (Int × Nat)) (index : Nat) (h : ∃ k, (k, index) ∈ m) :
    (findId m index, index) ∈ m := by
  obtain ⟨k, hk⟩ := h
  unfold findId
  cases hf : m.find? (fun p => p.2 == index) with
  | none =>
    have := List.find?_eq_none.1 hf (k, index) hk
    simp at this
  | some p =>
    have hp : (p.2 == index) = true :=
      List.find?_some (p := fun q : Int × Nat => q.2 == index) hf
    have hmem : p ∈ m := List.mem_of_find?_eq_some hf
    have hidx : p.2 = index := by simpa using hp
    have hpe : p = (p.1, index) := by rw [← hidx]
    rw [hpe] at hmem
    exact hmem

end Lookups

/-! ## `MovieRecommender::calculateRMSE` -/

theorem foldlM_inv {σ β : Type} (body : σ → β → Option σ) (inv : σ → Prop) (l : List β)
    (h : ∀ i ∈ l, ∀ s, inv s → ∃ s', body s i = some s' ∧ inv s') (init : σ)
    (hinit : inv init) : ∃ r, l.foldlM body init = some r ∧ inv r := by
  induction l generalizing init with
  | nil => exact ⟨init, rfl, hinit⟩
  | cons a t ih =>
    obtain ⟨s', hstep, hinv⟩ := h a (List.mem_cons_self a t) init hinit
    obtain ⟨r, hr, hrinv⟩ := ih (fun i hi s hs => h i (List.mem_cons_of_mem a hi) s hs) s' hinv
    exact ⟨r, by rw [List.foldlM_cons, hstep]; exact hr, hrinv⟩

theorem cell_some {β : Type} (m : List (List β)) (u i : Nat) (r : β)
    (h : cell m u i = some r) :
    ∃ row, m[u]? = some row ∧ row[i]? = some r ∧ u < m.length ∧ i < row.length ∧
      row ∈ m ∧ r ∈ row := by
  unfold cell at h
  cases hrow : m[u]? with
  | none => rw [hrow] at h; exact absurd h (by simp)
  | some row =>
    rw [hrow, Option.some_bind] at h
    obtain ⟨hu, hu2⟩ := List.getElem?_eq_some_iff.1 hrow
    obtain ⟨hi, hi2⟩ := List.getElem?_eq_some_iff.1 h
    exact ⟨row, rfl, h, hu, hi, hu2 ▸ List.getElem_mem hu, hi2 ▸ List.getElem_mem hi⟩

theorem cell_of_getElem {β : Type} (m : List (List β)) (u i : Nat) (row : List β)
    (hrow : m[u]? = some row) (hi : i < row.length) : cell m u i = some (row[i]) := by
  unfold cell
  rw [hrow, Option.some_bind, List.getElem?_eq_getElem hi]

section Rmse

variable {α : Type} [LinearOrderedField α]

/-- The two loops of `calculateRMSE` when every call of `predictRating` on a
rated cell returns and leaves the store unchanged: the store is unchanged at
the end, and the sum of squared errors is `0` when each call returned the
stored rating. -/
theorem rmse_loop (sqrt : α → α) (s : MovieRecommender α) (good : Prop)
    (hpred : ∀ u m r, cell s.ratingsMatrix u m = some r → r ≠ 0 →
      ∃ v, predictRating sqrt s (findId s.userIdToIndex u) (findId s.movieIdToIndex m) =
        some (v, s) ∧ (good → v = r)) :
    ∃ acc, (List.range s.ratingsMatrix.length).foldlM (rmseRow sqrt)
        { sumSquaredError := 0, totalRatings := 0, store := s } = some acc ∧
      acc.store = s ∧ (good → acc.sumSquaredError = 0) := by
  apply foldlM_inv (rmseRow sqrt) (fun acc => acc.store = s ∧ (good → acc.sumSquaredError = 0))
  · intro u hu acc hacc
    obtain ⟨sum, total, st⟩ := acc
    obtain ⟨hst, hsum⟩ := hacc
    simp only at hst hsum
    subst hst
    have hulen : u < st.ratingsMatrix.length := List.mem_range.1 hu
    have hrow : st.ratingsMatrix[u]? = some (st.ratingsMatrix[u]) :=
      List.getElem?_eq_getElem hulen
    unfold rmseRow
    simp only [hrow, Option.some_bind]
    apply foldlM_inv (rmseCell sqrt u)
      (fun acc => acc.store = st ∧ (good → acc.sumSquaredError = 0))
    · intro m hm acc2 hacc2
      obtain ⟨sum2, total2, st2⟩ := acc2
      obtain ⟨hst2, hsum2⟩ := hacc2
      simp only at hst2 hsum2
      subst hst2
      obtain ⟨r, hcell⟩ : ∃ r, cell st2.ratingsMatrix u m = some r :=
        ⟨_, cell_of_getElem st2.ratingsMatrix u m _ hrow (List.mem_range.1 hm)⟩
      unfold rmseCell
      simp only [hcell, Option.some_bind]
      by_cases hz : r = 0
      · rw [if_pos hz]
        exact ⟨_, rfl, rfl, hsum2⟩
      · rw [if_neg hz]
        obtain ⟨v, hv, hgood⟩ := hpred u m _ hcell hz
        rw [hv]
        simp only [Option.some_bind, hcell]
        refine ⟨_, rfl, rfl, ?_⟩
        intro hg
        simp only [hsum2 hg, hgood hg, sub_self]
        norm_num
    · exact ⟨rfl, hsum⟩
  · exact ⟨rfl, fun _ => rfl⟩

/-- The calls of `predictRating` made by `calculateRMSE` on a store whose
cells are not negative and whose rows and columns all have ids: each returns
the stored rating and leaves the store unchanged. -/
theorem rmse_predict_rated (sqrt : α → α) (s : MovieRecommender α)
    (hkeys : DistinctKeys s) (hcover : IdsCoverCells s) (hnonneg : NonNegRatings s)
    (u m : Nat) (r : α) (hcell : cell s.ratingsMatrix u m = some r) (hr : r ≠ 0) :
    predictRating sqrt s (findId s.userIdToIndex u) (findId s.movieIdToIndex m) =
      some (r, s) := by
  obtain ⟨row, -, -, hu, hm, hrowmem, hrmem⟩ := cell_some s.ratingsMatrix u m r hcell
  have hpos : 0 < r := lt_of_le_of_ne (hnonneg row hrowmem r hrmem) (Ne.symm hr)
  have hU := findId_mem s.userIdToIndex u (hcover.1 u hu)
  have hM := findId_mem s.movieIdToIndex m (hcover.2 row hrowmem m hm)
  obtain ⟨hafter, hui, hmi⟩ := afterLookup_of_mem s _ _ u m hkeys hU hM
  have := predictRating_rated sqrt s (findId s.userIdToIndex u) (findId s.movieIdToIndex m) r
    (by rw [hui, hmi]; exact hcell) hpos
  rw [hafter] at this
  exact this

/-- The calls of `predictRating` made by `calculateRMSE` on a rectangular
store whose rows and columns all have ids leave the store unchanged. -/
theorem rmse_predict_state (sqrt : α → α) (s : MovieRecommender α) (cols : Nat)
    (hrows : RowsOfLength s.ratingsMatrix cols)
    (hkeys : DistinctKeys s) (hcover : IdsCoverCells s)
    (u m : Nat) (r : α) (hcell : cell s.ratingsMatrix u m = some r) :
    predictRating sqrt s (findId s.userIdToIndex u) (findId s.movieIdToIndex m) =
      some (cellValue sqrt s u m, s) := by
  obtain ⟨row, -, -, hu, hm, hrowmem, -⟩ := cell_some s.ratingsMatrix u m r hcell
  have hU := findId_mem s.userIdToIndex u (hcover.1 u hu)
  have hM := findId_mem s.movieIdToIndex m (hcover.2 row hrowmem m hm)
  obtain ⟨hafter, hui, hmi⟩ := afterLookup_of_mem s _ _ u m hkeys hU hM
  have hmcols : m < cols := by rw [← hrows row hrowmem]; exact hm
  have := predictRating_cellValue sqrt s cols (findId s.userIdToIndex u)
    (findId s.movieIdToIndex m) hrows (by rw [hui]; exact hu) (by rw [hmi]; exact hmcols)
  rw [hafter, hui, hmi] at this
  exact this

end Rmse

section StoreEval

variable {α : Type} [LinearOrderedField α]

theorem specStore_topCandidates_row0 (sqrt : α → α) :
    topCandidates sqrt (specStore α) 0 = [(3, 0)] := by
  have hS : absSimSum sqrt (specStore α) 0 2 = 0 := by
    unfold absSimSum
    rw [otherRaters_spec]
    simp [(simTo_spec sqrt).1, (simTo_spec sqrt).2]
  have hval : ratingValue sqrt (specStore α) 0 2 = 0 := by
    unfold ratingValue
    rw [hS, if_neg (lt_irrefl 0)]
  simp [topCandidates, topCandidateAt, specStore, entry, rowOf]
  exact hval

end StoreEval

/-- C13, counterexample: user id `99` is absent from `userIdToIndex` of the
example store, yet `predictRating(99, 1)` returns `5`, the rating of item `1`
by the user of row `0`, and `getTopNRecommendations(99, 1)` returns the
recommendation list of that user. -/
theorem unknown_id_counterexample :
    (specStore ℝ).userIdToIndex.lookup 99 = none ∧
    (predictRating Real.sqrt (specStore ℝ) 99 1).map Prod.fst = some 5 ∧
    (getTopNRecommendations insertionSortBy Real.sqrt (specStore ℝ) 99 1).map Prod.fst =
      some [(3, 0)] := by
  refine ⟨by decide, ?_, ?_⟩
  · rw [predictRating_rated Real.sqrt (specStore ℝ) 99 1 5 rfl (by norm_num)]
    rfl
  · rw [getTopNRecommendations_eq insertionSortBy Real.sqrt (specStore ℝ) 3 99 1
      specStore_itemsWellFormed (by decide)]
    have hu : userIndexOf (specStore ℝ) 99 = 0 := by decide
    rw [hu, specStore_topCandidates_row0]
    simp [insertionSortBy]

/-- C13, amended: an unknown identifier is not signalled. `operator[]` gives
an absent user id the row index `0` and an absent movie id the column index
`0`, inserting the entry `(id, 0)` in the map, and `predictRating` and
`getTopNRecommendations` then answer for that row and column: on a
well-formed store they return the value of the cell
`(userIndex, movieIndex)` and the recommendation list of row `userIndex`. -/
theorem unknown_ids_default {α : Type} [LinearOrderedField α]
    (stdSort : (Int × α → Int × α → Bool) → List (Int × α) → List (Int × α))
    (sqrt : α → α) (s : MovieRecommender α) (cols : Nat) (userId movieId : Int) (N : Nat)
    (hwf : ItemsWellFormed s cols)
    (hui : userIndexOf s userId < s.ratingsMatrix.length) (hmi : movieIndexOf s movieId < cols) :
    predictRating sqrt s userId movieId = some
      (cellValue sqrt s (userIndexOf s userId) (movieIndexOf s movieId),
        afterLookup s userId movieId) ∧
    getTopNRecommendations stdSort sqrt s userId N = some
      ((stdSort byScoreDesc (topCandidates sqrt s (userIndexOf s userId))).take
          (min N (stdSort byScoreDesc (topCandidates sqrt s (userIndexOf s userId))).length),
        afterUserLookup s userId) ∧
    (s.userIdToIndex.lookup userId = none →
      userIndexOf s userId = 0 ∧
      (afterUserLookup s userId).userIdToIndex = (userId, 0) :: s.userIdToIndex ∧
      (afterLookup s userId movieId).userIdToIndex = (userId, 0) :: s.userIdToIndex) ∧
    (s.movieIdToIndex.lookup movieId = none →
      movieIndexOf s movieId = 0 ∧
      (afterLookup s userId movieId).movieIdToIndex = (movieId, 0) :: s.movieIdToIndex) := by
  refine ⟨predictRating_cellValue sqrt s cols userId movieId hwf.1 hui hmi,
    getTopNRecommendations_eq stdSort sqrt s cols userId N hwf hui, ?_, ?_⟩
  · intro habs
    unfold userIndexOf afterUserLookup afterLookup
    rw [mapIndex_of_absent _ _ habs]
    exact ⟨rfl, rfl, rfl⟩
  · intro habs
    unfold movieIndexOf afterLookup
    rw [mapIndex_of_absent _ _ habs]
    exact ⟨rfl, rfl⟩

theorem unknown_ids_default_witness :
    (specStore ℝ).userIdToIndex.lookup 99 = none ∧
    (specStore ℝ).movieIdToIndex.lookup 77 = none ∧
    predictRating Real.sqrt (specStore ℝ) 99 77 = some
      (cellValue Real.sqrt (specStore ℝ) (userIndexOf (specStore ℝ) 99)
          (movieIndexOf (specStore ℝ) 77),
        afterLookup (specStore ℝ) 99 77) ∧
    getTopNRecommendations insertionSortBy Real.sqrt (specStore ℝ) 99 2 = some
      ((insertionSortBy byScoreDesc
          (topCandidates Real.sqrt (specStore ℝ) (userIndexOf (specStore ℝ) 99))).take
          (min 2 (insertionSortBy byScoreDesc
            (topCandidates Real.sqrt (specStore ℝ) (userIndexOf (specStore ℝ) 99))).length),
        afterUserLookup (specStore ℝ) 99) ∧
    (userIndexOf (specStore ℝ) 99 = 0 ∧
      (afterUserLookup (specStore ℝ) 99).userIdToIndex =
        (99, 0) :: (specStore ℝ).userIdToIndex ∧
      (afterLookup (specStore ℝ) 99 77).userIdToIndex =
        (99, 0) :: (specStore ℝ).userIdToIndex) ∧
    (movieIndexOf (specStore ℝ) 77 = 0 ∧
      (afterLookup (specStore ℝ) 99 77).movieIdToIndex =
        (77, 0) :: (specStore ℝ).movieIdToIndex) :=
  have h := unknown_ids_default insertionSortBy Real.sqrt (specStore ℝ) 3 99 77 2
    specStore_itemsWellFormed (by decide) (by decide)
  ⟨by decide, by decide, h.1, h.2.1, h.2.2.1 (by decide), h.2.2.2 (by decide)⟩

/-- C14, counterexample: movie id `77` is absent from the example store.
After `predictRating(3, 77)` returns, `movieIdToIndex` holds the new entry
`(77, 0)`, so the store differs from the one before the call, and
`getTopNRecommendations(3, 5)` returns two entries where it returned one. -/
theorem query_mutates_counterexample :
    (specStore ℝ).movieIdToIndex.lookup 77 = none ∧
    (predictRating Real.sqrt (specStore ℝ) 3 77).map Prod.snd =
      some (afterLookup (specStore ℝ) 3 77) ∧
    (afterLookup (specStore ℝ) 3 77).movieIdToIndex =
      (77, 0) :: (specStore ℝ).movieIdToIndex ∧
    (afterLookup (specStore ℝ) 3 77).movieIdToIndex ≠ (specStore ℝ).movieIdToIndex ∧
    (getTopNRecommendations insertionSortBy Real.sqrt (specStore ℝ) 3 5).map
      (fun r => r.1.length) = some 1 ∧
    (getTopNRecommendations insertionSortBy Real.sqrt (afterLookup (specStore ℝ) 3 77) 3 5).map
      (fun r => r.1.length) = some 2 := by
  have hwf2 : ItemsWellFormed (afterLookup (specStore ℝ) 3 77) 3 :=
    ⟨specStore_itemsWellFormed.1, by decide, by decide⟩
  refine ⟨by decide, ?_, by decide, by decide, ?_, ?_⟩
  · rw [predictRating_cellValue Real.sqrt (specStore ℝ) 3 3 77 specStore_itemsWellFormed.1
      (by decide) (by decide)]
    rfl
  · rw [getTopNRecommendations_eq insertionSortBy Real.sqrt (specStore ℝ) 3 3 5
      specStore_itemsWellFormed (by decide)]
    have hlen := (take_sort_facts insertionSortBy byScoreDesc
      (insertionSortBy_contract (α := ℝ))
      (topCandidates Real.sqrt (specStore ℝ) (userIndexOf (specStore ℝ) 3)) 5).1
    rw [topCandidates_length] at hlen
    have hu : userIndexOf (specStore ℝ) 3 = 2 := by decide
    have hcount : (unratedEntries (specStore ℝ) 2).length = 1 := by
      simp [unratedEntries, entry, rowOf, specStore]
    rw [hu, hcount] at hlen
    simp only [Option.map_some', hu, hlen]
    rfl
  · rw [getTopNRecommendations_eq insertionSortBy Real.sqrt (afterLookup (specStore ℝ) 3 77)
      3 3 5 hwf2 (by decide)]
    have hlen := (take_sort_facts insertionSortBy byScoreDesc
      (insertionSortBy_contract (α := ℝ))
      (topCandidates Real.sqrt (afterLookup (specStore ℝ) 3 77)
        (userIndexOf (afterLookup (specStore ℝ) 3 77) 3)) 5).1
    rw [topCandidates_length] at hlen
    have hu : userIndexOf (afterLookup (specStore ℝ) 3 77) 3 = 2 := by decide
    have hcount : (unratedEntries (afterLookup (specStore ℝ) 3 77) 2).length = 2 := by
      simp [unratedEntries, entry, rowOf, specStore, afterLookup, mapIndex, List.lookup]
    rw [hu, hcount] at hlen
    simp only [Option.map_some', hu, hlen]
    rfl

/-- C14, amended: a query whose ids are present in the maps does not mutate
the store. On a well-formed store with distinct keys, after
`predictRating(userId, movieId)` with both ids present, after
`getTopNRecommendations(userId, N)` with the user id present, and after
`calculateRMSE` when every row and column has an id, `ratingsMatrix`,
`userIdToIndex` and `movieIdToIndex` are equal to their values before the
call (so a later query sees the same store). An absent id is inserted with
index `0` by `operator[]`. -/
theorem queries_keep_store {α : Type} [LinearOrderedField α]
    (stdSort : (Int × α → Int × α → Bool) → List (Int × α) → List (Int × α))
    (sqrt : α → α) (s : MovieRecommender α) (cols : Nat) (userId movieId : Int)
    (N u m : Nat)
    (hwf : ItemsWellFormed s cols) (hkeys : DistinctKeys s) (hcover : IdsCoverCells s)
    (hu : (userId, u) ∈ s.userIdToIndex) (hm : (movieId, m) ∈ s.movieIdToIndex)
    (hulen : u < s.ratingsMatrix.length) :
    (∃ v, predictRating sqrt s userId movieId = some (v, s)) ∧
    (∃ l, getTopNRecommendations stdSort sqrt s userId N = some (l, s)) ∧
    (∃ e, calculateRMSE sqrt s = some (e, s)) := by
  obtain ⟨hafter, hui, hmi⟩ := afterLookup_of_mem s userId movieId u m hkeys hu hm
  refine ⟨?_, ?_, ?_⟩
  · refine ⟨cellValue sqrt s (userIndexOf s userId) (movieIndexOf s movieId), ?_⟩
    rw [predictRating_cellValue sqrt s cols userId movieId hwf.1 (by rw [hui]; exact hulen)
      (by rw [hmi]; exact hwf.2.2 _ hm), hafter]
  · refine ⟨(stdSort byScoreDesc (topCandidates sqrt s (userIndexOf s userId))).take
      (min N (stdSort byScoreDesc (topCandidates sqrt s (userIndexOf s userId))).length), ?_⟩
    rw [getTopNRecommendations_eq stdSort sqrt s cols userId N hwf (by rw [hui]; exact hulen),
      afterUserLookup_of_mem s userId u hkeys.1 hu]
  · obtain ⟨acc, hacc, hstore, -⟩ := rmse_loop sqrt s False
      (fun u m r hcell _ => ⟨_, rmse_predict_state sqrt s cols hwf.1 hkeys hcover u m r hcell,
        fun h => absurd h not_false⟩)
    refine ⟨sqrt (acc.sumSquaredError / (acc.totalRatings : α)), ?_⟩
    unfold calculateRMSE
    rw [hacc, Option.some_bind, hstore]

theorem specStore_distinctKeys {α : Type} [LinearOrderedField α] :
    DistinctKeys (specStore α) :=
  ⟨by
    have h : (([(1, 0), (2, 1), (3, 2)] : List (Int × Nat)).map Prod.fst).Nodup := by decide
    exact h,
   by
    have h : (([(1, 0), (2, 1), (3, 2)] : List (Int × Nat)).map Prod.fst).Nodup := by decide
    exact h⟩

theorem index_has_id (v : Nat) (hv : v < 3) :
    ∃ k, (k, v) ∈ ([(1, 0), (2, 1), (3, 2)] : List (Int × Nat)) := by
  interval_cases v
  · exact ⟨1, by decide⟩
  · exact ⟨2, by decide⟩
  · exact ⟨3, by decide⟩

theorem specStore_idsCover {α : Type} [LinearOrderedField α] :
    IdsCoverCells (specStore α) := by
  constructor
  · intro u hu
    exact index_has_id u hu
  · intro row hrow j hj
    have hlen : row.length = 3 := specStore_itemsWellFormed.1 row hrow
    exact index_has_id j (hlen ▸ hj)

theorem queries_keep_store_witness :
    DistinctKeys (specStore ℝ) ∧ IdsCoverCells (specStore ℝ) ∧
    (∃ v, predictRating Real.sqrt (specStore ℝ) 1 3 = some (v, specStore ℝ)) ∧
    (∃ l, getTopNRecommendations insertionSortBy Real.sqrt (specStore ℝ) 1 2 =
      some (l, specStore ℝ)) ∧
    (∃ e, calculateRMSE Real.sqrt (specStore ℝ) = some (e, specStore ℝ)) :=
  ⟨specStore_distinctKeys, specStore_idsCover,
   queries_keep_store insertionSortBy Real.sqrt (specStore ℝ) 3 1 3 2 0 2
    specStore_itemsWellFormed specStore_distinctKeys specStore_idsCover
    (by decide) (by decide) (by decide)⟩

/-- C18, counterexample: `duplicateIdStore` has injective, in-range id maps,
no negative cell and three rated cells, but row `1` has no user id. For its
cell `calculateRMSE` finds the id `-1`, `predictRating(-1, 1)` answers for row
`0` with `5` where the stored rating is `3`, and the result is
`sqrt(4 / 3)`, not `0`. -/
theorem rmse_counterexample :
    InjectiveInRange (duplicateIdStore ℝ) 1 ∧ NonNegRatings (duplicateIdStore ℝ) ∧
    HasRatedCell (duplicateIdStore ℝ) ∧
    (calculateRMSE Real.sqrt (duplicateIdStore ℝ)).map Prod.fst = some (Real.sqrt (4 / 3)) ∧
    Real.sqrt (4 / 3) ≠ 0 := by
  refine ⟨⟨by decide, by decide, by decide, by decide⟩, ?_, ?_, ?_, ?_⟩
  · intro row hrow x hx
    simp only [duplicateIdStore, List.mem_cons, List.mem_singleton, List.not_mem_nil,
      or_false] at hrow
    rcases hrow with h | h | h <;> subst h <;>
      simp only [List.mem_singleton] at hx <;> subst hx <;> norm_num
  · exact ⟨[5], by simp [duplicateIdStore], 5, by simp, by norm_num⟩
  · simp [calculateRMSE, rmseRow, rmseCell, List.range_succ, duplicateIdStore, cell, findId,
      predictRating, mapIndex, List.lookup, List.find?]
    norm_num
  · exact ne_of_gt (Real.sqrt_pos.2 (by norm_num))

/-- C18, amended: the reference RMSE leaks the label. On a store with distinct
keys in which every row and every column has an id, no cell is negative and
some cell is rated, `predictRating` returns the stored rating for every rated
cell that `calculateRMSE` visits, every squared error is `0`, and
`calculateRMSE` returns exactly `0`, leaving the store unchanged. -/
theorem rmse_is_zero (s : MovieRecommender ℝ) (hkeys : DistinctKeys s)
    (hcover : IdsCoverCells s) (hnonneg : NonNegRatings s) (hrated : HasRatedCell s) :
    (∀ u m r, cell s.ratingsMatrix u m = some r → r ≠ 0 →
      predictRating Real.sqrt s (findId s.userIdToIndex u) (findId s.movieIdToIndex m) =
        some (r, s)) ∧
    (∃ u m r, cell s.ratingsMatrix u m = some r ∧ r ≠ 0) ∧
    calculateRMSE Real.sqrt s = some (0, s) := by
  refine ⟨fun u m r hcell hr =>
    rmse_predict_rated Real.sqrt s hkeys hcover hnonneg u m r hcell hr, ?_, ?_⟩
  · obtain ⟨row, hrow, x, hx, hne⟩ := hrated
    obtain ⟨u, hu, hue⟩ := List.getElem_of_mem hrow
    obtain ⟨m, hm, hme⟩ := List.getElem_of_mem hx
    refine ⟨u, m, x, ?_, hne⟩
    have hrowq : s.ratingsMatrix[u]? = some row := by
      rw [List.getElem?_eq_getElem hu, hue]
    rw [cell_of_getElem s.ratingsMatrix u m row hrowq hm, hme]
  · obtain ⟨acc, hacc, hstore, hsum⟩ := rmse_loop Real.sqrt s True
      (fun u m r hcell hr =>
        ⟨r, rmse_predict_rated Real.sqrt s hkeys hcover hnonneg u m r hcell hr, fun _ => rfl⟩)
    unfold calculateRMSE
    rw [hacc, Option.some_bind, hstore, hsum trivial, zero_div, Real.sqrt_zero]

theorem rmse_is_zero_witness :
    DistinctKeys (specStore ℝ) ∧ IdsCoverCells (specStore ℝ) ∧ NonNegRatings (specStore ℝ) ∧
    HasRatedCell (specStore ℝ) ∧
    (∀ u m r, cell (specStore ℝ).ratingsMatrix u m = some r → r ≠ 0 →
      predictRating Real.sqrt (specStore ℝ) (findId (specStore ℝ).userIdToIndex u)
        (findId (specStore ℝ).movieIdToIndex m) = some (r, specStore ℝ)) ∧
    (∃ u m r, cell (specStore ℝ).ratingsMatrix u m = some r ∧ r ≠ 0) ∧
    calculateRMSE Real.sqrt (specStore ℝ) = some (0, specStore ℝ) :=
  have hrated : HasRatedCell (specStore ℝ) :=
    ⟨[5, 3, 0], by simp [specStore], 5, by simp, by norm_num⟩
  ⟨specStore_distinctKeys, specStore_idsCover, specStore_nonNeg, hrated,
   rmse_is_zero (specStore ℝ) specStore_distinctKeys specStore_idsCover specStore_nonNeg
    hrated⟩

/-! ## The Pearson formula -/

section PearsonFormula

variable {α : Type} [LinearOrderedField α]

theorem avgStep_foldl (row : List Int) (acc : α × Nat) :
    row.foldl avgStep acc =
      (acc.1 + ((row.filter (fun r => decide (0 < r))).map (fun r => (r : α))).sum,
        acc.2 + (row.filter (fun r => decide (0 < r))).length) := by
  induction row generalizing acc with
  | nil => simp
  | cons r t ih =>
    rw [List.foldl_cons, ih]
    by_cases hr : 0 < r
    · simp [avgStep, hr, List.filter_cons, add_assoc, Nat.add_comm, Nat.add_left_comm]
    · simp [avgStep, hr, List.filter_cons]

theorem rowAvg_eq_positiveMean (row : List Int) :
    (rowAvg row : α) = positiveMean row := by
  unfold rowAvg positiveMean
  simp only [avgStep_foldl, zero_add]
  by_cases h : row.filter (fun r => decide (0 < r)) = []
  · simp [h]
  · have hlen : 0 < (row.filter (fun r => decide (0 < r))).length :=
      List.length_pos.2 h
    rw [if_pos hlen, if_neg h]

theorem dev_eq_centred (R : Recommender α) (u v i : Nat)
    (havg : R.avgRatings = calcAvgRatings R.ratings) (hu : u < R.ratings.length) :
    dev R u v i = if coRated R u v i then centred R u i else 0 := by
  unfold dev centred
  rw [avgOf_load R u havg hu, rowAvg_eq_positiveMean]

/-- The three sums of `calcPearson` as sums of centred ratings over the
co-rated columns. -/
theorem pearson_sums_centred (R : Recommender α) (u1 u2 : Nat)
    (havg : R.avgRatings = calcAvgRatings R.ratings)
    (h1 : u1 < R.ratings.length) (h2 : u2 < R.ratings.length) :
    (∑ i in Finset.range (numCols R), dev R u1 u2 i * dev R u2 u1 i =
      ∑ i in coRatedSet R u1 u2, centred R u1 i * centred R u2 i) ∧
    (∑ i in Finset.range (numCols R), dev R u1 u2 i * dev R u1 u2 i =
      ∑ i in coRatedSet R u1 u2, centred R u1 i * centred R u1 i) ∧
    (∑ i in Finset.range (numCols R), dev R u2 u1 i * dev R u2 u1 i =
      ∑ i in coRatedSet R u1 u2, centred R u2 i * centred R u2 i) := by
  unfold coRatedSet
  refine ⟨?_, ?_, ?_⟩ <;>
  · rw [Finset.sum_filter]
    apply Finset.sum_congr rfl
    intro i _
    simp only [dev_eq_centred R u1 u2 i havg h1, dev_eq_centred R u2 u1 i havg h2]
    by_cases hco : coRated R u1 u2 i
    · have hco2 : coRated R u2 u1 i := (coRated_comm R u1 u2 i).1 hco
      simp only [if_pos hco, if_pos hco2]
    · have hco2 : ¬ coRated R u2 u1 i := fun h => hco ((coRated_comm R u1 u2 i).2 h)
      simp only [if_neg hco, if_neg hco2, mul_zero, zero_mul]

end PearsonFormula

/-- C16: `calcPearson` implements global-mean Pearson with guarded division.
On a matrix with rows of equal length and the means stored by
`calcAvgRatings`, with `d_k` the rating of user `k` minus the average of that
user's positive ratings (`0` if none), summed over the columns both users
rated, `calcPearson(u1, u2)` returns `0` when there is no co-rated column or
one of the sums of squares is `0`, and
`sum(d1 * d2) / sqrt(sum(d1^2) * sum(d2^2))` otherwise. -/
theorem calcPearson_formula (R : Recommender ℝ) (n u1 u2 : Nat)
    (hrows : RowsOfLength R.ratings n) (havg : R.avgRatings = calcAvgRatings R.ratings)
    (h1 : u1 < R.ratings.length) (h2 : u2 < R.ratings.length) :
    calcPearson Real.sqrt R u1 u2 = some
      (if coRatedSet R u1 u2 = ∅ ∨
          ∑ i in coRatedSet R u1 u2, centred R u1 i ^ 2 = 0 ∨
          ∑ i in coRatedSet R u1 u2, centred R u2 i ^ 2 = 0 then 0
       else (∑ i in coRatedSet R u1 u2, centred R u1 i * centred R u2 i) /
          Real.sqrt ((∑ i in coRatedSet R u1 u2, centred R u1 i ^ 2) *
            ∑ i in coRatedSet R u1 u2, centred R u2 i ^ 2)) := by
  have hready := pearsonReady_of_load R n u1 u2 hrows havg h1 h2
  obtain ⟨hP, hS1, hS2⟩ := pearson_sums_centred R u1 u2 havg h1 h2
  rw [calcPearson_eq Real.sqrt R u1 u2 hready, hP, hS1, hS2]
  simp only [pow_two]
  have hn1 : 0 ≤ ∑ i in coRatedSet R u1 u2, centred R u1 i * centred R u1 i :=
    Finset.sum_nonneg (fun i _ => mul_self_nonneg _)
  have hn2 : 0 ≤ ∑ i in coRatedSet R u1 u2, centred R u2 i * centred R u2 i :=
    Finset.sum_nonneg (fun i _ => mul_self_nonneg _)
  have hsqrt : Real.sqrt ((∑ i in coRatedSet R u1 u2, centred R u1 i * centred R u1 i) *
      ∑ i in coRatedSet R u1 u2, centred R u2 i * centred R u2 i) = 0 ↔
      (∑ i in coRatedSet R u1 u2, centred R u1 i * centred R u1 i = 0 ∨
        ∑ i in coRatedSet R u1 u2, centred R u2 i * centred R u2 i = 0) := by
    rw [Real.sqrt_eq_zero (mul_nonneg hn1 hn2), mul_eq_zero]
  have hcard : (Finset.filter (coRated R u1 u2) (Finset.range (numCols R))).card = 0 ↔
      coRatedSet R u1 u2 = ∅ := by
    unfold coRatedSet
    exact Finset.card_eq_zero
  unfold pearsonValue
  by_cases hc : coRatedSet R u1 u2 = ∅
  · rw [if_pos (hcard.2 hc), if_pos (Or.inl hc)]
  · rw [if_neg (fun h => hc (hcard.1 h))]
    by_cases hz : Real.sqrt ((∑ i in coRatedSet R u1 u2, centred R u1 i * centred R u1 i) *
        ∑ i in coRatedSet R u1 u2, centred R u2 i * centred R u2 i) = 0
    · rw [if_pos hz, if_pos (Or.inr (hsqrt.1 hz))]
    · rw [if_neg hz, if_neg]
      rintro (h | h)
      · exact hc h
      · exact hz (hsqrt.2 h)

theorem calcPearson_formula_witness :
    RowsOfLength (specRecommender ℝ).ratings 3 ∧
    calcPearson Real.sqrt (specRecommender ℝ) 0 2 = some
      (if coRatedSet (specRecommender ℝ) 0 2 = ∅ ∨
          ∑ i in coRatedSet (specRecommender ℝ) 0 2, centred (specRecommender ℝ) 0 i ^ 2 = 0 ∨
          ∑ i in coRatedSet (specRecommender ℝ) 0 2, centred (specRecommender ℝ) 2 i ^ 2 = 0
       then 0
       else (∑ i in coRatedSet (specRecommender ℝ) 0 2,
            centred (specRecommender ℝ) 0 i * centred (specRecommender ℝ) 2 i) /
          Real.sqrt ((∑ i in coRatedSet (specRecommender ℝ) 0 2,
              centred (specRecommender ℝ) 0 i ^ 2) *
            ∑ i in coRatedSet (specRecommender ℝ) 0 2, centred (specRecommender ℝ) 2 i ^ 2)) :=
  ⟨by decide,
   calcPearson_formula (specRecommender ℝ) 3 0 2 (by decide) rfl (by decide) (by decide)⟩

/-! ## Self-similarity -/

section SelfSimilarity

variable {α : Type} [LinearOrderedField α]

theorem commonPure_foldl_self (x : List α) (n : Nat) :
    (List.range n).foldl (commonPure x x) [] =
      ((x.take n).filter (fun a => decide (0 < a))).map (fun a => (a, a)) := by
  induction n with
  | zero => rfl
  | succ n ih =>
    rw [List.range_succ, List.foldl_append, ih, List.take_succ, List.filter_append,
      List.map_append]
    simp only [List.foldl_cons, List.foldl_nil, commonPure]
    by_cases hn : n < x.length
    · have hget : x.getD n 0 = x[n] := by
        rw [List.getD_eq_getElem?_getD, List.getElem?_eq_getElem hn, Option.getD_some]
      rw [hget, List.getElem?_eq_getElem hn]
      by_cases hpos : 0 < x[n]
      · simp [hpos]
      · simp [hpos]
    · have hget : x.getD n 0 = 0 := by
        rw [List.getD_eq_getElem?_getD, List.getElem?_eq_none (not_lt.1 hn), Option.getD_none]
      rw [hget, List.getElem?_eq_none (not_lt.1 hn)]
      simp

theorem commonOf_self (x : List α) :
    commonOf x x = (x.filter (fun a => decide (0 < a))).map (fun a => (a, a)) := by
  unfold commonOf
  rw [commonPure_foldl_self, List.take_length]

theorem sums_diag (m : α) (l : List α) :
    crossSum m m (l.map (fun a => (a, a))) = (l.map (fun a => (a - m) * (a - m))).sum ∧
    sqSum1 m (l.map (fun a => (a, a))) = (l.map (fun a => (a - m) * (a - m))).sum ∧
    sqSum2 m (l.map (fun a => (a, a))) = (l.map (fun a => (a - m) * (a - m))).sum := by
  unfold crossSum sqSum1 sqSum2
  simp only [List.map_map]
  exact ⟨rfl, rfl, rfl⟩

theorem sum_sq_pos_of_ne (m a b : α) (l : List α) (ha : a ∈ l) (hb : b ∈ l) (hab : a ≠ b) :
    0 < (l.map (fun c => (c - m) * (c - m))).sum := by
  have hnonneg : ∀ y ∈ l.map (fun c => (c - m) * (c - m)), 0 ≤ y := by
    intro y hy
    obtain ⟨c, -, rfl⟩ := List.mem_map.1 hy
    exact mul_self_nonneg _
  have hone : ∀ c ∈ l, c ≠ m → 0 < (l.map (fun c => (c - m) * (c - m))).sum := by
    intro c hc hcm
    have hmem : (c - m) * (c - m) ∈ l.map (fun c => (c - m) * (c - m)) :=
      List.mem_map.2 ⟨c, hc, rfl⟩
    exact lt_of_lt_of_le (mul_self_pos.2 (sub_ne_zero.2 hcm))
      (List.single_le_sum hnonneg _ hmem)
  by_cases ham : a = m
  · exact hone b hb (fun hbm => hab (ham.trans hbm.symm))
  · exact hone a ha ham

end SelfSimilarity

theorem self_quotient (S : ℝ) (hS : 0 < S) : S / Real.sqrt (S * S) = 1 := by
  rw [Real.sqrt_mul_self (le_of_lt hS), div_self (ne_of_gt hS)]

/-- C15: self-similarity is `1` in real arithmetic. For a user `u` who gave
two different non-zero ratings, `calcPearson(u, u)` returns `1`; for a rating
vector `x` with two different positive entries,
`calculateUserSimilarity(x, x)` returns `1`. -/
theorem self_similarity (R : Recommender ℝ) (n u i j : Nat) (x : List ℝ) (a b : ℝ)
    (hrows : RowsOfLength R.ratings n) (havg : R.avgRatings.length = R.ratings.length)
    (hu : u < R.ratings.length) (hi : i < n) (hj : j < n)
    (hri : ratingOf R u i ≠ 0) (hrj : ratingOf R u j ≠ 0)
    (hne : ratingOf R u i ≠ ratingOf R u j)
    (ha : a ∈ x) (hb : b ∈ x) (hapos : 0 < a) (hbpos : 0 < b) (hab : a ≠ b) :
    calcPearson Real.sqrt R u u = some 1 ∧
    calculateUserSimilarity Real.sqrt x x = some 1 := by
  constructor
  · have hn := numCols_eq R n u hrows hu
    have hready : PearsonReady R u u := ⟨by rw [hn]; exact hrows, hu, hu, havg⟩
    rw [calcPearson_eq Real.sqrt R u u hready]
    have hcoi : coRated R u u i := ⟨hri, hri⟩
    have hcoj : coRated R u u j := ⟨hrj, hrj⟩
    have himem : i ∈ Finset.range (numCols R) := Finset.mem_range.2 (hn ▸ hi)
    have hjmem : j ∈ Finset.range (numCols R) := Finset.mem_range.2 (hn ▸ hj)
    have hcard : ((Finset.range (numCols R)).filter (coRated R u u)).card ≠ 0 :=
      Finset.card_ne_zero_of_mem (Finset.mem_filter.2 ⟨himem, hcoi⟩)
    have hterm : ∀ k ∈ Finset.range (numCols R), 0 ≤ dev R u u k * dev R u u k :=
      fun k _ => mul_self_nonneg _
    have hpos : 0 < ∑ k in Finset.range (numCols R), dev R u u k * dev R u u k := by
      have hdi : dev R u u i = (ratingOf R u i : ℝ) - avgOf R u := by
        simp only [dev, if_pos hcoi]
      have hdj : dev R u u j = (ratingOf R u j : ℝ) - avgOf R u := by
        simp only [dev, if_pos hcoj]
      by_cases hzi : dev R u u i = 0
      · have hzj : dev R u u j ≠ 0 := by
          intro hzj
          apply hne
          have : (ratingOf R u i : ℝ) = (ratingOf R u j : ℝ) := by
            rw [hdi] at hzi; rw [hdj] at hzj; linarith
          exact_mod_cast this
        exact lt_of_lt_of_le (mul_self_pos.2 hzj) (Finset.single_le_sum hterm hjmem)
      · exact lt_of_lt_of_le (mul_self_pos.2 hzi) (Finset.single_le_sum hterm himem)
    unfold pearsonValue
    rw [if_neg hcard, if_neg (by rw [Real.sqrt_mul_self (le_of_lt hpos)]; exact ne_of_gt hpos),
      self_quotient _ hpos]
  · rw [calculateUserSimilarity_eq Real.sqrt x x (le_refl _), commonOf_self,
      similarityOfCommon_eq]
    have hamem : a ∈ x.filter (fun c => decide (0 < c)) :=
      List.mem_filter.2 ⟨ha, by simpa using hapos⟩
    have hbmem : b ∈ x.filter (fun c => decide (0 < c)) :=
      List.mem_filter.2 ⟨hb, by simpa using hbpos⟩
    have hne : (x.filter (fun c => decide (0 < c))).map (fun c => (c, c)) ≠ [] := by
      intro h
      rw [List.map_eq_nil_iff] at h
      rw [h] at hamem
      exact absurd hamem (List.not_mem_nil _)
    rw [if_neg hne]
    have e1 : ((x.filter (fun c => decide (0 < c))).map (fun c => (c, c))).map Prod.fst =
        x.filter (fun c => decide (0 < c)) := by
      rw [List.map_map]; exact List.map_id _
    have e2 : ((x.filter (fun c => decide (0 < c))).map (fun c => (c, c))).map Prod.snd =
        x.filter (fun c => decide (0 < c)) := by
      rw [List.map_map]; exact List.map_id _
    rw [e1, e2, List.length_map]
    obtain ⟨hc, hs1, hs2⟩ := sums_diag
      ((x.filter (fun c => decide (0 < c))).sum /
        ((x.filter (fun c => decide (0 < c))).length : ℝ))
      (x.filter (fun c => decide (0 < c)))
    rw [hc, hs1, hs2]
    have hpos := sum_sq_pos_of_ne
      ((x.filter (fun c => decide (0 < c))).sum /
        ((x.filter (fun c => decide (0 < c))).length : ℝ))
      a b _ hamem hbmem hab
    rw [if_neg (by simp [ne_of_gt hpos]), self_quotient _ hpos]

theorem self_similarity_witness :
    RowsOfLength (specRecommender ℝ).ratings 3 ∧
    ratingOf (specRecommender ℝ) 0 0 ≠ ratingOf (specRecommender ℝ) 0 1 ∧
    calcPearson Real.sqrt (specRecommender ℝ) 0 0 = some 1 ∧
    calculateUserSimilarity Real.sqrt [5, 3, 0] [5, 3, 0] = some 1 :=
  ⟨by decide, by decide,
   self_similarity (specRecommender ℝ) 3 0 0 1 [5, 3, 0] 5 3 (by decide) rfl (by decide)
    (by decide) (by decide) (by decide) (by decide) (by decide) (by simp) (by simp)
    (by norm_num) (by norm_num) (by norm_num)⟩

/-! ## The empty store -/

/-- C17, at the failing input: after loading a file with a header and no user
line (zero users, two header columns), `recommend(0, 1)` and
`calcPearson(0, 1)` read row `0` of the empty matrix, and on the corresponding
`MovieRecommender` store `getTopNRecommendations(1, 1)` reads row `0` as well:
each is an out-of-range access, `none` in the model. With no header column
either, `recommend` does return the empty sequence, and `calcSimilarities`
completes on zero users. -/
theorem empty_store_out_of_range :
    recommend fullPartialSort (load ["User", "Movie1"] [] : Recommender ℝ) 0 1 = none ∧
    calcPearson Real.sqrt (load ["User", "Movie1"] [] : Recommender ℝ) 0 1 = none ∧
    getTopNRecommendations insertionSortBy Real.sqrt (headerOnlyStore ℝ) 1 1 = none ∧
    recommend fullPartialSort (load [] [] : Recommender ℝ) 0 1 = some [] ∧
    (calcSimilarities Real.sqrt (load ["User", "Movie1"] [] : Recommender ℝ)).isSome = true := by
  refine ⟨rfl, rfl, rfl, ?_, rfl⟩
  simp [recommend, load, fullPartialSort, insertionSortBy]

/-! ## The range of `predict` -/

section PredictRange

variable {α : Type} [LinearOrderedField α]

theorem positiveRaters_subset (R : Recommender α) (user : Nat) (movieId : Int) :
    positiveRaters R user movieId ⊆ raters R movieId := by
  intro u hu
  obtain ⟨hr, hp⟩ := Finset.mem_filter.1 hu
  exact Finset.mem_filter.2 ⟨hr, hp.2.1⟩

/-- A quotient of a weighted sum by the sum of its positive weights lies
between any two bounds of the weighted values. -/
theorem weighted_mean_bounds (P : Finset Nat) (w r : Nat → α) (lo hi : α)
    (hP : P.Nonempty) (hw : ∀ u ∈ P, 0 < w u) (hr : ∀ u ∈ P, lo ≤ r u ∧ r u ≤ hi) :
    lo ≤ (∑ u in P, w u * r u) / ∑ u in P, w u ∧
      (∑ u in P, w u * r u) / ∑ u in P, w u ≤ hi := by
  have hpos : 0 < ∑ u in P, w u := Finset.sum_pos hw hP
  constructor
  · rw [le_div_iff₀ hpos, Finset.mul_sum]
    apply Finset.sum_le_sum
    intro u hu
    rw [mul_comm]
    exact mul_le_mul_of_nonneg_left (hr u hu).1 (le_of_lt (hw u hu))
  · rw [div_le_iff₀ hpos, Finset.mul_sum]
    apply Finset.sum_le_sum
    intro u hu
    rw [mul_comm hi]
    exact mul_le_mul_of_nonneg_left (hr u hu).2 (le_of_lt (hw u hu))

theorem mean_bounds (P : Finset Nat) (r : Nat → α) (lo hi : α)
    (hP : P.Nonempty) (hr : ∀ u ∈ P, lo ≤ r u ∧ r u ≤ hi) :
    lo ≤ (∑ u in P, r u) / (P.card : α) ∧ (∑ u in P, r u) / (P.card : α) ≤ hi := by
  have h := weighted_mean_bounds P (fun _ => (1 : α)) r lo hi hP (fun _ _ => one_pos) hr
  simpa using h

/-- The value of `predict` lies between any two bounds of the item's non-zero
ratings, when there is one. -/
theorem predict_between (R : Recommender α) (n user : Nat) (movieId : Int)
    (hrows : RowsOfLength R.ratings n) (hm1 : 1 ≤ movieId) (hm2 : movieId ≤ n)
    (hne : (raters R movieId).Nonempty) (lo hi : α)
    (hb : ∀ u ∈ raters R movieId,
      lo ≤ (itemRating R movieId u : α) ∧ (itemRating R movieId u : α) ≤ hi) :
    ∃ v, predict R user movieId = some v ∧ lo ≤ v ∧ v ≤ hi := by
  rw [predict_eq R n user movieId hrows hm1 hm2]
  by_cases hP : (positiveRaters R user movieId).Nonempty
  · have hw : ∀ u ∈ positiveRaters R user movieId, 0 < simOf R user u :=
      fun u hu => (Finset.mem_filter.1 hu).2.2.2
    have habs : ∑ u in positiveRaters R user movieId, |simOf R user u| =
        ∑ u in positiveRaters R user movieId, simOf R user u :=
      Finset.sum_congr rfl (fun u hu => abs_of_pos (hw u hu))
    have hpos : 0 < ∑ u in positiveRaters R user movieId, simOf R user u :=
      Finset.sum_pos hw hP
    rw [if_pos hP, habs, if_neg (ne_of_gt hpos)]
    exact ⟨_, rfl, weighted_mean_bounds _ _ _ lo hi hP hw
      (fun u hu => hb u (positiveRaters_subset R user movieId hu))⟩
  · rw [if_neg hP, if_pos (Finset.card_pos.2 hne)]
    exact ⟨_, rfl, mean_bounds _ _ lo hi hne hb⟩

/-- After the first loop of `predict`, `hasSims` implies `denom > 0`. -/
theorem predict_guard (R : Recommender α) (n user : Nat) (movieId : Int)
    (hrows : RowsOfLength R.ratings n) (hm1 : 1 ≤ movieId) (hm2 : movieId ≤ n) :
    ∃ acc, (List.range R.ratings.length).foldlM (predictStep R user movieId)
        { num := 0, denom := 0, hasSims := false } = some acc ∧
      (acc.hasSims = true → 0 < acc.denom) := by
  refine ⟨_, foldlM_eq_some_foldl _ (predictPure R user movieId) _
    (fun u hu s => predictStep_eq R n user movieId hrows hm1 hm2 u (List.mem_range.1 hu) s) _,
    ?_⟩
  rw [predict_foldl]
  simp only [Bool.false_or, decide_eq_true_eq, zero_add]
  intro hP
  apply Finset.sum_pos _ hP
  intro u hu
  exact abs_pos.2 (ne_of_gt (Finset.mem_filter.1 hu).2.2.2)

end PredictRange

/-- C19, counterexample: in `negativeRecommender` no user rated item `1` with
a positive rating (the only rating is `-2`), and `predict(0, 1)` returns `-2`,
not `3`. -/
theorem predict_range_counterexample :
    (∀ u, ¬ 0 < itemRating (negativeRecommender ℝ) 1 u) ∧
    predict (negativeRecommender ℝ) 0 1 = some (-2) ∧
    predict (negativeRecommender ℝ) 0 1 ≠ some 3 := by
  have hrows : RowsOfLength (negativeRecommender ℝ).ratings 1 := by decide
  have hval : predict (negativeRecommender ℝ) 0 1 = some (-2) := by
    have hno : ∀ u, u < (negativeRecommender ℝ).ratings.length → u ≠ 0 →
        itemRating (negativeRecommender ℝ) 1 u ≠ 0 →
        ∀ s, (negativeRecommender ℝ).similarities 0 u = some s → s ≤ 0 := by
      intro u _ _ _ s hs
      simp [negativeRecommender] at hs
    have hr : raters (negativeRecommender ℝ) 1 = {1} := rfl
    rw [predict_fallback (negativeRecommender ℝ) 1 0 1 hrows (by decide) (by decide) hno, hr]
    simp [itemRating, ratingOf, negativeRecommender]
  refine ⟨?_, hval, ?_⟩
  · intro u
    have h : ∀ v, v < 2 → ¬ 0 < itemRating (negativeRecommender ℝ) 1 v := by decide
    by_cases hu : u < 2
    · exact h u hu
    · have hrow : (negativeRecommender ℝ).ratings.getD u [] = [] := by
        have hlen : (negativeRecommender ℝ).ratings.length ≤ u := not_lt.1 hu
        rw [List.getD_eq_getElem?_getD, List.getElem?_eq_none hlen]
        rfl
      have hz : itemRating (negativeRecommender ℝ) 1 u = 0 := by
        unfold itemRating ratingOf
        rw [hrow]
        rfl
      rw [hz]
      exact lt_irrefl 0
  · rw [hval]
    norm_num

/-- C19, amended: in real arithmetic (any ordered field; rounding is not
modelled), predictions of `predict` stay inside the observed rating range.
For every rating matrix in which the item's column exists, every similarity
table, user and item: if at least one user gave the item a non-zero rating
then `min <= predict(user, item) <= max`, where `min` and `max` are the
smallest and largest non-zero ratings the item received; if no user gave it a
non-zero rating `predict` returns `3`. After the weighted loop `hasSims`
implies `denom > 0`, so the branch `denom == 0 ? 3` is never taken. -/
theorem predict_in_range {α : Type} [LinearOrderedField α] (R : Recommender α)
    (n user : Nat) (movieId : Int)
    (hrows : RowsOfLength R.ratings n) (hm1 : 1 ≤ movieId) (hm2 : movieId ≤ n) :
    (∀ hne : (raters R movieId).Nonempty, ∃ v, predict R user movieId = some v ∧
      (raters R movieId).inf' hne (fun u => (itemRating R movieId u : α)) ≤ v ∧
      v ≤ (raters R movieId).sup' hne (fun u => (itemRating R movieId u : α))) ∧
    (raters R movieId = ∅ → predict R user movieId = some 3) ∧
    (∃ acc, (List.range R.ratings.length).foldlM (predictStep R user movieId)
        { num := 0, denom := 0, hasSims := false } = some acc ∧
      (acc.hasSims = true → 0 < acc.denom)) := by
  refine ⟨?_, ?_, predict_guard R n user movieId hrows hm1 hm2⟩
  · intro hne
    exact predict_between R n user movieId hrows hm1 hm2 hne _ _
      (fun u hu => ⟨Finset.inf'_le (fun u => (itemRating R movieId u : α)) hu,
        Finset.le_sup' (fun u => (itemRating R movieId u : α)) hu⟩)
  · intro hempty
    have hP : ¬ (positiveRaters R user movieId).Nonempty := by
      rintro ⟨u, hu⟩
      have := positiveRaters_subset R user movieId hu
      rw [hempty] at this
      exact absurd this (Finset.not_mem_empty u)
    rw [predict_eq R n user movieId hrows hm1 hm2, if_neg hP, hempty, Finset.card_empty,
      if_neg (lt_irrefl 0)]

theorem predict_in_range_witness :
    RowsOfLength (tableRecommender ℝ).ratings 3 ∧
    (∀ hne : (raters (tableRecommender ℝ) 3).Nonempty,
      ∃ v, predict (tableRecommender ℝ) 0 3 = some v ∧
      (raters (tableRecommender ℝ) 3).inf' hne
        (fun u => (itemRating (tableRecommender ℝ) 3 u : ℝ)) ≤ v ∧
      v ≤ (raters (tableRecommender ℝ) 3).sup' hne
        (fun u => (itemRating (tableRecommender ℝ) 3 u : ℝ))) ∧
    (raters (tableRecommender ℝ) 3 = ∅ → predict (tableRecommender ℝ) 0 3 = some 3) ∧
    (∃ acc, (List.range (tableRecommender ℝ).ratings.length).foldlM
        (predictStep (tableRecommender ℝ) 0 3)
        { num := 0, denom := 0, hasSims := false } = some acc ∧
      (acc.hasSims = true → 0 < acc.denom)) :=
  ⟨by decide,
   predict_in_range (tableRecommender ℝ) 3 0 3 (by decide) (by decide) (by decide)⟩

/-! ## The state after `load` -/

section AfterLoad

variable {α : Type} [LinearOrderedField α]

theorem load_movies_length (header : List String) (rows : List (List Int)) :
    (load header rows : Recommender α).movies.length = header.length := by
  simp [load]

theorem predict_after_load (header : List String) (rows : List (List Int)) (n user : Nat)
    (movieId : Int) (hrows : RowsOfLength rows n) (hm1 : 1 ≤ movieId) (hm2 : movieId ≤ n) :
    predict (load header rows : Recommender α) user movieId =
      some (itemMean (load header rows) movieId) :=
  predict_fallback (load header rows) n user movieId hrows hm1 hm2
    (fun _ _ _ _ s hs => by simp [load] at hs)

end AfterLoad

/-- C20: without a call to `calcSimilarities` the `Recommender` is not
personalised. In the state produced by `load` (empty similarity table), for
every item whose column exists and every two users, `predict(u1, item)` and
`predict(u2, item)` both return the item's average over the users who rated it
(`3` if none); and every entry `(id, score)` of `recommend(user, n)` has the
average of item `id` as its score, the entries being in descending order of
that average. -/
theorem load_not_personalised {α : Type} [LinearOrderedField α]
    (stdPartialSort : (Int × α → Int × α → Bool) → List (Int × α) → Nat → List (Int × α))
    (header : List String) (rows : List (List Int)) (item : Int) (u1 u2 user : Nat) (n : Int)
    (hps : PartialSortContract stdPartialSort (byScoreDesc : Int × α → Int × α → Bool))
    (hrows : RowsOfLength rows header.length) (hi1 : 1 ≤ item) (hi2 : item ≤ header.length)
    (huser : user < rows.length) (hn : 0 ≤ n) :
    predict (load header rows : Recommender α) u1 item =
      some (itemMean (load header rows) item) ∧
    predict (load header rows : Recommender α) u2 item =
      some (itemMean (load header rows) item) ∧
    ∃ res, recommend stdPartialSort (load header rows : Recommender α) user n = some res ∧
      (∀ p ∈ res, p.2 = itemMean (load header rows) p.1) ∧
      res.Pairwise (fun a b =>
        itemMean (load header rows : Recommender α) b.1 ≤ itemMean (load header rows) a.1) := by
  have hlen := load_movies_length (α := α) header rows
  have hrows2 : RowsOfLength (load header rows : Recommender α).ratings
      (load header rows : Recommender α).movies.length := by
    rw [hlen]; exact hrows
  refine ⟨predict_after_load header rows _ u1 item hrows hi1 hi2,
    predict_after_load header rows _ u2 item hrows hi1 hi2, ?_⟩
  obtain ⟨-, hmem, hsorted, -⟩ := take_partialSort_facts stdPartialSort byScoreDesc hps
    (candidates (load header rows : Recommender α) user) n.toNat
  have hscore : ∀ p ∈ (stdPartialSort byScoreDesc
      (candidates (load header rows : Recommender α) user)
      (min n.toNat (candidates (load header rows : Recommender α) user).length)).take
        (min n.toNat (candidates (load header rows : Recommender α) user).length),
      p.2 = itemMean (load header rows) p.1 := by
    intro p hp
    obtain ⟨i, hi, -, hid, hval⟩ := mem_candidates _ user p (hmem p hp)
    rw [hlen] at hi
    rw [hval, hid, predict_after_load header rows _ user ((i : Int) + 1) hrows (by omega)
      (by omega)]
    rfl
  refine ⟨_, recommend_eq stdPartialSort (load header rows) user n hrows2 huser hn, hscore, ?_⟩
  have hpw := hsorted.imp (fun h => (byScoreDesc_false_iff _ _).1 h)
  rw [List.pairwise_iff_forall_sublist] at hpw ⊢
  intro a b hab
  have ha := hab.subset (List.mem_cons_self a [b])
  have hb := hab.subset (List.mem_cons_of_mem a (List.mem_singleton_self b))
  rw [← hscore a ha, ← hscore b hb]
  exact hpw hab

theorem load_not_personalised_witness :
    PartialSortContract fullPartialSort (byScoreDesc : Int × ℝ → Int × ℝ → Bool) ∧
    RowsOfLength specRatings ["I0", "I1", "I2"].length ∧
    predict (load ["I0", "I1", "I2"] specRatings : Recommender ℝ) 0 3 =
      some (itemMean (load ["I0", "I1", "I2"] specRatings) 3) ∧
    predict (load ["I0", "I1", "I2"] specRatings : Recommender ℝ) 1 3 =
      some (itemMean (load ["I0", "I1", "I2"] specRatings) 3) ∧
    ∃ res, recommend fullPartialSort (load ["I0", "I1", "I2"] specRatings : Recommender ℝ)
        0 2 = some res ∧
      (∀ p ∈ res, p.2 = itemMean (load ["I0", "I1", "I2"] specRatings) p.1) ∧
      res.Pairwise (fun a b =>
        itemMean (load ["I0", "I1", "I2"] specRatings : Recommender ℝ) b.1 ≤
          itemMean (load ["I0", "I1", "I2"] specRatings) a.1) :=
  ⟨fullPartialSort_contract, by decide,
   load_not_personalised fullPartialSort ["I0", "I1", "I2"] specRatings 3 0 1 0 2
    fullPartialSort_contract (by decide) (by decide) (by decide) (by decide) (by decide)⟩

/-! ## Evaluation on the ordering examples -/

section OrderEval

variable {α : Type} [LinearOrderedField α]

theorem orderRecommender_rows : RowsOfLength (orderRecommender α).ratings 3 := by
  have h : RowsOfLength ([[5, 0, 0], [4, 2, 3], [1, 4, 5]] : List (List Int)) 3 := by decide
  exact h

theorem orderRecommender_predict :
    predict (orderRecommender α) 0 2 = some 3 ∧ predict (orderRecommender α) 0 3 = some 4 := by
  have hP : ∀ m : Int, ¬ (positiveRaters (orderRecommender α) 0 m).Nonempty := by
    rintro m ⟨u, hu⟩
    have := (Finset.mem_filter.1 hu).2.2.2
    simp [simOf, orderRecommender] at this
  have hr2 : raters (orderRecommender α) 2 = {1, 2} := rfl
  have hr3 : raters (orderRecommender α) 3 = {1, 2} := rfl
  constructor
  · rw [predict_eq (orderRecommender α) 3 0 2 orderRecommender_rows (by decide) (by decide),
      if_neg (hP 2), hr2]
    simp [itemRating, ratingOf, orderRecommender]
    norm_num
  · rw [predict_eq (orderRecommender α) 3 0 3 orderRecommender_rows (by decide) (by decide),
      if_neg (hP 3), hr3]
    simp [itemRating, ratingOf, orderRecommender]
    norm_num

theorem orderRecommender_candidates :
    candidates (orderRecommender α) 0 = [(2, 3), (3, 4)] := by
  have h2 := (orderRecommender_predict (α := α)).1
  have h3 := (orderRecommender_predict (α := α)).2
  simp [candidates, candidateAt, List.range_succ, ratingOf, orderRecommender] at *
  simp [h2, h3]

theorem insertionSort_order :
    insertionSortBy byScoreDesc [((2 : Int), (3 : α)), ((3 : Int), (4 : α))] =
      [(3, 4), (2, 3)] := by
  simp [insertionSortBy, List.insertionSort, List.orderedInsert, byScoreDesc]
  norm_num

theorem otherRaters_of_two (s : MovieRecommender α) (mi : Nat)
    (hlen : s.ratingsMatrix.length = 2) (h1 : 0 < entry s 1 mi) :
    otherRaters s 0 mi = {1} := by
  ext i
  simp only [otherRaters, Finset.mem_filter, Finset.mem_range, Finset.mem_singleton, hlen]
  constructor
  · rintro ⟨hlt, hne, -⟩
    omega
  · rintro rfl
    exact ⟨by decide, by decide, h1⟩

theorem negativeCellStore_itemsWellFormed : ItemsWellFormed (negativeCellStore α) 2 :=
  ⟨by
    intro row hrow
    simp only [negativeCellStore, List.mem_cons, List.mem_singleton, List.not_mem_nil,
      or_false] at hrow
    rcases hrow with h | h <;> rw [h] <;> rfl,
   by
    have h : (([(1, 0), (2, 1)] : List (Int × Nat)).map Prod.fst).Nodup := by decide
    exact h,
   by
    have h : ∀ p ∈ ([(1, 0), (2, 1)] : List (Int × Nat)), p.2 < 2 := by decide
    exact h⟩

theorem negativeCellStore_topCandidates (sqrt : α → α) :
    topCandidates sqrt (negativeCellStore α) 0 = [(1, 0)] := by
  have hsim : simTo sqrt (negativeCellStore α) 0 1 = 0 := by
    have c : commonOf ([-1, 5] : List α) [3, 4] = [(5, 4)] := by
      simp [commonOf, commonPure, List.range_succ]
    show similarityOfCommon sqrt (commonOf ([-1, 5] : List α) [3, 4]) = 0
    rw [c, similarityOfCommon_singleton]
  have hval : ratingValue sqrt (negativeCellStore α) 0 0 = 0 := by
    have hS : absSimSum sqrt (negativeCellStore α) 0 0 = 0 := by
      unfold absSimSum
      rw [otherRaters_of_two (negativeCellStore α) 0 rfl
        (by simp [entry, rowOf, negativeCellStore])]
      simp [hsim]
    unfold ratingValue
    rw [hS, if_neg (lt_irrefl 0)]
  simp [topCandidates, topCandidateAt, negativeCellStore, entry, rowOf]
  exact hval

theorem orderStore_itemsWellFormed : ItemsWellFormed (orderStore α) 4 :=
  ⟨by
    intro row hrow
    simp only [orderStore, List.mem_cons, List.mem_singleton, List.not_mem_nil,
      or_false] at hrow
    rcases hrow with h | h <;> rw [h] <;> rfl,
   by
    have h : (([(1, 0), (2, 1), (4, 3), (3, 2)] : List (Int × Nat)).map Prod.fst).Nodup := by
      decide
    exact h,
   by
    have h : ∀ p ∈ ([(1, 0), (2, 1), (4, 3), (3, 2)] : List (Int × Nat)), p.2 < 4 := by
      decide
    exact h⟩

end OrderEval

theorem orderStore_topCandidates :
    topCandidates Real.sqrt (orderStore ℝ) 0 = [(4, 3), (3, 5)] := by
  have hsim : simTo Real.sqrt (orderStore ℝ) 0 1 = 1 := by
    have c : commonOf ([1, 2, 0, 0] : List ℝ) [1, 2, 5, 3] = [(1, 1), (2, 2)] := by
      simp [commonOf, commonPure, List.range_succ]
    have hs : Real.sqrt 4 = 2 := by
      rw [show (4 : ℝ) = 2 * 2 by norm_num]
      exact Real.sqrt_mul_self (by norm_num)
    show similarityOfCommon Real.sqrt (commonOf ([1, 2, 0, 0] : List ℝ) [1, 2, 5, 3]) = 1
    rw [c, similarityOfCommon_eq, if_neg (List.cons_ne_nil _ _)]
    norm_num [crossSum, sqSum1, sqSum2]
    rw [hs]; norm_num
  have he2 : entry (orderStore ℝ) 1 2 = 5 := by simp [entry, rowOf, orderStore]
  have he3 : entry (orderStore ℝ) 1 3 = 3 := by simp [entry, rowOf, orderStore]
  have hval : ∀ mi v, entry (orderStore ℝ) 1 mi = v → 0 < v →
      ratingValue Real.sqrt (orderStore ℝ) 0 mi = v := by
    intro mi v hv hpos
    have hO := otherRaters_of_two (orderStore ℝ) mi rfl (by rw [hv]; exact hpos)
    have hS : absSimSum Real.sqrt (orderStore ℝ) 0 mi = 1 := by
      unfold absSimSum
      rw [hO]
      simp [hsim]
    have hW : weightedSum Real.sqrt (orderStore ℝ) 0 mi = v := by
      unfold weightedSum
      rw [hO]
      simp [hsim, hv]
    unfold ratingValue
    rw [hS, hW, if_pos one_pos, div_one]
  have h2 := hval 2 5 he2 (by norm_num)
  have h3 := hval 3 3 he3 (by norm_num)
  simp [topCandidates, topCandidateAt, orderStore, entry, rowOf]
  exact ⟨h3, h2⟩

theorem insertionSort_orderStore :
    insertionSortBy byScoreDesc [((4 : Int), (3 : ℝ)), ((3 : Int), (5 : ℝ))] =
      [(3, 5), (4, 3)] := by
  simp [insertionSortBy, List.insertionSort, List.orderedInsert, byScoreDesc]
  norm_num

/-- C8, counterexample: `negativeCellStore` has rows of equal length and
injective, in-range id maps; the cell of user `1` for item `1` is `-1`, which
is not the sentinel `0`, and `getTopNRecommendations(1, 5)` returns item `1`. -/
theorem topN_sentinel_counterexample :
    ItemsWellFormed (negativeCellStore ℝ) 2 ∧ InjectiveInRange (negativeCellStore ℝ) 2 ∧
    (getTopNRecommendations insertionSortBy Real.sqrt (negativeCellStore ℝ) 1 5).map Prod.fst =
      some [(1, 0)] ∧
    (negativeCellStore ℝ).movieIdToIndex.lookup 1 = some 0 ∧
    entry (negativeCellStore ℝ) (userIndexOf (negativeCellStore ℝ) 1) 0 = -1 ∧
    entry (negativeCellStore ℝ) (userIndexOf (negativeCellStore ℝ) 1) 0 ≠ 0 := by
  have hu : userIndexOf (negativeCellStore ℝ) 1 = 0 := by decide
  have he : entry (negativeCellStore ℝ) 0 0 = -1 := by
    simp [entry, rowOf, negativeCellStore]
  refine ⟨negativeCellStore_itemsWellFormed, ⟨by decide, by decide, by decide, by decide⟩,
    ?_, by decide, ?_, ?_⟩
  · rw [getTopNRecommendations_eq insertionSortBy Real.sqrt (negativeCellStore ℝ) 2 1 5
      negativeCellStore_itemsWellFormed (by decide), hu, negativeCellStore_topCandidates]
    simp [insertionSortBy]
  · rw [hu, he]
  · rw [hu, he]
    norm_num

theorem topN_sorted_witness :
    PartialSortContract fullPartialSort (byScoreDesc : Int × ℝ → Int × ℝ → Bool) ∧
    SortContract insertionSortBy (byScoreDesc : Int × ℝ → Int × ℝ → Bool) ∧
    ItemsWellFormed (orderStore ℝ) 4 ∧
    recommend fullPartialSort (orderRecommender ℝ) 0 2 = some [(3, 4), (2, 3)] ∧
    (getTopNRecommendations insertionSortBy Real.sqrt (orderStore ℝ) 1 2).map Prod.fst =
      some [(3, 5), (4, 3)] ∧
    (∃ res, recommend fullPartialSort (orderRecommender ℝ) 0 2 = some res ∧
      res.Pairwise (fun a b => b.2 ≤ a.2) ∧
      ∀ p ∈ res, predict (orderRecommender ℝ) 0 p.1 = some p.2) ∧
    (∃ res, getTopNRecommendations insertionSortBy Real.sqrt (orderStore ℝ) 1 2 =
        some (res, afterUserLookup (orderStore ℝ) 1) ∧
      res.Pairwise (fun a b => b.2 ≤ a.2) ∧
      ∀ p ∈ res, (predictRating Real.sqrt (orderStore ℝ) 1 p.1).map Prod.fst = some p.2) := by
  have h := topN_sorted fullPartialSort insertionSortBy Real.sqrt (orderRecommender ℝ) 0 2
    (orderStore ℝ) 4 1 2 fullPartialSort_contract insertionSortBy_contract
    orderRecommender_rows (by decide) (by decide) orderStore_itemsWellFormed (by decide)
  refine ⟨fullPartialSort_contract, insertionSortBy_contract, orderStore_itemsWellFormed,
    ?_, ?_, h.1, h.2⟩
  · rw [recommend_eq fullPartialSort (orderRecommender ℝ) 0 2 orderRecommender_rows
      (by decide) (by decide), orderRecommender_candidates]
    simp [fullPartialSort, insertionSort_order]
  · rw [getTopNRecommendations_eq insertionSortBy Real.sqrt (orderStore ℝ) 4 1 2
      orderStore_itemsWellFormed (by decide)]
    have hu : userIndexOf (orderStore ℝ) 1 = 0 := by decide
    rw [hu, orderStore_topCandidates]
    simp [insertionSort_orderStore]

theorem recommend_selects_best_witness :
    PartialSortContract fullPartialSort (byScoreDesc : Int × ℝ → Int × ℝ → Bool) ∧
    SortContract insertionSortBy (byScoreDesc : Int × ℝ → Int × ℝ → Bool) ∧
    candidates (orderRecommender ℝ) 0 = [(2, 3), (3, 4)] ∧
    recommend fullPartialSort (orderRecommender ℝ) 0 1 = some [(3, 4)] ∧
    ∃ res, recommend fullPartialSort (orderRecommender ℝ) 0 1 = some res ∧
      (∀ c ∈ candidates (orderRecommender ℝ) 0, c ∉ res → ∀ p ∈ res, c.2 ≤ p.2) ∧
      res.map Prod.snd =
        ((insertionSortBy byScoreDesc (candidates (orderRecommender ℝ) 0)).take
          (min (1 : Int).toNat (candidates (orderRecommender ℝ) 0).length)).map Prod.snd := by
  refine ⟨fullPartialSort_contract, insertionSortBy_contract, orderRecommender_candidates, ?_,
    recommend_selects_best fullPartialSort insertionSortBy (orderRecommender ℝ) 0 1
      fullPartialSort_contract insertionSortBy_contract orderRecommender_rows (by decide)
      (by decide)⟩
  rw [recommend_eq fullPartialSort (orderRecommender ℝ) 0 1 orderRecommender_rows
    (by decide) (by decide), orderRecommender_candidates]
  simp [fullPartialSort, insertionSort_order]

end MovieRec
